import Mathlib

/-! IronBuckets: session cipher, session middleware, pagination, archive export, object
browser and share links.

A shallow embedding of the Go sources of the console:

* `internal/services/auth_service.go`  (`AuthService`, `EncryptCredentials`, `DecryptCredentials`)
* `internal/middleware/auth_middleware.go` (`AuthMiddleware`)
* `internal/handlers/utils.go`, `internal/handlers/auth_handler.go`
* `internal/services/minio_factory.go` (`ListObjectsPaginated`)
* `internal/handlers/buckets_handler.go` (`DownloadZip`, `BrowseBucket`, `GenerateShareLink`,
  the file type helpers)
* `internal/models/browser.go`, `internal/utils/format.go`
* `internal/middleware/csrf.go`, `internal/middleware/security_headers.go` (`isSecureRequest`)

Calls into the Go standard library (`encoding/json`, `encoding/base64`, `crypto/aes`,
`crypto/cipher`, `archive/zip`), into echo and into the MinIO SDK are not part of the
repository.  They appear here as explicit parameters (`StdLib`, `MinioClient`, ...) whose
documented contracts are stated as hypotheses where a proof relies on them.
-/

namespace IronBuckets

/-! ## Basic data -/

/-- Go `[]byte`. -/
abbrev Bytes := List UInt8

/-- The struct `Credentials` of `auth_service.go`.  The fields are Lean strings, that is,
sequences of Unicode scalar values: exactly the Go strings that are valid UTF-8. -/
structure Credentials where
  Endpoint : String
  AccessKey : String
  SecretKey : String
  SessionToken : String
  deriving DecidableEq, Repr

/-- The struct `AuthService`. -/
structure AuthService where
  encryptionKey : Bytes
  deriving DecidableEq, Repr

/-- The `error` values that `EncryptCredentials` and `DecryptCredentials` can return, one per
failing call in the source. -/
inductive AuthError where
  /-- `json.Marshal` failed -/
  | marshal
  /-- `aes.NewCipher` rejected the key length -/
  | keySize
  /-- `io.ReadFull(rand.Reader, nonce)` failed -/
  | randRead
  /-- `base64.URLEncoding.DecodeString` failed -/
  | base64
  /-- `errors.New("malformed ciphertext")` -/
  | malformedCiphertext
  /-- `gcm.Open` failed: message authentication failed -/
  | authFailed
  /-- `json.Unmarshal` failed -/
  | unmarshal
  deriving DecidableEq, Repr

/-- Result of a Go call that returns `(value, error)` and may also panic at run time. -/
inductive GoResult (α : Type) where
  | ok (a : α)
  | error (e : AuthError)
  | panicked
  deriving DecidableEq, Repr

/-- The standard-library functions the cipher calls, as an interface.
`gcmSeal key nonce plaintext` is the AES-GCM sealing of `plaintext` (ciphertext followed by
the tag) under `key` and a 12-byte `nonce` with no additional data, `gcmOpen` its inverse. -/
structure StdLib where
  /-- `json.Marshal(creds)` for a `Credentials` value -/
  jsonMarshal : Credentials → Option Bytes
  /-- `json.Unmarshal(plaintext, &creds)` into a zero `Credentials` -/
  jsonUnmarshal : Bytes → Option Credentials
  /-- `base64.URLEncoding.EncodeToString` -/
  base64Encode : Bytes → String
  /-- `base64.URLEncoding.DecodeString` -/
  base64Decode : String → Option Bytes
  /-- the bytes `gcm.Seal` appends to its destination -/
  gcmSeal : Bytes → Bytes → Bytes → Bytes
  /-- the plaintext `gcm.Open` recovers, `none` when authentication fails -/
  gcmOpen : Bytes → Bytes → Bytes → Option Bytes

/-- The documented contracts of the library functions that the round trip relies on. -/
structure StdLibLaws (L : StdLib) : Prop where
  /-- marshalling a struct of four strings never fails -/
  marshal_total : ∀ R, ∃ data, L.jsonMarshal R = some data
  /-- `json.Unmarshal` reads back what `json.Marshal` wrote (with `sessionToken` omitted when
  empty, which leaves the zero value in place) -/
  unmarshal_marshal : ∀ R data, L.jsonMarshal R = some data → L.jsonUnmarshal data = some R
  /-- decoding inverts encoding -/
  decode_encode : ∀ b, L.base64Decode (L.base64Encode b) = some b
  /-- opening under the same key and nonce inverts sealing -/
  open_seal : ∀ key nonce pt, L.gcmOpen key nonce (L.gcmSeal key nonce pt) = some pt

/-- The authenticity of AES-GCM, as a contract of the library.  `open_genuine` holds
exactly: `Open` recomputes the tag of the bytes it is given, so what it accepts under a key
and a nonce is the very output of `Seal` on the plaintext it returns.  `wrong_key` is the
guarantee that a message sealed under one key does not authenticate under another, taken
without the forgery probability of the 128-bit tag. -/
structure AeadLaws (L : StdLib) : Prop where
  /-- what opens is what `Seal` produced under the same key and nonce -/
  open_genuine : ∀ key nonce sealed pt,
    L.gcmOpen key nonce sealed = some pt → sealed = L.gcmSeal key nonce pt
  /-- a message sealed under one 32-byte key does not open under another -/
  wrong_key : ∀ key key' nonce pt, key.length = 32 → key'.length = 32 → key ≠ key' →
    L.gcmOpen key' nonce (L.gcmSeal key nonce pt) = none

/-! ## `crypto/aes`, `crypto/cipher`: the calls made by the service -/

/-- The value returned by `aes.NewCipher`: a block cipher bound to its key. -/
structure AesBlock where
  key : Bytes
  deriving DecidableEq, Repr

/-- `aes.NewCipher(key)`: a `KeySizeError` unless the key has 16, 24 or 32 bytes. -/
def aesNewCipher (key : Bytes) : Option AesBlock :=
  if key.length = 16 ∨ key.length = 24 ∨ key.length = 32 then some ⟨key⟩ else none

/-- `gcm.NonceSize()` for the standard GCM returned by `cipher.NewGCM`. -/
def gcmNonceSize : Nat := 12

/-- `gcm.Seal(dst, nonce, plaintext, nil)`: appends the sealed message to `dst`; panics when
the nonce does not have `NonceSize()` bytes. -/
def gcmSealCall (L : StdLib) (block : AesBlock) (dst nonce plaintext : Bytes) : GoResult Bytes :=
  if nonce.length = gcmNonceSize then .ok (dst ++ L.gcmSeal block.key nonce plaintext)
  else .panicked

/-- `gcm.Open(nil, nonce, ciphertext, nil)`: panics when the nonce does not have
`NonceSize()` bytes, returns an error when authentication fails. -/
def gcmOpenCall (L : StdLib) (block : AesBlock) (nonce ciphertext : Bytes) : GoResult Bytes :=
  if nonce.length = gcmNonceSize then
    match L.gcmOpen block.key nonce ciphertext with
    | some plaintext => .ok plaintext
    | none => .error .authFailed
  else .panicked

/-- The slice expression `b[:n]`, which panics when `n` exceeds the length. -/
def sliceTo (b : Bytes) (n : Nat) : GoResult Bytes :=
  if n ≤ b.length then .ok (b.take n) else .panicked

/-- The slice expression `b[n:]`, which panics when `n` exceeds the length. -/
def sliceFrom (b : Bytes) (n : Nat) : GoResult Bytes :=
  if n ≤ b.length then .ok (b.drop n) else .panicked

/-- `io.ReadFull(rand.Reader, buf)` for a buffer of `n` bytes.  `entropy` is what the reader
delivers (`none`: a read error); fewer than `n` bytes is an error as well. -/
def readFull (entropy : Option Bytes) (n : Nat) : Option Bytes :=
  match entropy with
  | some bs => if n ≤ bs.length then some (bs.take n) else none
  | none => none

/-! ## `AuthService` -/

/-- `AuthService.EncryptCredentials`.  `entropy` is the output of `rand.Reader`. -/
def EncryptCredentials (L : StdLib) (s : AuthService) (entropy : Option Bytes)
    (creds : Credentials) : GoResult String :=
  match L.jsonMarshal creds with
  | none => .error .marshal
  | some data =>
    match aesNewCipher s.encryptionKey with
    | none => .error .keySize
    | some block =>
      match readFull entropy gcmNonceSize with
      | none => .error .randRead
      | some nonce =>
        match gcmSealCall L block nonce nonce data with
        | .ok ciphertext => .ok (L.base64Encode ciphertext)
        | .error e => .error e
        | .panicked => .panicked

/-- `AuthService.DecryptCredentials`. -/
def DecryptCredentials (L : StdLib) (s : AuthService) (encrypted : String) :
    GoResult Credentials :=
  match L.base64Decode encrypted with
  | none => .error .base64
  | some ciphertext =>
    match aesNewCipher s.encryptionKey with
    | none => .error .keySize
    | some block =>
      if ciphertext.length < gcmNonceSize then .error .malformedCiphertext
      else
        match sliceTo ciphertext gcmNonceSize, sliceFrom ciphertext gcmNonceSize with
        | .ok nonce, .ok rest =>
          match gcmOpenCall L block nonce rest with
          | .ok plaintext =>
            match L.jsonUnmarshal plaintext with
            | some creds => .ok creds
            | none => .error .unmarshal
          | .error e => .error e
          | .panicked => .panicked
        | _, _ => .panicked

/-! ## A small executable instance of the library interface

Used to run the model on concrete inputs.  Text is coded one character at a time (a marker
byte and the code point in three bytes), byte strings one character per byte, and the seal
appends the nonce and the key as a tag. -/

/-- The code of one character: the marker `1` and its code point, big-endian. -/
def refEncodeChar (c : Char) : Bytes :=
  [1, UInt8.ofNat (c.toNat / 65536), UInt8.ofNat (c.toNat / 256 % 256), UInt8.ofNat (c.toNat % 256)]

/-- The code of a string: its characters, then the end marker `0`. -/
def refEncodeChars : List Char → Bytes
  | [] => [0]
  | c :: cs => refEncodeChar c ++ refEncodeChars cs

/-- Reads one coded string off the front of the input. -/
def refDecodeChars : Bytes → Option (List Char × Bytes)
  | [] => none
  | t :: rest =>
    if t = 0 then some ([], rest)
    else
      match rest with
      | a :: b :: c :: rest' =>
        if t = 1 then
          match refDecodeChars rest' with
          | some (cs, out) =>
            some (Char.ofNat (a.toNat * 65536 + b.toNat * 256 + c.toNat) :: cs, out)
          | none => none
        else none
      | _ => none

/-- The reference instance of `StdLib`. -/
def refLib : StdLib where
  jsonMarshal R :=
    some (refEncodeChars R.Endpoint.data ++ refEncodeChars R.AccessKey.data ++
      refEncodeChars R.SecretKey.data ++ refEncodeChars R.SessionToken.data)
  jsonUnmarshal data :=
    match refDecodeChars data with
    | none => none
    | some (e, r1) =>
      match refDecodeChars r1 with
      | none => none
      | some (a, r2) =>
        match refDecodeChars r2 with
        | none => none
        | some (k, r3) =>
          match refDecodeChars r3 with
          | some (t, []) => some ⟨⟨e⟩, ⟨a⟩, ⟨k⟩, ⟨t⟩⟩
          | _ => none
  base64Encode b := ⟨b.map fun x => Char.ofNat x.toNat⟩
  base64Decode s :=
    if s.data.all (fun c => decide (c.toNat < 256)) then some (s.data.map fun c => UInt8.ofNat c.toNat)
    else none
  gcmSeal key nonce pt := pt ++ (nonce ++ key)
  gcmOpen key nonce sealed :=
    if (nonce ++ key).length ≤ sealed.length ∧
        sealed.drop (sealed.length - (nonce ++ key).length) = nonce ++ key then
      some (sealed.take (sealed.length - (nonce ++ key).length))
    else none

/-! ## `net/http` and echo: requests, responses, the request context

Only what the handlers of this repository touch is modelled.  Header keys are the canonical
MIME keys that `net/http` stores; the `Set-Cookie` lines of a response are kept as the
cookie structs they were written from. -/

/-- `http.SameSite`. -/
inductive SameSite where
  | unset
  | default
  | lax
  | strict
  | none
  deriving DecidableEq, Repr

/-- `http.Cookie`, with `time.Time` as nanoseconds since the Unix epoch (`none`: the zero
time of an unset field). -/
structure Cookie where
  Name : String
  Value : String
  Path : String
  Expires : Option Int
  MaxAge : Int
  Secure : Bool
  HttpOnly : Bool
  SameSite : SameSite
  deriving DecidableEq, Repr

/-- `new(http.Cookie)`: the zero value. -/
def Cookie.zero : Cookie := ⟨"", "", "", none, 0, false, false, .unset⟩

/-- `http.Header`: the values stored under each canonical key. -/
abbrev Header := List (String × List String)

/-- `Header.Get(key)` for a canonical key: the first value stored under it, or `""`. -/
def Header.Get (h : Header) (key : String) : String :=
  match h.lookup key with
  | some (v :: _) => v
  | _ => ""

/-- `Header.Set(key, value)` for a canonical key: replaces the values stored under it. -/
def Header.Set (h : Header) (key value : String) : Header :=
  (key, [value]) :: h.filter (fun kv => kv.1 != key)

/-- Whether a header holds an entry under `key`. -/
def Header.Has (h : Header) (key : String) : Bool :=
  (h.lookup key).isSome

/-- `http.Request`, as far as the handlers read it.  `Cookies` are the cookies of the
`Cookie` header in order, `TLS` is `true` when `req.TLS != nil`. -/
structure Request where
  Method : String
  Path : String
  Header : Header
  Cookies : List Cookie
  TLS : Bool
  Form : List (String × String)
  Query : List (String × String)
  deriving DecidableEq, Repr

/-- One item written to the body of a response. -/
inductive BodyChunk where
  /-- text written by `c.HTML`, `c.String` or a renderer -/
  | text (s : String)
  /-- one file record of a zip archive: the entry name and the bytes copied into it -/
  | zipEntry (name : String) (data : Bytes)
  /-- the central directory written when the zip writer is closed -/
  | zipDirectory
  deriving DecidableEq, Repr

/-- `echo.Response` with the `http.ResponseWriter` behind it. -/
structure Response where
  Header : Header
  SetCookies : List Cookie
  Status : Nat
  Committed : Bool
  Body : List BodyChunk
  deriving DecidableEq, Repr

/-- `Response.WriteHeader(code)`: ignored (with a warning) once the response is committed. -/
def Response.WriteHeader (r : Response) (code : Nat) : Response :=
  if r.Committed then r else { r with Status := code, Committed := true }

/-- A value stored in the echo context with `c.Set`. -/
inductive CtxValue where
  /-- a `*services.Credentials` -/
  | creds (p : Credentials)
  /-- a value of any other type -/
  | other (tag : String)
  deriving DecidableEq, Repr

/-- `echo.Context`: the request, the response and the key/value store. -/
structure Context where
  request : Request
  response : Response
  store : List (String × CtxValue)
  params : List (String × String)
  deriving DecidableEq, Repr

/-- `ContextKeyCreds` of `internal/utils/context.go`. -/
def ContextKeyCreds : String := "creds"

/-- `CookieName` of `internal/utils/context.go`. -/
def CookieName : String := "IronSeal"

/-- `c.Get(key)`; `none` is Go's `nil`. -/
def Context.Get (c : Context) (key : String) : Option CtxValue :=
  c.store.lookup key

/-- `c.Set(key, val)`. -/
def Context.Set (c : Context) (key : String) (val : CtxValue) : Context :=
  { c with store := (key, val) :: c.store.filter (fun kv => kv.1 != key) }

/-- `c.Cookie(name)`, that is `Request.Cookie(name)`: the first cookie of that name, or
`http.ErrNoCookie` (`none`). -/
def Context.Cookie (c : Context) (name : String) : Option Cookie :=
  if name = "" then none else c.request.Cookies.find? (fun k => k.Name == name)

/-- The characters `net/http` accepts in a cookie name: the token characters of RFC 7230. -/
def isTokenChar (ch : Char) : Bool :=
  ch.isAlphanum || [33, 35, 36, 37, 38, 39, 42, 43, 45, 46, 94, 95, 96, 124, 126].contains ch.toNat

/-- `isCookieNameValid` of `net/http`. -/
def isCookieNameValid (name : String) : Bool :=
  name != "" && name.data.all isTokenChar

/-- `c.SetCookie(cookie)`, that is `http.SetCookie`: adds a `Set-Cookie` line unless the
cookie name is invalid. -/
def Context.SetCookie (c : Context) (cookie : IronBuckets.Cookie) : Context :=
  if isCookieNameValid cookie.Name then
    { c with response := { c.response with SetCookies := c.response.SetCookies ++ [cookie] } }
  else c

/-- The `error` a handler returns. -/
inductive HandlerError where
  /-- `echo.NewHTTPError(code, message)` -/
  | http (code : Nat) (message : String)
  /-- `echo.ErrInvalidRedirectCode` -/
  | invalidRedirectCode
  /-- `echo.ErrRendererNotRegistered` or an error of the renderer -/
  | render
  deriving DecidableEq, Repr

/-- `http.StatusOK`. -/
def StatusOK : Nat := 200
/-- `http.StatusSeeOther`. -/
def StatusSeeOther : Nat := 303
/-- `http.StatusUnauthorized`. -/
def StatusUnauthorized : Nat := 401
/-- `http.StatusNotFound`. -/
def StatusNotFound : Nat := 404
/-- `http.StatusInternalServerError`. -/
def StatusInternalServerError : Nat := 500

/-- `c.Redirect(code, url)`. -/
def Context.Redirect (c : Context) (code : Nat) (url : String) : Context × Option HandlerError :=
  if code < 300 ∨ code > 308 then (c, some .invalidRedirectCode)
  else
    ({ c with response :=
        ({ c.response with Header := c.response.Header.Set "Location" url }).WriteHeader code },
      none)

/-- `c.NoContent(code)`. -/
def Context.NoContent (c : Context) (code : Nat) : Context × Option HandlerError :=
  ({ c with response := c.response.WriteHeader code }, none)

/-- `c.HTML(code, html)`: content type, status, body. -/
def Context.HTML (c : Context) (code : Nat) (html : String) : Context × Option HandlerError :=
  let r := { c.response with Header := c.response.Header.Set "Content-Type" "text/html; charset=UTF-8" }
  let r := r.WriteHeader code
  ({ c with response := { r with Body := r.Body ++ [.text html] } }, none)

/-- What running a handler on a context yields: it returns (with its `error`), or panics. -/
inductive Outcome where
  | returned (c : Context) (err : Option HandlerError)
  | panicked (c : Context)
  deriving DecidableEq, Repr

/-- `echo.HandlerFunc`. -/
abbrev HandlerFunc := Context → Outcome

/-- A run of a middleware: its outcome, and the contexts with which it invoked the
downstream handler, in order. -/
structure MiddlewareRun where
  outcome : Outcome
  nextCalls : List Context
  deriving DecidableEq, Repr

/-! ## `internal/middleware/auth_middleware.go` -/

/-- `AuthMiddleware(authService)(next)(c)`. -/
def AuthMiddleware (L : StdLib) (authService : AuthService) (next : HandlerFunc)
    (c : Context) : MiddlewareRun :=
  let path := c.request.Path
  if path = "/login" ∨ path = "/health" ∨ path = "/logout" ∨
      path = "/login/oauth" ∨ path = "/oauth/callback" then
    ⟨next c, [c]⟩
  else
    match c.Cookie CookieName with
    | none =>
      let (c', err) := c.Redirect StatusSeeOther "/login"
      ⟨.returned c' err, []⟩
    | some cookie =>
      match DecryptCredentials L authService cookie.Value with
      | .error _ =>
        let cookie := { cookie with MaxAge := -1 }
        let c := c.SetCookie cookie
        let (c', err) := c.Redirect StatusSeeOther "/login"
        ⟨.returned c' err, []⟩
      | .panicked => ⟨.panicked c, []⟩
      | .ok creds =>
        let c := c.Set ContextKeyCreds (.creds creds)
        ⟨next c, [c]⟩

/-! ## `internal/handlers/utils.go` -/

/-- `GetCredentials(c)`: the record (`*services.Credentials`) or a 401 error. -/
def GetCredentials (c : Context) : Except HandlerError Credentials :=
  match c.Get ContextKeyCreds with
  | none => .error (.http StatusUnauthorized "Unauthorized")
  | some (.creds creds) => .ok creds
  | some (.other _) => .error (.http StatusUnauthorized "Unauthorized")

/-- `GetCredentialsOrRedirect(c)`: the pair `(creds, err)` it returns (`none`: `nil`), and
the context after the redirect it may have written. -/
def GetCredentialsOrRedirect (c : Context) : Context × Option Credentials × Option HandlerError :=
  match GetCredentials c with
  | .error _ =>
    let (c', err) := c.Redirect StatusSeeOther "/login"
    (c', none, err)
  | .ok creds => (c, some creds, none)

/-- `HTMXRedirect(c, url)`; `Hx-Redirect` is the canonical form of the key `HX-Redirect`. -/
def HTMXRedirect (c : Context) (url : String) : Context × Option HandlerError :=
  { c with response := { c.response with Header := c.response.Header.Set "Hx-Redirect" url } }.NoContent
    StatusOK

/-! ## Strings (`strings` of the Go standard library)

Go strings are byte strings; on valid UTF-8 text the byte-wise prefix and suffix relations
and the byte-wise order coincide with the ones on sequences of code points used here. -/

/-- `strings.HasPrefix(s, p)`. -/
def HasPrefix (s p : String) : Bool := p.data.isPrefixOf s.data

/-- `strings.HasSuffix(s, suffix)`. -/
def HasSuffix (s suffix : String) : Bool := suffix.data.isSuffixOf s.data

/-- `strings.TrimPrefix(s, p)`. -/
def TrimPrefix (s p : String) : String :=
  if HasPrefix s p then ⟨s.data.drop p.data.length⟩ else s

/-- `strings.TrimSuffix(s, suffix)`. -/
def TrimSuffix (s suffix : String) : String :=
  if HasSuffix s suffix then ⟨s.data.take (s.data.length - suffix.data.length)⟩ else s

/-- The text after the last `sep` character: `s[strings.LastIndex(s, sep)+1:]` when the
index is not negative, and `s` itself otherwise. -/
def afterLast (sep : Char) : List Char → List Char
  | [] => []
  | ch :: rest =>
    if rest.contains sep then afterLast sep rest
    else if ch = sep then rest else ch :: rest

/-! ## The MinIO SDK and `internal/services/minio_factory.go` -/

/-- `minio.ObjectInfo`: the fields this program reads.  `Err` is the error carried by an
item of a listing channel (`none`: `nil`). -/
structure Minio.ObjectInfo where
  Key : String
  Size : Int
  LastModified : Int
  ContentType : String
  Err : Option String
  deriving DecidableEq, Repr

/-- `minio.ListObjectsOptions`: the fields this program sets.  An empty `StartAfter` is
the unset field. -/
structure Minio.ListObjectsOptions where
  Prefix : String
  Recursive : Bool
  StartAfter : String
  deriving DecidableEq, Repr

/-- `*minio.Client`: `ListObjects` gives the items its channel delivers, in order. -/
structure Minio.Client where
  ListObjects : String → Minio.ListObjectsOptions → List Minio.ObjectInfo

/-- `DefaultPageSize`. -/
def DefaultPageSize : Int := 100

/-- `services.ListObjectsOptions`. -/
structure ListObjectsOptions where
  Prefix : String
  Recursive : Bool
  MaxKeys : Int
  ContinuationToken : String
  deriving DecidableEq, Repr

/-- `services.ListObjectsResult`. -/
structure ListObjectsResult where
  Objects : List Minio.ObjectInfo
  IsTruncated : Bool
  NextContinuationToken : String
  deriving DecidableEq, Repr

/-- `WrappedMinioClient`. -/
structure WrappedMinioClient where
  client : Minio.Client

/-- The `for obj := range ...` loop of `ListObjectsPaginated`: `objects` and `lastKey` are
the loop variables, the result is their value when the loop is left, or the error of the
item that ended it. -/
def listLoop (maxKeys : Int) :
    List Minio.ObjectInfo → List Minio.ObjectInfo → String →
      Except String (List Minio.ObjectInfo × String)
  | [], objects, lastKey => .ok (objects, lastKey)
  | obj :: rest, objects, _ =>
    match obj.Err with
    | some e => .error e
    | none =>
      let objects := objects ++ [obj]
      let lastKey := obj.Key
      if (objects.length : Int) ≥ maxKeys then .ok (objects, lastKey)
      else listLoop maxKeys rest objects lastKey

/-- `WrappedMinioClient.ListObjectsPaginated`.  An error return carries both values of the
Go return statement: the result (`ListObjectsResult{}`) and the error. -/
def WrappedMinioClient.ListObjectsPaginated (c : WrappedMinioClient) (bucketName : String)
    (opts : ListObjectsOptions) : Except (ListObjectsResult × String) ListObjectsResult :=
  let maxKeys := if opts.MaxKeys ≤ 0 then DefaultPageSize else opts.MaxKeys
  let minioOpts : Minio.ListObjectsOptions :=
    { Prefix := opts.Prefix, Recursive := opts.Recursive, StartAfter := "" }
  let minioOpts :=
    if opts.ContinuationToken ≠ "" then { minioOpts with StartAfter := opts.ContinuationToken }
    else minioOpts
  match listLoop maxKeys (c.client.ListObjects bucketName minioOpts) [] "" with
  | .error e => .error ({ Objects := [], IsTruncated := false, NextContinuationToken := "" }, e)
  | .ok (objects, lastKey) =>
    let result : ListObjectsResult :=
      { Objects := objects, IsTruncated := decide ((objects.length : Int) ≥ maxKeys),
        NextContinuationToken := "" }
    .ok (if result.IsTruncated then { result with NextContinuationToken := lastKey } else result)

/-- The caller's side of pagination: call `ListObjectsPaginated` with the given token, and
while the page reports `IsTruncated` feed its `NextContinuationToken` into the next call.
`none` when `fuel` calls were not enough or a call failed; otherwise the pages in order. -/
def fetchPages (c : WrappedMinioClient) (bucketName : String) (opts : ListObjectsOptions) :
    Nat → String → Option (List ListObjectsResult)
  | 0, _ => none
  | fuel + 1, token =>
    match c.ListObjectsPaginated bucketName { opts with ContinuationToken := token } with
    | .error _ => none
    | .ok page =>
      if page.IsTruncated then
        (fetchPages c bucketName opts fuel page.NextContinuationToken).map (page :: ·)
      else some [page]

/-- A backend holding `objs` (no item carries an error) that honours `StartAfter` as
"strictly greater than" and treats the empty `StartAfter` as unset. -/
def listingBackend (objs : List Minio.ObjectInfo) : Minio.Client where
  ListObjects _ opts :=
    if opts.StartAfter = "" then objs else objs.filter (fun o => decide (opts.StartAfter < o.Key))

/-- An error-free object with the given key. -/
def objWithKey (key : String) : Minio.ObjectInfo := ⟨key, 0, 0, "", none⟩

/-! ## `services.MinioClient` and the client factory -/

/-- The `io.ReadCloser` that `GetObjectReader` returns: the bytes it yields, and whether
the stream ends with a read error instead of `io.EOF`. -/
structure ObjectReader where
  Data : Bytes
  Err : Bool
  deriving DecidableEq, Repr

/-- `services.MinioClient`: the methods the handlers modelled here call (`none`: the call
returned an error). -/
structure MinioClient where
  ListBuckets : Option (List String)
  ListObjects : String → Minio.ListObjectsOptions → Option (List Minio.ObjectInfo)
  GetObjectReader : String → String → Option (ObjectReader × Int)
  /-- `PresignedGetObject(ctx, bucketName, objectName, expires, nil)`: the URL as text, or the
  text of the error; `expires` is a `time.Duration`, in nanoseconds -/
  PresignedGetObject : String → String → Int → Except String String

/-- `services.MinioClientFactory`. -/
structure MinioClientFactory where
  NewClient : Credentials → Option MinioClient

/-! ## `internal/handlers/auth_handler.go` -/

/-- `AuthHandler`. -/
structure AuthHandler where
  authService : AuthService
  minioFactory : MinioClientFactory
  minioEndpoint : String

/-- `time.Hour` in nanoseconds. -/
def timeHour : Int := 3600000000000

/-- `c.FormValue(name)`: the first value of the form field, or `""`. -/
def Context.FormValue (c : Context) (name : String) : String :=
  (c.request.Form.lookup name).getD ""

/-- `c.QueryParam(name)`: the first value of the query parameter, or `""`. -/
def Context.QueryParam (c : Context) (name : String) : String :=
  (c.request.Query.lookup name).getD ""

/-- `c.Param(name)`: the path parameter, or `""`. -/
def Context.Param (c : Context) (name : String) : String :=
  (c.params.lookup name).getD ""

/-- `c.Render(code, name, data)`: `renderer` is `c.Echo().Renderer` (`none`: not
registered); it maps the template name and its data to the rendered text or fails. -/
def Context.Render (c : Context) (renderer : Option (String → String → Option String))
    (code : Nat) (name data : String) : Context × Option HandlerError :=
  match renderer with
  | none => (c, some .render)
  | some r =>
    match r name data with
    | none => (c, some .render)
    | some html => c.HTML code html

/-- `requestIsSecure(c)`. -/
def requestIsSecure (c : Context) : Bool :=
  if c.request.TLS then true
  else c.request.Header.Get "X-Forwarded-Proto" == "https"

/-- `AuthHandler.Login`.  `now` is `time.Now()`, `entropy` the output of `rand.Reader`. -/
def AuthHandler.Login (L : StdLib) (h : AuthHandler)
    (renderer : Option (String → String → Option String)) (entropy : Option Bytes) (now : Int)
    (c : Context) : Outcome :=
  let accessKey := c.FormValue "accessKey"
  let secretKey := c.FormValue "secretKey"
  let creds : Credentials :=
    { Endpoint := h.minioEndpoint, AccessKey := accessKey, SecretKey := secretKey,
      SessionToken := "" }
  match h.minioFactory.NewClient creds with
  | none =>
    let (c', err) := c.Render renderer StatusOK "login_error" "Invalid Configuration"
    .returned c' err
  | some s3Client =>
    match s3Client.ListBuckets with
    | none =>
      let (c', err) := c.HTML StatusOK
        "<div id=\"error-message\" class=\"text-red-500 text-sm text-center block mb-4\">Authentication Failed: Invalid Credentials or Endpoint Unreachable</div>"
      .returned c' err
    | some _ =>
      match EncryptCredentials L h.authService entropy creds with
      | .error _ =>
        let (c', err) := c.HTML StatusInternalServerError "Failed to create session"
        .returned c' err
      | .panicked => .panicked c
      | .ok encrypted =>
        let cookie : Cookie :=
          { Cookie.zero with
            Name := CookieName, Value := encrypted, Expires := some (now + 24 * timeHour),
            Path := "/", HttpOnly := true, SameSite := .strict, Secure := requestIsSecure c }
        let c := c.SetCookie cookie
        let (c', err) := HTMXRedirect c "/"
        .returned c' err

/-- `AuthHandler.Logout`.  `now` is `time.Now()`. -/
def AuthHandler.Logout (now : Int) (c : Context) : Outcome :=
  let cookie : Cookie :=
    { Cookie.zero with
      Name := CookieName, Value := "", Expires := some (now + (-1) * timeHour), MaxAge := -1,
      Path := "/", HttpOnly := true, SameSite := .strict, Secure := requestIsSecure c }
  let c := c.SetCookie cookie
  let (c', err) := c.Redirect StatusSeeOther "/login"
  .returned c' err

/-! ## `internal/handlers/buckets_handler.go`: `DownloadZip` -/

/-- `BucketsHandler`. -/
structure BucketsHandler where
  minioFactory : MinioClientFactory

/-- What `archive/zip` and `fmt` contribute to `DownloadZip`: whether `zipWriter.Create(name)`
succeeds, and `%q`, the quoting of the file name in the `Content-Disposition` header.  The
response writer is taken to accept every write. -/
structure ZipLib where
  createOk : String → Bool
  quote : String → String

/-- What `DownloadZip` does to its collaborators, in order. -/
inductive ZipEvent where
  /-- `GetObjectReader` returned a reader for the key -/
  | opened (key : String)
  /-- `GetObjectReader` returned an error for the key -/
  | openFailed (key : String)
  /-- `zip.NewWriter` -/
  | writerCreated
  /-- `zipWriter.Create(name)` succeeded -/
  | created (name : String)
  /-- `zipWriter.Create(name)` failed -/
  | createFailed (name : String)
  /-- `io.Copy` into the entry ended, with or without an error -/
  | copied (name : String) (ok : Bool)
  /-- `reader.Close()` on the reader of the key -/
  | readerClosed (key : String)
  /-- `zipWriter.Close()` -/
  | writerClosed
  deriving DecidableEq, Repr

/-- A run of `DownloadZip`: how it ended and what it did to its collaborators. -/
structure ZipRun where
  outcome : Outcome
  events : List ZipEvent
  deriving DecidableEq, Repr

/-- The name of the archive: `zipName` of `DownloadZip`. -/
def zipFileName (bucketName pfx : String) : String :=
  if pfx ≠ "" then
    let folderName := TrimSuffix pfx "/"
    (⟨afterLast '/' folderName.data⟩ : String) ++ ".zip"
  else bucketName ++ ".zip"

/-- The loop `for _, obj := range files` of `DownloadZip`: the body of the response and the
events, after the remaining files have been processed. -/
def zipLoop (Z : ZipLib) (client : MinioClient) (bucketName pfx : String) :
    List Minio.ObjectInfo → List BodyChunk → List ZipEvent → List BodyChunk × List ZipEvent
  | [], body, events => (body, events)
  | obj :: files, body, events =>
    match client.GetObjectReader bucketName obj.Key with
    | none => zipLoop Z client bucketName pfx files body (events ++ [.openFailed obj.Key])
    | some (reader, _) =>
      let relativePath := TrimPrefix obj.Key pfx
      if Z.createOk relativePath then
        zipLoop Z client bucketName pfx files (body ++ [.zipEntry relativePath reader.Data])
          (events ++ [.opened obj.Key, .created relativePath,
            .copied relativePath (!reader.Err), .readerClosed obj.Key])
      else
        zipLoop Z client bucketName pfx files body
          (events ++ [.opened obj.Key, .createFailed relativePath, .readerClosed obj.Key])

/-- `BucketsHandler.DownloadZip`. -/
def BucketsHandler.DownloadZip (Z : ZipLib) (h : BucketsHandler) (c : Context) : ZipRun :=
  match GetCredentialsOrRedirect c with
  | (c, _, some err) => ⟨.returned c (some err), []⟩
  | (c, none, none) => ⟨.panicked c, []⟩
  | (c, some creds, none) =>
    let bucketName := c.Param "bucketName"
    let pfx := c.QueryParam "prefix"
    match h.minioFactory.NewClient creds with
    | none =>
      ⟨.returned c (some (.http StatusInternalServerError "Failed to connect to MinIO")), []⟩
    | some client =>
      match client.ListObjects bucketName { Prefix := pfx, Recursive := true, StartAfter := "" } with
      | none =>
        ⟨.returned c (some (.http StatusInternalServerError "Failed to list objects")), []⟩
      | some objectsList =>
        let files := objectsList.filter (fun obj => !HasSuffix obj.Key "/")
        if files.length = 0 then
          ⟨.returned c (some (.http StatusNotFound "No files to download")), []⟩
        else
          let zipName := zipFileName bucketName pfx
          let r := c.response
          let r := { r with Header := r.Header.Set "Content-Type" "application/zip" }
          let disposition := "attachment; filename=" ++ Z.quote zipName
          let r := { r with Header := r.Header.Set "Content-Disposition" disposition }
          let r := r.WriteHeader StatusOK
          let (body, events) := zipLoop Z client bucketName pfx files r.Body [.writerCreated]
          ⟨.returned { c with response := { r with Body := body ++ [.zipDirectory] } } none,
            events ++ [.writerClosed]⟩

/-! ## `internal/models/browser.go` -/

/-- `models.ObjectInfo`. -/
structure Models.ObjectInfo where
  Key : String
  DisplayName : String
  Size : Int
  FormattedSize : String
  LastModified : Int
  ContentType : String
  IsImage : Bool
  IsText : Bool
  IsVideo : Bool
  IsArchive : Bool
  IsPreviewable : Bool
  deriving DecidableEq, Repr

/-- `models.FolderInfo`. -/
structure Models.FolderInfo where
  Name : String
  Prefix : String
  deriving DecidableEq, Repr

/-- `models.Breadcrumb`. -/
structure Models.Breadcrumb where
  Name : String
  Path : String
  deriving DecidableEq, Repr

/-! ## `internal/handlers/buckets_handler.go`: file types -/

/-- What `BrowseBucket` takes from outside this file: `strings.ToLower` (Unicode case
mapping) and `utils.FormatFileSize` (floating-point formatting). -/
structure BrowseLib where
  ToLower : String → String
  FormatFileSize : Int → String

/-- `filepath.Ext` on characters: walking back from the end, the suffix from the first dot
met, or nothing when a slash or the start comes first. -/
def extChars : List Char → List Char
  | [] => []
  | ch :: rest =>
    if rest.any (fun x => x == '.' || x == '/') then extChars rest
    else if ch = '.' then ch :: rest else []

/-- `filepath.Ext(path)`. -/
def filepathExt (path : String) : String := ⟨extChars path.data⟩

/-- The table `types` of `getContentTypeFromExt`. -/
def contentTypes : List (String × String) :=
  [(".jpg", "image/jpeg"), (".jpeg", "image/jpeg"), (".png", "image/png"),
    (".gif", "image/gif"), (".webp", "image/webp"), (".svg", "image/svg+xml"),
    (".txt", "text/plain"), (".md", "text/markdown"), (".json", "application/json"),
    (".xml", "application/xml"), (".html", "text/html"), (".css", "text/css"),
    (".js", "application/javascript"), (".pdf", "application/pdf"), (".mp4", "video/mp4"),
    (".webm", "video/webm"), (".mp3", "audio/mpeg"), (".zip", "application/zip"),
    (".tar", "application/x-tar"), (".gz", "application/gzip")]

/-- `getContentTypeFromExt(filename)`. -/
def getContentTypeFromExt (B : BrowseLib) (filename : String) : String :=
  let ext := B.ToLower (filepathExt filename)
  match contentTypes.lookup ext with
  | some t => t
  | none => "application/octet-stream"

/-- `isImageType(contentType)`. -/
def isImageType (contentType : String) : Bool :=
  HasPrefix contentType "image/"

/-- `isTextType(contentType)`. -/
def isTextType (contentType : String) : Bool :=
  HasPrefix contentType "text/" ||
    contentType == "application/json" ||
    contentType == "application/xml" ||
    contentType == "application/javascript"

/-- `isVideoType(contentType)`. -/
def isVideoType (contentType : String) : Bool :=
  HasPrefix contentType "video/"

/-- `isArchiveType(contentType, filename)`. -/
def isArchiveType (B : BrowseLib) (contentType filename : String) : Bool :=
  let ext := B.ToLower (filepathExt filename)
  contentType == "application/zip" ||
    contentType == "application/x-tar" ||
    contentType == "application/gzip" ||
    ext == ".zip" || ext == ".tar" || ext == ".gz" || ext == ".rar" || ext == ".7z"

/-- `isPreviewable(contentType, size)`. -/
def isPreviewable (contentType : String) (size : Int) : Bool :=
  if size > 10 * 1024 * 1024 then false
  else isImageType contentType || isTextType contentType || isVideoType contentType

/-! ## `internal/handlers/buckets_handler.go`: `BrowseBucket` -/

/-- `strings.Split` on characters, for a one-character separator. -/
def splitChars (sep : Char) : List Char → List (List Char)
  | [] => [[]]
  | ch :: rest =>
    if ch = sep then [] :: splitChars sep rest
    else
      match splitChars sep rest with
      | [] => [[ch]]
      | seg :: segs => (ch :: seg) :: segs

/-- `strings.Split(s, sep)` for a one-character separator. -/
def Split (s : String) (sep : Char) : List String :=
  (splitChars sep s.data).map String.mk

/-- The variables of the loop over `rawObjects` in `BrowseBucket`; `seenFolders` holds the
keys the map sends to `true`. -/
structure BrowseState where
  objects : List Models.ObjectInfo
  folders : List Models.FolderInfo
  seenFolders : List String
  deriving DecidableEq, Repr

/-- The `models.ObjectInfo` that the loop of `BrowseBucket` builds for an item it takes for a
file. -/
def fileInfo (B : BrowseLib) (pfx : String) (obj : Minio.ObjectInfo) : Models.ObjectInfo :=
  let displayName := TrimPrefix obj.Key pfx
  let contentType := obj.ContentType
  let contentType := if contentType = "" then getContentTypeFromExt B obj.Key else contentType
  { Key := obj.Key,
    DisplayName := displayName,
    Size := obj.Size,
    FormattedSize := B.FormatFileSize obj.Size,
    LastModified := obj.LastModified,
    ContentType := contentType,
    IsImage := isImageType contentType,
    IsText := isTextType contentType,
    IsVideo := isVideoType contentType,
    IsArchive := isArchiveType B contentType obj.Key,
    IsPreviewable := isPreviewable contentType obj.Size }

/-- The body of `for _, obj := range rawObjects` in `BrowseBucket`. -/
def browseStep (B : BrowseLib) (pfx : String) (st : BrowseState) (obj : Minio.ObjectInfo) :
    BrowseState :=
  if HasSuffix obj.Key "/" then
    let folderName := TrimPrefix obj.Key pfx
    let folderName := TrimSuffix folderName "/"
    if folderName ≠ "" ∧ ¬ st.seenFolders.contains folderName then
      { st with
        seenFolders := folderName :: st.seenFolders,
        folders := st.folders ++ [{ Name := folderName, Prefix := obj.Key }] }
    else st
  else
    { st with objects := st.objects ++ [fileInfo B pfx obj] }

/-- The body of `for _, part := range parts` in `BrowseBucket`: the state is `path` and
`breadcrumbs`. -/
def crumbStep (st : String × List Models.Breadcrumb) (part : String) :
    String × List Models.Breadcrumb :=
  if part = "" then st
  else
    let path := st.1 ++ (part ++ "/")
    (path, st.2 ++ [{ Name := part, Path := path }])

/-- The breadcrumbs `BrowseBucket` builds for a prefix. -/
def buildBreadcrumbs (pfx : String) : List Models.Breadcrumb :=
  if pfx ≠ "" then
    let parts := Split (TrimSuffix pfx "/") '/'
    (parts.foldl crumbStep ("", [])).2
  else []

/-- The data `BrowseBucket` hands to the template `browser`. -/
structure BrowserData where
  ActiveNav : String
  BucketName : String
  Prefix : String
  Objects : List Models.ObjectInfo
  Folders : List Models.FolderInfo
  Breadcrumbs : List Models.Breadcrumb
  deriving DecidableEq, Repr

/-- `c.Render(code, name, data)` for structured template data. -/
def Context.RenderData {α : Type} (c : Context) (renderer : Option (String → α → Option String))
    (code : Nat) (name : String) (data : α) : Context × Option HandlerError :=
  match renderer with
  | none => (c, some .render)
  | some r =>
    match r name data with
    | none => (c, some .render)
    | some html => c.HTML code html

/-- A run of `BrowseBucket`: how it ended, and the data it handed to `c.Render` when it got
that far. -/
structure BrowseRun where
  outcome : Outcome
  rendered : Option BrowserData

/-- `BucketsHandler.BrowseBucket`. -/
def BucketsHandler.BrowseBucket (B : BrowseLib) (h : BucketsHandler)
    (renderer : Option (String → BrowserData → Option String)) (c : Context) : BrowseRun :=
  match GetCredentialsOrRedirect c with
  | (c, _, some err) => ⟨.returned c (some err), none⟩
  | (c, none, none) => ⟨.panicked c, none⟩
  | (c, some creds, none) =>
    let bucketName := c.Param "bucketName"
    let pfx := c.QueryParam "prefix"
    match h.minioFactory.NewClient creds with
    | none =>
      ⟨.returned c (some (.http StatusInternalServerError "Failed to connect to MinIO")), none⟩
    | some client =>
      match client.ListObjects bucketName { Prefix := pfx, Recursive := false, StartAfter := "" } with
      | none =>
        ⟨.returned c (some (.http StatusInternalServerError "Failed to list objects")), none⟩
      | some rawObjects =>
        let st := rawObjects.foldl (browseStep B pfx) ⟨[], [], []⟩
        let breadcrumbs := buildBreadcrumbs pfx
        let data : BrowserData :=
          { ActiveNav := "buckets", BucketName := bucketName, Prefix := pfx,
            Objects := st.objects, Folders := st.folders, Breadcrumbs := breadcrumbs }
        let (c', err) := c.RenderData renderer StatusOK "browser" data
        ⟨.returned c' err, some data⟩

/-! ## `internal/handlers/buckets_handler.go`: `GenerateShareLink` -/

/-- The value an `int64` holds after an arithmetic result `x`: two's complement wrap-around. -/
def wrapInt64 (x : Int) : Int := (x + 2 ^ 63) % 2 ^ 64 - 2 ^ 63

/-- `time.Second` in nanoseconds. -/
def timeSecond : Int := 1000000000

/-- The digit loop of `strconv.ParseUint` in base 10: the value of the digits after `acc`, or
`none` at a character that is not a decimal digit. -/
def parseDigits : List Char → Nat → Option Nat
  | [], acc => some acc
  | ch :: rest, acc =>
    if ch.isDigit then parseDigits rest (acc * 10 + (ch.toNat - 48)) else none

/-- `strconv.ParseUint(s, 10, 64)`; `none` stands for a non-nil error (syntax or range). -/
def ParseUint (s : List Char) : Option Nat :=
  match s with
  | [] => none
  | _ =>
    match parseDigits s 0 with
    | none => none
    | some n => if n < 2 ^ 64 then some n else none

/-- `strconv.ParseInt(s, 10, 64)`; `none` stands for a non-nil error (syntax or range). -/
def ParseInt (s : String) : Option Int :=
  match s.data with
  | [] => none
  | ch :: rest =>
    let neg := decide (ch = '-')
    let digits := if ch = '+' ∨ ch = '-' then rest else ch :: rest
    match ParseUint digits with
    | none => none
    | some un =>
      if neg = false ∧ un ≥ 2 ^ 63 then none
      else if neg = true ∧ un > 2 ^ 63 then none
      else some (if neg then -(un : Int) else (un : Int))

/-- The block of `GenerateShareLink` that resolves `expires` from the form value, in
nanoseconds. -/
def shareExpires (expiresStr : String) : Int :=
  let expires := timeHour
  if expiresStr ≠ "" then
    match ParseInt expiresStr with
    | none => expires
    | some expiresSeconds =>
      if expiresSeconds > 0 then
        let expires := wrapInt64 (expiresSeconds * timeSecond)
        if expires > 7 * 24 * timeHour then 7 * 24 * timeHour else expires
      else expires
  else expires

/-- What `GenerateShareLink` takes from outside the handler to fill the template: the layout
`Jan 02, 2006 15:04 MST` of `time.Format`, and `formatExpiration` (floating-point hours and
`fmt.Sprintf`). -/
structure ShareLib where
  Format : Int → String
  formatExpiration : Int → String

/-- The data `GenerateShareLink` hands to the template `share_link`. -/
structure ShareLinkData where
  URL : String
  BucketName : String
  ObjectKey : String
  ExpiresAt : String
  ExpiresDisplay : String
  deriving DecidableEq, Repr

/-- A run of `GenerateShareLink`: how it ended, and the calls of `PresignedGetObject` it made
(bucket, object, expiry in nanoseconds). -/
structure ShareRun where
  outcome : Outcome
  presigned : List (String × String × Int)

/-- `BucketsHandler.GenerateShareLink`.  `now` is `time.Now()`. -/
def BucketsHandler.GenerateShareLink (S : ShareLib) (h : BucketsHandler)
    (renderer : Option (String → ShareLinkData → Option String)) (now : Int) (c : Context) :
    ShareRun :=
  match GetCredentials c with
  | .error err => ⟨.returned c (some err), []⟩
  | .ok creds =>
    let bucketName := c.Param "bucketName"
    let objectKey := c.FormValue "key"
    let expiresStr := c.FormValue "expires"
    let expires := shareExpires expiresStr
    match h.minioFactory.NewClient creds with
    | none =>
      ⟨.returned c (some (.http StatusInternalServerError "Failed to connect to MinIO")), []⟩
    | some client =>
      match client.PresignedGetObject bucketName objectKey expires with
      | .error e =>
        ⟨.returned c (some (.http StatusInternalServerError
          ("Failed to generate share link: " ++ e))), [(bucketName, objectKey, expires)]⟩
      | .ok presignedURL =>
        let expiresAt := now + expires
        let expiresDisplay := S.formatExpiration expires
        let data : ShareLinkData :=
          { URL := presignedURL, BucketName := bucketName, ObjectKey := objectKey,
            ExpiresAt := S.Format expiresAt, ExpiresDisplay := expiresDisplay }
        let (c', err) := c.RenderData renderer StatusOK "share_link" data
        ⟨.returned c' err, [(bucketName, objectKey, expires)]⟩

/-! ## `internal/services/auth_service.go`: `NewAuthService` -/

/-- `NewAuthService()`.  `env` holds the bytes of `os.Getenv("IRON_SESSION_KEY")` (none when
the variable is unset or empty), `entropy` is the output of `rand.Reader`. -/
def NewAuthService (env : Bytes) (entropy : Option Bytes) : GoResult AuthService :=
  if env.length ≠ 32 then
    match readFull entropy 32 with
    | none => .panicked
    | some newKey => .ok { encryptionKey := newKey }
  else .ok { encryptionKey := env }

/-! ## `internal/middleware/security_headers.go`: `isSecureRequest` -/

/-- What the middleware takes from `strings`: `EqualFold`, equality under Unicode case
folding. -/
structure FoldLib where
  EqualFold : String → String → Bool

/-- The contract of `strings.EqualFold` relied on: a string equals itself under folding, and
the upper-case ASCII spelling of `https` equals the lower-case one. -/
structure FoldLaws (S : FoldLib) : Prop where
  refl : ∀ s, S.EqualFold s s = true
  https_upper : S.EqualFold "HTTPS" "https" = true

/-- Folding of the ASCII letters only: a small executable instance of `FoldLib`. -/
def asciiFold : FoldLib where
  EqualFold s t := s.data.map Char.toLower == t.data.map Char.toLower

/-- `isSecureRequest(c)`. -/
def isSecureRequest (S : FoldLib) (c : Context) : Bool :=
  if c.request.TLS then true
  else S.EqualFold (c.request.Header.Get "X-Forwarded-Proto") "https"

/-! ## `internal/services/minio_factory.go`: `shouldUseSSL` -/

/-- `strings.Contains(s, substr)`. -/
def Contains (s substr : String) : Bool :=
  s.data.tails.any (fun t => substr.data.isPrefixOf t)

/-- `shouldUseSSL(endpoint)`.  `strings.Split` returns at least one part, so the index `[0]`
is always in range. -/
def shouldUseSSL (endpoint : String) : Bool :=
  if endpoint = "localhost:9000" ∨ endpoint = "127.0.0.1:9000" then false
  else if HasPrefix endpoint "minio" && !Contains ((Split endpoint ':').headD "") "." &&
      Contains endpoint ":9000" then false
  else true

/-! ## echo's `middleware.CSRFWithConfig` and `internal/middleware/csrf.go` -/

/-- `Header.Values(key)` for a canonical key. -/
def Header.Values (h : Header) (key : String) : List String :=
  (h.lookup key).getD []

/-- `Header.Add(key, value)` for a canonical key. -/
def Header.Add (h : Header) (key value : String) : Header :=
  if h.Has key then h.map (fun kv => if kv.1 = key then (kv.1, kv.2 ++ [value]) else kv)
  else h ++ [(key, [value])]

/-- `middleware.CSRFConfig`: the fields that `CSRF()` sets; the others keep echo's defaults
(`ContextKey` is `csrf`, `CookieMaxAge` is 86400 seconds). -/
structure CSRFConfig where
  TokenLookup : String
  CookieName : String
  CookiePath : String
  CookieSameSite : SameSite
  Skipper : Context → Bool

/-- The handler that echo's `middleware.CSRFWithConfig(config)` puts around `next`, for a
`TokenLookup` that names one request header, `headerKey` being its canonical key.  A request
the `Skipper` accepts goes straight to `next`.  Otherwise the token is the value of the
cookie, or `fresh` (what `randomString` generates) without a cookie; a request with an
unsafe method must carry the token among the values of the header, or is answered with 400
(no value) or 403 (no matching value); then the cookie is set, the token stored in the
context, `Vary: Cookie` added and `next` called.  `now` is `time.Now()`. -/
def CSRFWithConfig (config : CSRFConfig) (headerKey fresh : String) (now : Int)
    (next : HandlerFunc) (c : Context) : MiddlewareRun :=
  if config.Skipper c then ⟨next c, [c]⟩
  else
    let token :=
      match c.Cookie config.CookieName with
      | none => fresh
      | some k => k.Value
    let proceed : MiddlewareRun :=
      let cookie : IronBuckets.Cookie :=
        { Cookie.zero with
          Name := config.CookieName, Value := token, Path := config.CookiePath,
          SameSite := config.CookieSameSite, Expires := some (now + 86400 * 1000000000) }
      let c := c.SetCookie cookie
      let c := c.Set "csrf" (.other token)
      let c := { c with response :=
        { c.response with Header := c.response.Header.Add "Vary" "Cookie" } }
      ⟨next c, [c]⟩
    if c.request.Method = "GET" ∨ c.request.Method = "HEAD" ∨ c.request.Method = "OPTIONS" ∨
        c.request.Method = "TRACE" then proceed
    else
      match c.request.Header.Values headerKey with
      | [] => ⟨.returned c (some (.http 400 "missing csrf token in request header")), []⟩
      | clientTokens =>
        if clientTokens.any (fun clientToken => clientToken == token) then proceed
        else ⟨.returned c (some (.http 403 "invalid csrf token")), []⟩

/-- The `Skipper` of `CSRF()`.  `Hx-Request` is the canonical form of the key `HX-Request`. -/
def csrfSkipper (c : Context) : Bool :=
  if c.request.Method = "GET" ∨ c.request.Method = "HEAD" ∨ c.request.Method = "OPTIONS" ∨
      c.request.Method = "TRACE" then false
  else c.request.Header.Get "Hx-Request" != "true"

/-- `CSRF()`.  `X-Csrf-Token` is the canonical form of the key `X-CSRF-Token`. -/
def CSRF (fresh : String) (now : Int) (next : HandlerFunc) (c : Context) : MiddlewareRun :=
  CSRFWithConfig
    { TokenLookup := "header:X-CSRF-Token", CookieName := "csrf", CookiePath := "/",
      CookieSameSite := .strict, Skipper := csrfSkipper }
    "X-Csrf-Token" fresh now next c

/-! ## `internal/utils/format.go` -/

/-- What `FormatBytes` takes from `float64` and `fmt`: `quotient1 bytes div` is
`fmt.Sprintf("%.1f", float64(bytes)/float64(div))`. -/
structure FloatFormat where
  quotient1 : Nat → Nat → String

/-- The contract of the floating-point quotient and of `%.1f` relied on: below `2^53` the
conversion of `bytes` is exact, the division by a power of two is exact, and a value with
one decimal is printed as it is. -/
structure FloatFormatLaws (F : FloatFormat) : Prop where
  exact : ∀ bytes j q t : Nat, bytes < 2 ^ 53 → j ≤ 63 → t < 10 →
    10 * bytes = (10 * q + t) * 2 ^ j →
    F.quotient1 bytes (2 ^ j) = toString q ++ "." ++ toString t

/-- An executable instance of `FloatFormat` on exact arithmetic: the tenths of the quotient,
cut off. -/
def exactFormat : FloatFormat where
  quotient1 bytes div := toString (10 * bytes / div / 10) ++ "." ++ toString (10 * bytes / div % 10)

/-- The loop `for n := bytes / unit; n >= unit; n /= unit` of `FormatBytes`, on the variables
`n`, `div` (a `uint64`) and `exp`: their values `div` and `exp` when the loop is left. -/
def unitLoop (n div exp : Nat) : Nat × Nat :=
  if n ≥ 1024 then unitLoop (n / 1024) (div * 1024 % 2 ^ 64) (exp + 1) else (div, exp)
termination_by n
decreasing_by omega

/-- `FormatBytes(bytes)`; `panicked` stands for the run-time panic of an index out of range. -/
def FormatBytes (F : FloatFormat) (bytes : Nat) : GoResult String :=
  if bytes < 1024 then .ok (toString bytes ++ " B")
  else
    let (div, exp) := unitLoop (bytes / 1024) 1024 0
    match "KMGTPE".data[exp]? with
    | none => .panicked
    | some letter => .ok (F.quotient1 bytes div ++ " " ++ String.singleton letter ++ "B")

/-- `FormatFileSize(size)`. -/
def FormatFileSize (F : FloatFormat) (size : Int) : GoResult String :=
  if size < 0 then .ok "0 B" else FormatBytes F size.toNat

/-! ## `float64`, `time.Duration` and `formatExpiration` -/

/-- The arithmetic of `float64` as far as `formatExpiration` uses it: `round x` is the
`float64` nearest to the exact number `x`.  Conversions, sums and quotients deliver the
rounding of their exact result. -/
structure Float64 where
  round : ℚ → ℚ

/-- The contracts of IEEE 754 binary64 relied on: integers up to `2^53` are exact, rounding
is monotone, and the error of rounding is at most `2^-53` of the value, up to `2^-1075` in
the subnormal range. -/
structure Float64Laws (F : Float64) : Prop where
  exact_int : ∀ n : Int, |n| ≤ 2 ^ 53 → F.round n = n
  mono : ∀ x y : ℚ, x ≤ y → F.round x ≤ F.round y
  error : ∀ x : ℚ, |x| ≤ 2 ^ 1023 → |F.round x - x| ≤ |x| / 2 ^ 53 + 1 / 2 ^ 1075

/-- Arithmetic without rounding: an executable instance of `Float64`. -/
def exactFloat : Float64 where
  round x := x

/-- `time.Minute` in nanoseconds. -/
def timeMinute : Int := 60000000000

/-- The body shared by `Duration.Hours` and `Duration.Minutes`: the whole units and the rest
are converted apart, `float64(d / unit) + float64(d % unit) / float64(unit)`. -/
def durationIn (F : Float64) (d unit : Int) : ℚ :=
  let whole := d.tdiv unit
  let nsec := d.tmod unit
  F.round (F.round whole + F.round (F.round nsec / unit))

/-- `d.Hours()`. -/
def Duration.Hours (F : Float64) (d : Int) : ℚ := durationIn F d timeHour

/-- `d.Minutes()`. -/
def Duration.Minutes (F : Float64) (d : Int) : ℚ := durationIn F d timeMinute

/-- The conversion `int(x)` of a `float64` in the range of `int`: the fraction is dropped. -/
def goInt (x : ℚ) : Int :=
  if 0 ≤ x then Rat.floor x else -Rat.floor (-x)

/-- `formatExpiration(d)`. -/
def formatExpiration (F : Float64) (d : Int) : String :=
  if d ≥ 24 * timeHour then
    let days := goInt (F.round (Duration.Hours F d / 24))
    if days = 1 then "1 day" else toString days ++ " days"
  else if d ≥ timeHour then
    let hours := goInt (Duration.Hours F d)
    if hours = 1 then "1 hour" else toString hours ++ " hours"
  else
    let minutes := goInt (Duration.Minutes F d)
    if minutes = 1 then "1 minute" else toString minutes ++ " minutes"

/-! ## The fixtures of `TestZipDownloadJourney` (`cmd/server/bucket_journey_test.go`) -/

/-- The listing the mock client returns for `my-bucket` under `folder/`. -/
def zipJourneyObjects : List Minio.ObjectInfo :=
  [⟨"folder/file1.txt", 13, 0, "", none⟩, ⟨"folder/file2.txt", 13, 0, "", none⟩,
    ⟨"folder/subfolder/file3.txt", 17, 0, "", none⟩]

/-- The mock client of the test: every object opens; the nested file holds other bytes than
the two top-level ones. -/
def zipJourneyClient : MinioClient where
  ListBuckets := some []
  ListObjects _ _ := some zipJourneyObjects
  GetObjectReader _ key :=
    if key = "folder/subfolder/file3.txt" then some (⟨"Nested file here!".toUTF8.toList, false⟩, 17)
    else some (⟨"Hello, World!".toUTF8.toList, false⟩, 13)
  PresignedGetObject _ _ _ := .error "not mocked"

/-- The request `GET /buckets/my-bucket/zip?prefix=folder/` as the handler receives it, the
credentials already stored by the middleware. -/
def zipJourneyContext : Context :=
  ⟨⟨"GET", "/buckets/my-bucket/zip", [], [], false, [], [("prefix", "folder/")]⟩,
    ⟨[], [], 200, false, []⟩,
    [(ContextKeyCreds, .creds ⟨"play.minio.io:9000", "admin", "password", ""⟩)],
    [("bucketName", "my-bucket")]⟩

/-- The mock client of the test with one defect: `folder/file2.txt` cannot be opened. -/
def zipFlakyClient : MinioClient where
  ListBuckets := some []
  ListObjects _ _ := some zipJourneyObjects
  GetObjectReader _ key :=
    if key = "folder/file2.txt" then none else some (⟨"Hello, World!".toUTF8.toList, false⟩, 13)
  PresignedGetObject _ _ _ := .error "not mocked"

/-! ## Fixtures for `BrowseBucket` and `GenerateShareLink` -/

/-- A client whose listings all return `rawObjects` and whose presigning returns `url`. -/
def listingClient (rawObjects : List Minio.ObjectInfo) (url : String) : MinioClient where
  ListBuckets := some []
  ListObjects _ _ := some rawObjects
  GetObjectReader _ _ := none
  PresignedGetObject _ _ _ := .ok url

/-- A request on bucket `b` with the query parameter `prefix` and the form value `expires`,
the credentials already stored by the middleware. -/
def browseContext (pfx expires : String) : Context :=
  ⟨⟨"GET", "/buckets/b", [], [], false, [("key", "report.pdf"), ("expires", expires)],
      [("prefix", pfx)]⟩,
    ⟨[], [], 200, false, []⟩,
    [(ContextKeyCreds, .creds ⟨"play.minio.io:9000", "admin", "password", ""⟩)],
    [("bucketName", "b")]⟩

/-- The request of `TestCSRFMiddlewareRejectsPostWithoutToken`: a `POST` with
`HX-Request: true` and no `X-CSRF-Token`. -/
def csrfTestContext : Context :=
  ⟨⟨"POST", "/submit", [("Hx-Request", ["true"])], [], false, [], []⟩,
    ⟨[], [], 200, false, []⟩, [], []⟩

/-- The token of `TestDecryptCredentials_WrongKey` on the reference library: the record of
the test sealed under the key of the first service (32 bytes `8`) with the nonce of 12
bytes `3`. -/
def wrongKeyToken : String :=
  refLib.base64Encode (List.replicate 12 3 ++
    refLib.gcmSeal (List.replicate 32 8) (List.replicate 12 3)
      ((refLib.jsonMarshal ⟨"localhost:9000", "admin", "password", ""⟩).getD []))

/-! # Theorems -/

/-! ## The reference library instance satisfies the library contracts -/

theorem uint8_ofNat_toNat (n : Nat) : (UInt8.ofNat n).toNat = n % 256 := by
  simp [UInt8.ofNat, UInt8.toNat]

theorem uint8_ofNat_toNat_self (x : UInt8) : UInt8.ofNat x.toNat = x := by
  cases x with
  | mk v =>
    cases v with
    | ofFin f =>
      cases f with
      | mk n h =>
        have h' : n % 256 = n := Nat.mod_eq_of_lt h
        simp [UInt8.ofNat, UInt8.toNat, BitVec.ofNat, Fin.ofNat', h']

theorem char_toNat_lt (c : Char) : c.toNat < 1114112 := by
  have h := c.valid
  simp only [Char.toNat]
  rcases h with h | h
  · have : c.val.toNat < 55296 := h
    omega
  · have : c.val.toNat < 1114112 := h.2
    omega

theorem char_ofNat_bytes (c : Char) :
    Char.ofNat ((UInt8.ofNat (c.toNat / 65536)).toNat * 65536 +
      (UInt8.ofNat (c.toNat / 256 % 256)).toNat * 256 + (UInt8.ofNat (c.toNat % 256)).toNat) = c := by
  have h := char_toNat_lt c
  simp only [uint8_ofNat_toNat]
  have e : c.toNat / 65536 % 256 * 65536 + c.toNat / 256 % 256 % 256 * 256 + c.toNat % 256 % 256
      = c.toNat := by omega
  rw [e]
  exact Char.ofNat_toNat c

theorem char_toNat_ofNat_of_lt (n : Nat) (h : n < 256) : (Char.ofNat n).toNat = n := by
  have hv : n.isValidChar := Or.inl (by omega)
  simp [Char.ofNat, hv, Char.ofNatAux, Char.toNat, UInt32.toNat]

theorem refDecodeChars_encode (cs : List Char) (rest : Bytes) :
    refDecodeChars (refEncodeChars cs ++ rest) = some (cs, rest) := by
  induction cs with
  | nil =>
    simp only [refEncodeChars, List.cons_append, List.nil_append]
    unfold refDecodeChars
    simp
  | cons c cs ih =>
    have hc := char_ofNat_bytes c
    simp only [refEncodeChars, refEncodeChar, List.cons_append, List.nil_append,
      List.append_assoc]
    rw [refDecodeChars]
    simp [ih, hc]

theorem refLib_decode_encode (b : Bytes) : refLib.base64Decode (refLib.base64Encode b) = some b := by
  have hall : ∀ l : Bytes, (l.map fun x => Char.ofNat x.toNat).all
      (fun c => decide (c.toNat < 256)) = true := by
    intro l
    simp only [List.all_eq_true, List.mem_map, decide_eq_true_eq]
    rintro c ⟨x, -, rfl⟩
    have hx : x.toNat < 256 := x.toBitVec.isLt
    rw [char_toNat_ofNat_of_lt _ hx]
    exact hx
  have hmap : ∀ l : Bytes, (l.map fun x => Char.ofNat x.toNat).map
      (fun c => UInt8.ofNat c.toNat) = l := by
    intro l
    induction l with
    | nil => rfl
    | cons x l ih =>
      have hx : x.toNat < 256 := x.toBitVec.isLt
      simp only [List.map_cons, ih, char_toNat_ofNat_of_lt _ hx]
      rw [uint8_ofNat_toNat_self]
  simp only [refLib, hall, hmap, if_true]

theorem refLib_open_seal (key nonce pt : Bytes) :
    refLib.gcmOpen key nonce (refLib.gcmSeal key nonce pt) = some pt := by
  simp [refLib]

theorem refLib_laws : StdLibLaws refLib where
  marshal_total R := ⟨_, rfl⟩
  unmarshal_marshal R data h := by
    simp only [refLib, Option.some.injEq] at h
    subst h
    simp only [refLib, List.append_assoc, refDecodeChars_encode]
    have h4 : refDecodeChars (refEncodeChars R.SessionToken.data) = some (R.SessionToken.data, []) := by
      simpa using refDecodeChars_encode R.SessionToken.data []
    simp [h4]
  decode_encode := refLib_decode_encode
  open_seal := refLib_open_seal

/-! ## The credential cipher -/

theorem aesNewCipher_of_length (key : Bytes) (hk : key.length = 32) :
    aesNewCipher key = some ⟨key⟩ := by
  simp [aesNewCipher, hk]

theorem readFull_length (entropy : Option Bytes) (n : Nat) (nonce : Bytes)
    (h : readFull entropy n = some nonce) : nonce.length = n := by
  cases entropy with
  | none => simp [readFull] at h
  | some bs =>
    simp only [readFull] at h
    split at h
    · rename_i hle
      simp only [Option.some.injEq] at h
      subst h
      simp [List.length_take, hle]
    · simp at h

/-- What `DecryptCredentials` returns on the output of a successful `EncryptCredentials`
framing, for any key of the service: the nonce is split off and the rest is opened. -/
theorem DecryptCredentials_framed (L : StdLib) (hL : StdLibLaws L) (s : AuthService)
    (hk : s.encryptionKey.length = 32) (nonce sealed : Bytes) (hn : nonce.length = gcmNonceSize) :
    DecryptCredentials L s (L.base64Encode (nonce ++ sealed)) =
      match L.gcmOpen s.encryptionKey nonce sealed with
      | some plaintext =>
        match L.jsonUnmarshal plaintext with
        | some creds => .ok creds
        | none => .error .unmarshal
      | none => .error .authFailed := by
  have hlen : ¬ (nonce ++ sealed).length < gcmNonceSize := by
    simp [List.length_append, hn]
  have hle : gcmNonceSize ≤ (nonce ++ sealed).length := by omega
  have htake : (nonce ++ sealed).take gcmNonceSize = nonce := by
    rw [← hn]; exact List.take_left' rfl
  have hdrop : (nonce ++ sealed).drop gcmNonceSize = sealed := by
    rw [← hn]; exact List.drop_left' rfl
  simp only [DecryptCredentials, hL.decode_encode, aesNewCipher_of_length _ hk, hlen, if_false,
    sliceTo, sliceFrom, hle, if_true, htake, hdrop, gcmOpenCall, hn]
  cases L.gcmOpen s.encryptionKey nonce sealed with
  | none => rfl
  | some pt => cases L.jsonUnmarshal pt <;> rfl

/-- **C1.** For every 32-byte service key, every record of four (valid UTF-8) strings and
every run in which the system random source delivers the nonce, `EncryptCredentials` succeeds
and `DecryptCredentials` under the same key succeeds on its output and returns the record
itself, field by field (an empty `SessionToken` included).  The library functions are
assumed to satisfy their round-trip contracts `StdLibLaws`. -/
theorem EncryptCredentials_DecryptCredentials_roundtrip (L : StdLib) (hL : StdLibLaws L)
    (s : AuthService) (hk : s.encryptionKey.length = 32)
    (entropy : Bytes) (hr : gcmNonceSize ≤ entropy.length) (R : Credentials) :
    ∃ token, EncryptCredentials L s (some entropy) R = .ok token ∧
      DecryptCredentials L s token = .ok R ∧
      (∀ R', DecryptCredentials L s token = .ok R' →
        R'.Endpoint = R.Endpoint ∧ R'.AccessKey = R.AccessKey ∧
        R'.SecretKey = R.SecretKey ∧ R'.SessionToken = R.SessionToken) := by
  obtain ⟨data, hdata⟩ := hL.marshal_total R
  have hn : (entropy.take gcmNonceSize).length = gcmNonceSize := by
    simp [List.length_take, hr]
  have hdec : DecryptCredentials L s (L.base64Encode
      (entropy.take gcmNonceSize ++ L.gcmSeal s.encryptionKey (entropy.take gcmNonceSize) data))
      = .ok R := by
    rw [DecryptCredentials_framed L hL s hk _ _ hn, hL.open_seal]
    simp only [hL.unmarshal_marshal R data hdata]
  refine ⟨L.base64Encode (entropy.take gcmNonceSize ++
    L.gcmSeal s.encryptionKey (entropy.take gcmNonceSize) data), ?_, hdec, ?_⟩
  · simp [EncryptCredentials, hdata, aesNewCipher_of_length _ hk, readFull, hr, gcmSealCall, hn]
  · intro R' h
    rw [hdec] at h
    cases h
    exact ⟨rfl, rfl, rfl, rfl⟩

/-- Witness for C1: the round trip evaluated on the reference library, a key of 32 bytes,
a nonce of 12 bytes and a record with an empty session token. -/
theorem EncryptCredentials_DecryptCredentials_roundtrip_witness :
    StdLibLaws refLib ∧
    (⟨List.replicate 32 7⟩ : AuthService).encryptionKey.length = 32 ∧
    gcmNonceSize ≤ (List.replicate 12 (3 : UInt8)).length ∧
    ∃ token, EncryptCredentials refLib ⟨List.replicate 32 7⟩ (some (List.replicate 12 3))
        ⟨"play.minio.io:9000", "testuser", "testpassword", ""⟩ = .ok token ∧
      DecryptCredentials refLib ⟨List.replicate 32 7⟩ token =
        .ok ⟨"play.minio.io:9000", "testuser", "testpassword", ""⟩ ∧
      (∀ R', DecryptCredentials refLib ⟨List.replicate 32 7⟩ token = .ok R' →
        R'.Endpoint = "play.minio.io:9000" ∧ R'.AccessKey = "testuser" ∧
        R'.SecretKey = "testpassword" ∧ R'.SessionToken = "") :=
  ⟨refLib_laws, by simp, by simp [gcmNonceSize],
    EncryptCredentials_DecryptCredentials_roundtrip refLib refLib_laws ⟨List.replicate 32 7⟩
      (by simp) (List.replicate 12 3) (by simp [gcmNonceSize])
      ⟨"play.minio.io:9000", "testuser", "testpassword", ""⟩⟩

/-- The stages of `DecryptCredentials` for a service with a 32-byte key, as one expression. -/
theorem DecryptCredentials_stages (L : StdLib) (s : AuthService)
    (hk : s.encryptionKey.length = 32) (encrypted : String) :
    DecryptCredentials L s encrypted =
      match L.base64Decode encrypted with
      | none => .error .base64
      | some raw =>
        if raw.length < 12 then .error .malformedCiphertext
        else
          match L.gcmOpen s.encryptionKey (raw.take 12) (raw.drop 12) with
          | none => .error .authFailed
          | some pt =>
            match L.jsonUnmarshal pt with
            | none => .error .unmarshal
            | some creds => .ok creds := by
  simp only [DecryptCredentials, aesNewCipher_of_length _ hk, gcmNonceSize]
  cases L.base64Decode encrypted with
  | none => rfl
  | some raw =>
    simp only
    by_cases hlt : raw.length < 12
    · simp [hlt]
    · have hle : 12 ≤ raw.length := by omega
      have htl : (raw.take 12).length = 12 := by simp [List.length_take, hle]
      simp only [hlt, if_false, sliceTo, sliceFrom, hle, if_true, gcmOpenCall, gcmNonceSize, htl]
      cases ho : L.gcmOpen s.encryptionKey (raw.take 12) (raw.drop 12) with
      | none => simp
      | some pt => cases hu : L.jsonUnmarshal pt <;> simp [hu]

/-- The reference library keeps the authenticity contract. -/
theorem refLib_aead : AeadLaws refLib where
  open_genuine := by
    intro key nonce sealed pt h
    simp only [refLib] at h
    split at h
    · rename_i hcond
      simp only [Option.some.injEq] at h
      rw [← h]
      conv_lhs => rw [← List.take_append_drop (sealed.length - (nonce ++ key).length) sealed]
      rw [hcond.2]
      rfl
    · exact Option.noConfusion h
  wrong_key := by
    intro key key' nonce pt hk hk' hne
    have hdrop : List.drop ((pt ++ (nonce ++ key)).length - (nonce ++ key').length)
        (pt ++ (nonce ++ key)) = nonce ++ key := by
      have hlen : (pt ++ (nonce ++ key)).length - (nonce ++ key').length = pt.length := by
        simp only [List.length_append, hk, hk']
        omega
      rw [hlen]
      exact List.drop_left' rfl
    simp only [refLib, hdrop]
    rw [if_neg]
    rintro ⟨-, h⟩
    exact hne (List.append_cancel_left h)

/-- The stages of `DecryptCredentials`: no panic, an error exactly when a stage fails, and a
record otherwise. -/
theorem DecryptCredentials_fails_iff (L : StdLib) (s : AuthService)
    (hk : s.encryptionKey.length = 32) (encrypted : String) :
    DecryptCredentials L s encrypted ≠ .panicked ∧
    ((∃ e, DecryptCredentials L s encrypted = .error e) ↔
      (L.base64Decode encrypted = none ∨
       ∃ raw, L.base64Decode encrypted = some raw ∧
         (raw.length < 12 ∨
          L.gcmOpen s.encryptionKey (raw.take 12) (raw.drop 12) = none ∨
          ∃ pt, L.gcmOpen s.encryptionKey (raw.take 12) (raw.drop 12) = some pt ∧
            L.jsonUnmarshal pt = none))) ∧
    ((¬ ∃ e, DecryptCredentials L s encrypted = .error e) →
      ∃ R, DecryptCredentials L s encrypted = .ok R) := by
  rw [DecryptCredentials_stages L s hk encrypted]
  cases hd : L.base64Decode encrypted with
  | none => simp
  | some raw =>
    by_cases hlt : raw.length < 12
    · simp [hlt]
    · cases ho : L.gcmOpen s.encryptionKey (raw.take 12) (raw.drop 12) with
      | none => simp [hlt, ho]
      | some pt =>
        cases hu : L.jsonUnmarshal pt with
        | none => simp [hlt, ho, hu]
        | some creds => simp [hlt, ho, hu]

/-- **C2.** For a service with a 32-byte key and every input string, `DecryptCredentials`
never panics; it returns an error (and no record) exactly when one of its stages fails: the
base64 decoding fails, the decoded bytes are shorter than the 12-byte nonce, the AES-GCM open
of the remaining bytes under the leading nonce fails, or the opened plaintext does not
unmarshal; in every other case it returns a record.  With the authenticity of AES-GCM as
the contract of the library, the failure of the open includes: every token that
`EncryptCredentials` sealed under a different 32-byte key; and every input whose bytes after
the nonce are not the output of `Seal` under this key and that nonce, which is what
altering a sealed message leaves.  So a record is returned only for the encoding of a nonce
followed by a message sealed under this very key and nonce. -/
theorem DecryptCredentials_error_iff (L : StdLib) (hL : StdLibLaws L) (hA : AeadLaws L)
    (s : AuthService) (hk : s.encryptionKey.length = 32) (encrypted : String) :
    DecryptCredentials L s encrypted ≠ .panicked ∧
    ((∃ e, DecryptCredentials L s encrypted = .error e) ↔
      (L.base64Decode encrypted = none ∨
       ∃ raw, L.base64Decode encrypted = some raw ∧
         (raw.length < 12 ∨
          L.gcmOpen s.encryptionKey (raw.take 12) (raw.drop 12) = none ∨
          ∃ pt, L.gcmOpen s.encryptionKey (raw.take 12) (raw.drop 12) = some pt ∧
            L.jsonUnmarshal pt = none))) ∧
    ((¬ ∃ e, DecryptCredentials L s encrypted = .error e) →
      ∃ R, DecryptCredentials L s encrypted = .ok R) ∧
    (∀ (s' : AuthService) (entropy : Bytes) (R : Credentials),
      s'.encryptionKey.length = 32 → s'.encryptionKey ≠ s.encryptionKey →
      EncryptCredentials L s' (some entropy) R = .ok encrypted →
      DecryptCredentials L s encrypted = .error .authFailed) ∧
    (∀ raw, L.base64Decode encrypted = some raw → 12 ≤ raw.length →
      (∀ data, raw.drop 12 ≠ L.gcmSeal s.encryptionKey (raw.take 12) data) →
      DecryptCredentials L s encrypted = .error .authFailed) ∧
    (∀ R, DecryptCredentials L s encrypted = .ok R →
      ∃ nonce data, nonce.length = 12 ∧
        L.base64Decode encrypted = some (nonce ++ L.gcmSeal s.encryptionKey nonce data) ∧
        L.jsonUnmarshal data = some R) := by
  obtain ⟨hpanic, hiff, hrecord⟩ := DecryptCredentials_fails_iff L s hk encrypted
  refine ⟨hpanic, hiff, hrecord, ?_, ?_, ?_⟩
  · intro s' entropy R hk' hne henc
    obtain ⟨data, hdata⟩ := hL.marshal_total R
    simp only [EncryptCredentials, hdata, aesNewCipher_of_length _ hk'] at henc
    cases hread : readFull (some entropy) gcmNonceSize with
    | none => simp [hread] at henc
    | some nonce =>
      have hn := readFull_length _ _ _ hread
      simp only [hread, gcmSealCall, hn, if_true, GoResult.ok.injEq] at henc
      rw [← henc, DecryptCredentials_framed L hL s hk _ _ hn,
        hA.wrong_key _ _ _ _ hk' hk hne]
  · intro raw hraw hlen hforged
    rw [DecryptCredentials_stages L s hk encrypted]
    have hlt : ¬ raw.length < 12 := by omega
    simp only [hraw, hlt, if_false]
    cases ho : L.gcmOpen s.encryptionKey (raw.take 12) (raw.drop 12) with
    | none => rfl
    | some pt => exact absurd (hA.open_genuine _ _ _ _ ho) (hforged pt)
  · intro R hok
    rw [DecryptCredentials_stages L s hk encrypted] at hok
    cases hd : L.base64Decode encrypted with
    | none => simp [hd] at hok
    | some raw =>
      by_cases hlt : raw.length < 12
      · simp [hd, hlt] at hok
      · cases ho : L.gcmOpen s.encryptionKey (raw.take 12) (raw.drop 12) with
        | none => simp [hd, hlt, ho] at hok
        | some pt =>
          cases hu : L.jsonUnmarshal pt with
          | none => simp [hd, hlt, ho, hu] at hok
          | some creds =>
            simp only [hd, hlt, if_false, ho, hu, GoResult.ok.injEq] at hok
            refine ⟨raw.take 12, pt, by simp [List.length_take]; omega, ?_, by rw [hu, hok]⟩
            rw [← hA.open_genuine _ _ _ _ ho, List.take_append_drop]

/-- The first half of `TestDecryptCredentials_WrongKey` on the reference library: the first
service seals the record of the test. -/
theorem wrongKeyToken_sealed :
    EncryptCredentials refLib ⟨List.replicate 32 8⟩ (some (List.replicate 12 3))
      ⟨"localhost:9000", "admin", "password", ""⟩ = .ok wrongKeyToken := by
  simp [EncryptCredentials, refLib, aesNewCipher, readFull, gcmNonceSize, gcmSealCall,
    wrongKeyToken]

/-- Witness for C2: `TestDecryptCredentials_WrongKey` on the reference library.  The token the
first service sealed is answered with the authentication error by the second service, whose
key is another one; and the whole statement holds at that token. -/
theorem DecryptCredentials_error_iff_witness :
    StdLibLaws refLib ∧ AeadLaws refLib ∧
    (⟨List.replicate 32 7⟩ : AuthService).encryptionKey.length = 32 ∧
    EncryptCredentials refLib ⟨List.replicate 32 8⟩ (some (List.replicate 12 3))
      ⟨"localhost:9000", "admin", "password", ""⟩ = .ok wrongKeyToken ∧
    DecryptCredentials refLib ⟨List.replicate 32 7⟩ wrongKeyToken = .error .authFailed ∧
    (DecryptCredentials refLib ⟨List.replicate 32 7⟩ wrongKeyToken ≠ .panicked ∧
    ((∃ e, DecryptCredentials refLib ⟨List.replicate 32 7⟩ wrongKeyToken = .error e) ↔
      (refLib.base64Decode wrongKeyToken = none ∨
       ∃ raw, refLib.base64Decode wrongKeyToken = some raw ∧
         (raw.length < 12 ∨
          refLib.gcmOpen (List.replicate 32 7) (raw.take 12) (raw.drop 12) = none ∨
          ∃ pt, refLib.gcmOpen (List.replicate 32 7) (raw.take 12) (raw.drop 12) = some pt ∧
            refLib.jsonUnmarshal pt = none))) ∧
    ((¬ ∃ e, DecryptCredentials refLib ⟨List.replicate 32 7⟩ wrongKeyToken = .error e) →
      ∃ R, DecryptCredentials refLib ⟨List.replicate 32 7⟩ wrongKeyToken = .ok R) ∧
    (∀ (s' : AuthService) (entropy : Bytes) (R : Credentials),
      s'.encryptionKey.length = 32 → s'.encryptionKey ≠ List.replicate 32 7 →
      EncryptCredentials refLib s' (some entropy) R = .ok wrongKeyToken →
      DecryptCredentials refLib ⟨List.replicate 32 7⟩ wrongKeyToken = .error .authFailed) ∧
    (∀ raw, refLib.base64Decode wrongKeyToken = some raw → 12 ≤ raw.length →
      (∀ data, raw.drop 12 ≠ refLib.gcmSeal (List.replicate 32 7) (raw.take 12) data) →
      DecryptCredentials refLib ⟨List.replicate 32 7⟩ wrongKeyToken = .error .authFailed) ∧
    (∀ R, DecryptCredentials refLib ⟨List.replicate 32 7⟩ wrongKeyToken = .ok R →
      ∃ nonce data, nonce.length = 12 ∧
        refLib.base64Decode wrongKeyToken =
          some (nonce ++ refLib.gcmSeal (List.replicate 32 7) nonce data) ∧
        refLib.jsonUnmarshal data = some R)) :=
  ⟨refLib_laws, refLib_aead, by simp, wrongKeyToken_sealed,
    (DecryptCredentials_error_iff refLib refLib_laws refLib_aead ⟨List.replicate 32 7⟩ (by simp)
      wrongKeyToken).2.2.2.1 ⟨List.replicate 32 8⟩ (List.replicate 12 3)
      ⟨"localhost:9000", "admin", "password", ""⟩ (by simp) (by decide) wrongKeyToken_sealed,
    DecryptCredentials_error_iff refLib refLib_laws refLib_aead ⟨List.replicate 32 7⟩ (by simp)
      wrongKeyToken⟩

/-- A token sealed by `EncryptCredentials` under one key is answered with the authentication
error by a service whose key the AEAD rejects it under. -/
theorem DecryptCredentials_rejected_seal (L : StdLib) (hL : StdLibLaws L) (s s' : AuthService)
    (hk : s'.encryptionKey.length = 32) (nonce data : Bytes) (hn : nonce.length = gcmNonceSize)
    (hrej : L.gcmOpen s'.encryptionKey nonce (L.gcmSeal s.encryptionKey nonce data) = none) :
    DecryptCredentials L s' (L.base64Encode (nonce ++ L.gcmSeal s.encryptionKey nonce data)) =
      .error .authFailed := by
  rw [DecryptCredentials_framed L hL s' hk _ _ hn, hrej]


/-! ## Session middleware -/

theorem Header.Get_Set (h : Header) (key value : String) : (h.Set key value).Get key = value := by
  simp [Header.Get, Header.Set, List.lookup]

theorem isCookieNameValid_CookieName : isCookieNameValid CookieName = true := by
  decide

theorem Context.Cookie_name (c : Context) (name : String) (cookie : IronBuckets.Cookie)
    (h : c.Cookie name = some cookie) : cookie.Name = name := by
  unfold Context.Cookie at h
  split at h
  · simp at h
  · have := List.find?_some h
    simpa using this

/-- The context after `c.Redirect(http.StatusSeeOther, "/login")` on a response that is not
yet committed. -/
theorem Context.Redirect_login (c : Context) (hfresh : c.response.Committed = false) :
    ∃ c', c.Redirect StatusSeeOther "/login" = (c', none) ∧
      c'.response.Status = 303 ∧ c'.response.Committed = true ∧
      c'.response.Header.Get "Location" = "/login" ∧
      c'.response.SetCookies = c.response.SetCookies ∧ c'.response.Body = c.response.Body ∧
      c'.store = c.store ∧ c'.request = c.request := by
  have hcode : ¬ (StatusSeeOther < 300 ∨ StatusSeeOther > 308) := by
    simp [StatusSeeOther]
  simp only [Context.Redirect, if_neg hcode]
  refine ⟨_, rfl, ?_⟩
  simp [Response.WriteHeader, hfresh, Header.Get_Set, StatusSeeOther]

/-- **C3.** On a path outside the public allow-list, with a response not yet committed, when
the `IronSeal` cookie is absent or does not decrypt, `AuthMiddleware` does not invoke the
downstream handler and answers 303 See Other with `Location: /login`.  The cookies it adds
to the response are: none when the cookie was absent, and exactly the request cookie with
`MaxAge = -1` when it was present but did not decrypt; so a `Set-Cookie` for `IronSeal`
with negative max-age is emitted if and only if the cookie was present. -/
theorem AuthMiddleware_rejects (L : StdLib) (authService : AuthService) (next : HandlerFunc)
    (c : Context)
    (hpath : ¬ (c.request.Path = "/login" ∨ c.request.Path = "/health" ∨
      c.request.Path = "/logout" ∨ c.request.Path = "/login/oauth" ∨
      c.request.Path = "/oauth/callback"))
    (hfresh : c.response.Committed = false)
    (hrej : c.Cookie CookieName = none ∨
      ∃ cookie e, c.Cookie CookieName = some cookie ∧
        DecryptCredentials L authService cookie.Value = .error e) :
    ∃ c' added,
      AuthMiddleware L authService next c = ⟨.returned c' none, []⟩ ∧
      c'.response.Status = 303 ∧ c'.response.Committed = true ∧
      c'.response.Header.Get "Location" = "/login" ∧
      c'.response.SetCookies = c.response.SetCookies ++ added ∧
      c'.store = c.store ∧
      (c.Cookie CookieName = none → added = []) ∧
      (∀ cookie, c.Cookie CookieName = some cookie →
        added = [{ cookie with MaxAge := -1 }]) ∧
      ((∃ k ∈ added, k.Name = "IronSeal" ∧ k.MaxAge < 0) ↔
        ∃ cookie, c.Cookie CookieName = some cookie) := by
  rcases hrej with hnone | ⟨cookie, e, hsome, hdec⟩
  · obtain ⟨c', hred, hst, hcm, hloc, hck, -, hstore, -⟩ := Context.Redirect_login c hfresh
    refine ⟨c', [], ?_, hst, hcm, hloc, by simpa using hck, hstore, fun _ => rfl, ?_, ?_⟩
    · simp only [AuthMiddleware, if_neg hpath, hnone, hred]
    · intro cookie h; rw [hnone] at h; cases h
    · simp [hnone]
  · have hname : cookie.Name = CookieName := Context.Cookie_name c _ cookie hsome
    have hvalid : isCookieNameValid ({ cookie with MaxAge := -1 } : IronBuckets.Cookie).Name = true := by
      simpa [hname] using isCookieNameValid_CookieName
    have hset : c.SetCookie { cookie with MaxAge := -1 } =
        { c with response := { c.response with
            SetCookies := c.response.SetCookies ++ [{ cookie with MaxAge := -1 }] } } := by
      simp only [Context.SetCookie, hvalid, if_true]
    obtain ⟨c', hred, hst, hcm, hloc, hck, -, hstore, -⟩ :=
      Context.Redirect_login (c.SetCookie { cookie with MaxAge := -1 }) (by rw [hset]; exact hfresh)
    refine ⟨c', [{ cookie with MaxAge := -1 }], ?_, hst, hcm, hloc, ?_, ?_, ?_, ?_, ?_⟩
    · simp only [AuthMiddleware, if_neg hpath, hsome, hdec, hred]
    · rw [hck, hset]
    · rw [hstore, hset]
    · intro h; rw [hsome] at h; cases h
    · intro cookie' h; rw [hsome] at h; cases h; rfl
    · constructor
      · intro _; exact ⟨cookie, hsome⟩
      · intro _
        refine ⟨_, List.mem_singleton.mpr rfl, ?_, ?_⟩
        · simpa [CookieName] using hname
        · simp

/-- Witness for C3: a request for `/dashboard` carrying the cookie of the repository test
`TestAuthMiddleware_ClearsInvalidCookie`, run on the reference library. -/
theorem AuthMiddleware_rejects_witness :
    ∃ c' added,
      AuthMiddleware refLib ⟨List.replicate 32 7⟩ (fun c => .returned c none)
        ⟨⟨"GET", "/dashboard", [], [⟨"IronSeal", "invalid-encrypted-value", "", none, 0, false,
          false, .unset⟩], false, [], []⟩, ⟨[], [], 200, false, []⟩, [], []⟩ =
          ⟨.returned c' none, []⟩ ∧
      c'.response.Status = 303 ∧ c'.response.Committed = true ∧
      c'.response.Header.Get "Location" = "/login" ∧
      c'.response.SetCookies = [] ++ added ∧
      c'.store = [] ∧
      ((⟨⟨"GET", "/dashboard", [], [⟨"IronSeal", "invalid-encrypted-value", "", none, 0, false,
          false, .unset⟩], false, [], []⟩, ⟨[], [], 200, false, []⟩, [], []⟩ : Context).Cookie
          CookieName = none → added = []) ∧
      (∀ cookie, (⟨⟨"GET", "/dashboard", [], [⟨"IronSeal", "invalid-encrypted-value", "", none,
          0, false, false, .unset⟩], false, [], []⟩, ⟨[], [], 200, false, []⟩, [], []⟩ :
          Context).Cookie CookieName = some cookie → added = [{ cookie with MaxAge := -1 }]) ∧
      ((∃ k ∈ added, k.Name = "IronSeal" ∧ k.MaxAge < 0) ↔
        ∃ cookie, (⟨⟨"GET", "/dashboard", [], [⟨"IronSeal", "invalid-encrypted-value", "", none,
          0, false, false, .unset⟩], false, [], []⟩, ⟨[], [], 200, false, []⟩, [], []⟩ :
          Context).Cookie CookieName = some cookie) :=
  AuthMiddleware_rejects refLib ⟨List.replicate 32 7⟩ (fun c => .returned c none)
    ⟨⟨"GET", "/dashboard", [], [⟨"IronSeal", "invalid-encrypted-value", "", none, 0, false,
      false, .unset⟩], false, [], []⟩, ⟨[], [], 200, false, []⟩, [], []⟩
    (by decide) rfl
    (Or.inr ⟨⟨"IronSeal", "invalid-encrypted-value", "", none, 0, false, false, .unset⟩,
      .authFailed, by decide, by decide⟩)


theorem Context.Get_after_Set (c : Context) (key : String) (val : CtxValue) :
    (c.Set key val).Get key = some val := by
  simp [Context.Get, Context.Set, List.lookup]

/-- **C4.** On a path outside the public allow-list, when the `IronSeal` cookie decrypts to
a record `R`, `AuthMiddleware` invokes the downstream handler exactly once, on the context
in which `R` is stored under the key `"creds"` and whose request and response are the
incoming ones (no redirect, no `Set-Cookie`), and returns that handler's outcome;
`GetCredentials` on that context returns `R`. -/
theorem AuthMiddleware_authenticated (L : StdLib) (authService : AuthService)
    (next : HandlerFunc) (c : Context)
    (hpath : ¬ (c.request.Path = "/login" ∨ c.request.Path = "/health" ∨
      c.request.Path = "/logout" ∨ c.request.Path = "/login/oauth" ∨
      c.request.Path = "/oauth/callback"))
    (cookie : IronBuckets.Cookie) (R : Credentials)
    (hcookie : c.Cookie CookieName = some cookie)
    (hdec : DecryptCredentials L authService cookie.Value = .ok R) :
    AuthMiddleware L authService next c =
      ⟨next (c.Set "creds" (.creds R)), [c.Set "creds" (.creds R)]⟩ ∧
    (c.Set "creds" (.creds R)).Get "creds" = some (.creds R) ∧
    GetCredentials (c.Set "creds" (.creds R)) = .ok R ∧
    (c.Set "creds" (.creds R)).response = c.response ∧
    (c.Set "creds" (.creds R)).request = c.request := by
  refine ⟨?_, Context.Get_after_Set _ _ _, ?_, rfl, rfl⟩
  · simp only [AuthMiddleware, if_neg hpath, hcookie, hdec, ContextKeyCreds]
  · simp only [GetCredentials, ContextKeyCreds, Context.Get_after_Set]

/-- The token that the reference library issues for the record of the repository test
`TestAuthMiddleware_SetsCredentialsInContext`. -/
theorem refToken_decrypts :
    DecryptCredentials refLib ⟨List.replicate 32 7⟩
      (refLib.base64Encode (List.replicate 12 3 ++
        refLib.gcmSeal (List.replicate 32 7) (List.replicate 12 3)
          ((refLib.jsonMarshal ⟨"localhost:9000", "admin", "password", ""⟩).getD []))) =
      .ok ⟨"localhost:9000", "admin", "password", ""⟩ := by
  rw [DecryptCredentials_framed refLib refLib_laws _ (by simp) _ _ (by simp [gcmNonceSize]),
    refLib_laws.open_seal]
  have h := refLib_laws.unmarshal_marshal ⟨"localhost:9000", "admin", "password", ""⟩
    ((refLib.jsonMarshal ⟨"localhost:9000", "admin", "password", ""⟩).getD []) rfl
  simp only [h]

/-- Witness for C4: a request for `/dashboard` whose cookie holds a token sealed by the
reference library. -/
theorem AuthMiddleware_authenticated_witness :
    AuthMiddleware refLib ⟨List.replicate 32 7⟩ (fun c => .returned c none)
      ⟨⟨"GET", "/dashboard", [], [⟨"IronSeal", refLib.base64Encode (List.replicate 12 3 ++
        refLib.gcmSeal (List.replicate 32 7) (List.replicate 12 3)
          ((refLib.jsonMarshal ⟨"localhost:9000", "admin", "password", ""⟩).getD [])),
        "", none, 0, false, false, .unset⟩], false, [], []⟩, ⟨[], [], 200, false, []⟩, [], []⟩ =
      ⟨.returned ⟨⟨"GET", "/dashboard", [], [⟨"IronSeal", refLib.base64Encode
        (List.replicate 12 3 ++ refLib.gcmSeal (List.replicate 32 7) (List.replicate 12 3)
          ((refLib.jsonMarshal ⟨"localhost:9000", "admin", "password", ""⟩).getD [])),
        "", none, 0, false, false, .unset⟩], false, [], []⟩, ⟨[], [], 200, false, []⟩,
        [("creds", .creds ⟨"localhost:9000", "admin", "password", ""⟩)], []⟩ none,
       [⟨⟨"GET", "/dashboard", [], [⟨"IronSeal", refLib.base64Encode
        (List.replicate 12 3 ++ refLib.gcmSeal (List.replicate 32 7) (List.replicate 12 3)
          ((refLib.jsonMarshal ⟨"localhost:9000", "admin", "password", ""⟩).getD [])),
        "", none, 0, false, false, .unset⟩], false, [], []⟩, ⟨[], [], 200, false, []⟩,
        [("creds", .creds ⟨"localhost:9000", "admin", "password", ""⟩)], []⟩]⟩ :=
  (AuthMiddleware_authenticated refLib ⟨List.replicate 32 7⟩ (fun c => .returned c none)
    ⟨⟨"GET", "/dashboard", [], [⟨"IronSeal", refLib.base64Encode (List.replicate 12 3 ++
        refLib.gcmSeal (List.replicate 32 7) (List.replicate 12 3)
          ((refLib.jsonMarshal ⟨"localhost:9000", "admin", "password", ""⟩).getD [])),
        "", none, 0, false, false, .unset⟩], false, [], []⟩, ⟨[], [], 200, false, []⟩, [], []⟩
    (by decide) _ ⟨"localhost:9000", "admin", "password", ""⟩ rfl refToken_decrypts).1

/-- **C5.** On each of the five public paths, whatever the cookies of the request,
`AuthMiddleware` invokes the downstream handler exactly once, on the unchanged context
(nothing stored, nothing written to the response), and returns its outcome. -/
theorem AuthMiddleware_public (L : StdLib) (authService : AuthService) (next : HandlerFunc)
    (c : Context)
    (hpath : c.request.Path ∈ ["/login", "/health", "/logout", "/login/oauth", "/oauth/callback"]) :
    AuthMiddleware L authService next c = ⟨next c, [c]⟩ := by
  have h : c.request.Path = "/login" ∨ c.request.Path = "/health" ∨
      c.request.Path = "/logout" ∨ c.request.Path = "/login/oauth" ∨
      c.request.Path = "/oauth/callback" := by
    simpa using hpath
  simp only [AuthMiddleware, if_pos h]

/-- Witness for C5: `/oauth/callback` with an undecryptable cookie. -/
theorem AuthMiddleware_public_witness :
    AuthMiddleware refLib ⟨List.replicate 32 7⟩ (fun c => .returned c none)
      ⟨⟨"GET", "/oauth/callback", [], [⟨"IronSeal", "invalid-encrypted-value", "", none, 0,
        false, false, .unset⟩], false, [], []⟩, ⟨[], [], 200, false, []⟩, [], []⟩ =
      ⟨.returned ⟨⟨"GET", "/oauth/callback", [], [⟨"IronSeal", "invalid-encrypted-value", "",
        none, 0, false, false, .unset⟩], false, [], []⟩, ⟨[], [], 200, false, []⟩, [], []⟩ none,
       [⟨⟨"GET", "/oauth/callback", [], [⟨"IronSeal", "invalid-encrypted-value", "", none, 0,
        false, false, .unset⟩], false, [], []⟩, ⟨[], [], 200, false, []⟩, [], []⟩]⟩ :=
  AuthMiddleware_public refLib ⟨List.replicate 32 7⟩ (fun c => .returned c none)
    ⟨⟨"GET", "/oauth/callback", [], [⟨"IronSeal", "invalid-encrypted-value", "", none, 0,
      false, false, .unset⟩], false, [], []⟩, ⟨[], [], 200, false, []⟩, [], []⟩ (by decide)


/-! ## Login and logout cookies -/

theorem requestIsSecure_iff (c : Context) :
    requestIsSecure c = true ↔
      (c.request.TLS = true ∨ c.request.Header.Get "X-Forwarded-Proto" = "https") := by
  unfold requestIsSecure
  cases hT : c.request.TLS <;> simp

/-- **C6.** A `Login` that passes the credential check and seals the session adds exactly one
cookie to the response, and so does `Logout`; both cookies are named `IronSeal` and carry
`HttpOnly`, `SameSite=Strict` and `Path=/`, and their `Secure` flag is set if and only if
the request has TLS connection state or its `X-Forwarded-Proto` header is `https`.  The
login cookie holds the sealed token and expires 24 hours after `now`; the logout cookie has
an empty value, `MaxAge = -1` and an expiry one hour before `now`. -/
theorem Login_Logout_cookie (L : StdLib) (h : AuthHandler)
    (renderer : Option (String → String → Option String)) (entropy : Option Bytes) (now : Int)
    (c : Context) (client : MinioClient) (buckets : List String) (token : String)
    (hclient : h.minioFactory.NewClient
      ⟨h.minioEndpoint, c.FormValue "accessKey", c.FormValue "secretKey", ""⟩ = some client)
    (hlist : client.ListBuckets = some buckets)
    (hseal : EncryptCredentials L h.authService entropy
      ⟨h.minioEndpoint, c.FormValue "accessKey", c.FormValue "secretKey", ""⟩ = .ok token) :
    (∃ c' k, AuthHandler.Login L h renderer entropy now c = .returned c' none ∧
      c'.response.SetCookies = c.response.SetCookies ++ [k] ∧
      k.Name = "IronSeal" ∧ k.Value = token ∧ k.HttpOnly = true ∧ k.SameSite = .strict ∧
      k.Path = "/" ∧ k.Expires = some (now + 24 * 3600000000000) ∧
      (k.Secure = true ↔
        (c.request.TLS = true ∨ c.request.Header.Get "X-Forwarded-Proto" = "https"))) ∧
    (∃ c' k exp, AuthHandler.Logout now c = .returned c' none ∧
      c'.response.SetCookies = c.response.SetCookies ++ [k] ∧
      k.Name = "IronSeal" ∧ k.Value = "" ∧ k.MaxAge = -1 ∧ k.Expires = some exp ∧ exp < now ∧
      k.HttpOnly = true ∧ k.SameSite = .strict ∧ k.Path = "/" ∧
      (k.Secure = true ↔
        (c.request.TLS = true ∨ c.request.Header.Get "X-Forwarded-Proto" = "https"))) := by
  have hcode : ¬ (StatusSeeOther < 300 ∨ StatusSeeOther > 308) := by simp [StatusSeeOther]
  constructor
  · refine ⟨(HTMXRedirect (c.SetCookie ⟨CookieName, token, "/", some (now + 24 * timeHour), 0,
      requestIsSecure c, true, .strict⟩) "/").1,
      ⟨CookieName, token, "/", some (now + 24 * timeHour), 0, requestIsSecure c, true, .strict⟩,
      ?_, ?_, rfl, rfl, rfl, rfl, rfl, rfl, requestIsSecure_iff c⟩
    · simp only [AuthHandler.Login, hclient, hlist, hseal, HTMXRedirect, Context.NoContent,
        Cookie.zero]
    · simp [HTMXRedirect, Context.NoContent, Context.SetCookie, isCookieNameValid_CookieName,
        Response.WriteHeader]
      split <;> rfl
  · refine ⟨((c.SetCookie ⟨CookieName, "", "/", some (now + (-1) * timeHour), -1,
      requestIsSecure c, true, .strict⟩).Redirect StatusSeeOther "/login").1,
      ⟨CookieName, "", "/", some (now + (-1) * timeHour), -1, requestIsSecure c, true, .strict⟩,
      now + (-1) * timeHour, ?_, ?_, rfl, rfl, rfl, rfl, ?_, rfl, rfl, rfl,
      requestIsSecure_iff c⟩
    · simp only [AuthHandler.Logout, Context.Redirect, if_neg hcode, Cookie.zero]
    · simp [Context.Redirect, hcode, Context.SetCookie, isCookieNameValid_CookieName,
        Response.WriteHeader]
      split <;> rfl
    · simp [timeHour]

/-- The token the reference library seals for the login of the repository test. -/
theorem refSeal_ok :
    EncryptCredentials refLib ⟨List.replicate 32 7⟩ (some (List.replicate 12 3))
      ⟨"play.min.io:9000", "test-access", "test-secret", ""⟩ =
      .ok (refLib.base64Encode (List.replicate 12 3 ++
        refLib.gcmSeal (List.replicate 32 7) (List.replicate 12 3)
          ((refLib.jsonMarshal ⟨"play.min.io:9000", "test-access", "test-secret", ""⟩).getD []))) := by
  simp [EncryptCredentials, refLib, aesNewCipher, readFull, gcmNonceSize, gcmSealCall]

/-- Witness for C6: the login of the repository test `TestLoginSetsSecureCookieOverTLS` (a
form post over TLS) and a logout on the same request, at time `now = 0`. -/
theorem Login_Logout_cookie_witness :
    (∃ c' k, AuthHandler.Login refLib
        ⟨⟨List.replicate 32 7⟩, ⟨fun _ => some ⟨some [], fun _ _ => none, fun _ _ => none, fun _ _ _ => .error ""⟩⟩,
          "play.min.io:9000"⟩ none (some (List.replicate 12 3)) 0
        ⟨⟨"POST", "/login", [], [], true, [("accessKey", "test-access"),
          ("secretKey", "test-secret")], []⟩, ⟨[], [], 200, false, []⟩, [], []⟩ =
          .returned c' none ∧
      c'.response.SetCookies = [] ++ [k] ∧
      k.Name = "IronSeal" ∧
      k.Value = refLib.base64Encode (List.replicate 12 3 ++
        refLib.gcmSeal (List.replicate 32 7) (List.replicate 12 3)
          ((refLib.jsonMarshal ⟨"play.min.io:9000", "test-access", "test-secret", ""⟩).getD [])) ∧
      k.HttpOnly = true ∧ k.SameSite = .strict ∧
      k.Path = "/" ∧ k.Expires = some (0 + 24 * 3600000000000) ∧
      (k.Secure = true ↔ (true = true ∨ Header.Get [] "X-Forwarded-Proto" = "https"))) ∧
    (∃ c' k exp, AuthHandler.Logout 0
        ⟨⟨"POST", "/login", [], [], true, [("accessKey", "test-access"),
          ("secretKey", "test-secret")], []⟩, ⟨[], [], 200, false, []⟩, [], []⟩ =
          .returned c' none ∧
      c'.response.SetCookies = [] ++ [k] ∧
      k.Name = "IronSeal" ∧ k.Value = "" ∧ k.MaxAge = -1 ∧ k.Expires = some exp ∧ exp < 0 ∧
      k.HttpOnly = true ∧ k.SameSite = .strict ∧ k.Path = "/" ∧
      (k.Secure = true ↔ (true = true ∨ Header.Get [] "X-Forwarded-Proto" = "https"))) :=
  Login_Logout_cookie refLib
    ⟨⟨List.replicate 32 7⟩, ⟨fun _ => some ⟨some [], fun _ _ => none, fun _ _ => none, fun _ _ _ => .error ""⟩⟩,
      "play.min.io:9000"⟩ none (some (List.replicate 12 3)) 0
    ⟨⟨"POST", "/login", [], [], true, [("accessKey", "test-access"),
      ("secretKey", "test-secret")], []⟩, ⟨[], [], 200, false, []⟩, [], []⟩
    ⟨some [], fun _ _ => none, fun _ _ => none, fun _ _ _ => .error ""⟩ [] _ rfl rfl refSeal_ok


/-! ## Pagination -/

/-- The page size in force: `MaxKeys` when positive, `DefaultPageSize` otherwise. -/
theorem effective_maxKeys (opts : ListObjectsOptions) :
    (if opts.MaxKeys ≤ 0 then DefaultPageSize else opts.MaxKeys) =
      (if opts.MaxKeys > 0 then opts.MaxKeys else 100) ∧
    0 < (if opts.MaxKeys > 0 then opts.MaxKeys else 100) := by
  by_cases h : opts.MaxKeys ≤ 0
  · have h' : ¬ opts.MaxKeys > 0 := by omega
    simp [h, h', DefaultPageSize]
  · have h' : opts.MaxKeys > 0 := by omega
    simp [h, h']

theorem getLast?_cons_key (o : Minio.ObjectInfo) (t : List Minio.ObjectInfo) (lk : String) :
    (((o :: t).getLast?).map (·.Key)).getD lk = ((t.getLast?).map (·.Key)).getD o.Key := by
  cases t with
  | nil => simp
  | cons a t =>
    rw [List.getLast?_cons_cons, List.getLast?_eq_getLast _ (List.cons_ne_nil a t)]
    simp

/-- The loop of `ListObjectsPaginated` on an error-free listing: it appends the items up to
the page size and remembers the key of the last one. -/
theorem listLoop_spec (m : Int) (l : List Minio.ObjectInfo) :
    ∀ (acc : List Minio.ObjectInfo) (lk : String), (∀ o ∈ l, o.Err = none) →
      (acc.length : Int) < m →
      listLoop m l acc lk =
        .ok (acc ++ l.take (m.toNat - acc.length),
          (((l.take (m.toNat - acc.length)).getLast?).map (·.Key)).getD lk) := by
  induction l with
  | nil => intro acc lk _ _; simp [listLoop]
  | cons o rest ih =>
    intro acc lk herr hacc
    have ho : o.Err = none := herr o (List.mem_cons_self _ _)
    have hrest : ∀ x ∈ rest, x.Err = none := fun x hx => herr x (List.mem_cons_of_mem _ hx)
    have hk : m.toNat - acc.length = (m.toNat - (acc.length + 1)) + 1 := by omega
    rw [hk, List.take_succ_cons, getLast?_cons_key]
    simp only [listLoop, ho, List.length_append, List.length_singleton]
    by_cases hfull : ((acc.length + 1 : Nat) : Int) ≥ m
    · have hz : m.toNat - (acc.length + 1) = 0 := by omega
      simp only [hz, List.take_zero, List.append_nil, List.getLast?_nil, Option.map_none',
        Option.getD_none, if_pos hfull]
    · rw [if_neg hfull, ih (acc ++ [o]) o.Key hrest (by simp; omega)]
      simp

/-- The page `ListObjectsPaginated` returns on an error-free listing, in closed form. -/
theorem ListObjectsPaginated_eq (c : WrappedMinioClient) (bucketName : String)
    (opts : ListObjectsOptions)
    (herr : ∀ o ∈ c.client.ListObjects bucketName
      ⟨opts.Prefix, opts.Recursive, opts.ContinuationToken⟩, o.Err = none) :
    c.ListObjectsPaginated bucketName opts =
      .ok ⟨(c.client.ListObjects bucketName
            ⟨opts.Prefix, opts.Recursive, opts.ContinuationToken⟩).take
              (if opts.MaxKeys > 0 then opts.MaxKeys else 100).toNat,
        decide ((if opts.MaxKeys > 0 then opts.MaxKeys else 100).toNat ≤
          (c.client.ListObjects bucketName
            ⟨opts.Prefix, opts.Recursive, opts.ContinuationToken⟩).length),
        if (if opts.MaxKeys > 0 then opts.MaxKeys else 100).toNat ≤
            (c.client.ListObjects bucketName
              ⟨opts.Prefix, opts.Recursive, opts.ContinuationToken⟩).length then
          ((((c.client.ListObjects bucketName
            ⟨opts.Prefix, opts.Recursive, opts.ContinuationToken⟩).take
              (if opts.MaxKeys > 0 then opts.MaxKeys else 100).toNat).getLast?).map
                (·.Key)).getD ""
        else ""⟩ := by
  obtain ⟨hm, hpos⟩ := effective_maxKeys opts
  have hopts : (if opts.ContinuationToken ≠ "" then
      ({ Prefix := opts.Prefix, Recursive := opts.Recursive,
         StartAfter := opts.ContinuationToken } : Minio.ListObjectsOptions)
      else { Prefix := opts.Prefix, Recursive := opts.Recursive, StartAfter := "" }) =
      ⟨opts.Prefix, opts.Recursive, opts.ContinuationToken⟩ := by
    by_cases ht : opts.ContinuationToken = ""
    · simp [ht]
    · simp [ht]
  generalize hl : c.client.ListObjects bucketName
    ⟨opts.Prefix, opts.Recursive, opts.ContinuationToken⟩ = l at herr ⊢
  generalize hM : (if opts.MaxKeys > 0 then opts.MaxKeys else 100) = m at hm hpos ⊢
  simp only [WrappedMinioClient.ListObjectsPaginated, hm, hopts, hl]
  rw [listLoop_spec m l [] "" herr (by simpa using hpos)]
  by_cases hfull : m.toNat ≤ l.length
  · have hfull' : m ≤ (l.length : Int) := by omega
    simp [hfull, hfull']
  · have hfull' : ¬ m ≤ (l.length : Int) := by omega
    simp [hfull, hfull']

/-- **C8.** For every options value and every error-free underlying listing,
`ListObjectsPaginated` returns a page; it holds at most `m` objects, where `m` is `MaxKeys`
when `MaxKeys > 0` and 100 otherwise, and they are the first objects of the listing, in
order; `IsTruncated = false` implies an empty `NextContinuationToken`, and
`IsTruncated = true` implies that the page has a last object and that
`NextContinuationToken` is its key. -/
theorem ListObjectsPaginated_page (c : WrappedMinioClient) (bucketName : String)
    (opts : ListObjectsOptions)
    (herr : ∀ o ∈ c.client.ListObjects bucketName
      ⟨opts.Prefix, opts.Recursive, opts.ContinuationToken⟩, o.Err = none) :
    ∃ page, c.ListObjectsPaginated bucketName opts = .ok page ∧
      (page.Objects.length : Int) ≤ (if opts.MaxKeys > 0 then opts.MaxKeys else 100) ∧
      page.Objects = (c.client.ListObjects bucketName
        ⟨opts.Prefix, opts.Recursive, opts.ContinuationToken⟩).take page.Objects.length ∧
      (page.IsTruncated = false → page.NextContinuationToken = "") ∧
      (page.IsTruncated = true →
        ∃ last, page.Objects.getLast? = some last ∧ page.NextContinuationToken = last.Key) := by
  obtain ⟨-, hpos⟩ := effective_maxKeys opts
  refine ⟨_, ListObjectsPaginated_eq c bucketName opts herr, ?_, ?_, ?_, ?_⟩
  · simp only [List.length_take]
    omega
  · simp only [List.length_take, List.take_eq_take, Nat.min_assoc, Nat.min_self]
  · intro h
    simp only [decide_eq_false_iff_not] at h
    simp [h]
  · intro h
    simp only [decide_eq_true_eq] at h
    simp only [h, if_true]
    have hne : (List.take (if opts.MaxKeys > 0 then opts.MaxKeys else 100).toNat
        (c.client.ListObjects bucketName
          ⟨opts.Prefix, opts.Recursive, opts.ContinuationToken⟩)) ≠ [] := by
      intro hnil
      have := congrArg List.length hnil
      simp only [List.length_take, List.length_nil] at this
      omega
    refine ⟨_, List.getLast?_eq_getLast _ hne, ?_⟩
    rw [List.getLast?_eq_getLast _ hne]
    rfl

/-- Witness for C8: three objects, page size 2, on the listing backend. -/
theorem ListObjectsPaginated_page_witness :
    ∃ page, (⟨listingBackend [objWithKey "a", objWithKey "b", objWithKey "c"]⟩ :
        WrappedMinioClient).ListObjectsPaginated "bucket" ⟨"", true, 2, ""⟩ = .ok page ∧
      (page.Objects.length : Int) ≤ (if (2 : Int) > 0 then 2 else 100) ∧
      page.Objects = ((listingBackend [objWithKey "a", objWithKey "b", objWithKey "c"]).ListObjects
        "bucket" ⟨"", true, ""⟩).take page.Objects.length ∧
      (page.IsTruncated = false → page.NextContinuationToken = "") ∧
      (page.IsTruncated = true →
        ∃ last, page.Objects.getLast? = some last ∧ page.NextContinuationToken = last.Key) :=
  ListObjectsPaginated_page ⟨listingBackend [objWithKey "a", objWithKey "b", objWithKey "c"]⟩
    "bucket" ⟨"", true, 2, ""⟩ (by decide)


/-- On a strictly increasing listing, the items with a key above `d`'s are those after `d`. -/
theorem filter_after (pre post : List Minio.ObjectInfo) (d : Minio.ObjectInfo)
    (hs : (pre ++ d :: post).Pairwise (fun a b => a.Key < b.Key)) :
    (pre ++ d :: post).filter (fun o => decide (d.Key < o.Key)) = post := by
  rw [List.pairwise_append] at hs
  obtain ⟨_, hdp, hpre⟩ := hs
  rw [List.pairwise_cons] at hdp
  have h1 : pre.filter (fun o => decide (d.Key < o.Key)) = [] := by
    rw [List.filter_eq_nil_iff]
    intro x hx
    simpa using lt_asymm (hpre x hx d (List.mem_cons_self _ _))
  have h2 : post.filter (fun o => decide (d.Key < o.Key)) = post := by
    rw [List.filter_eq_self]
    intro x hx
    simpa using hdp.1 x hx
  rw [List.filter_append, List.filter_cons, h1, h2]
  simp

/-- One call of `ListObjectsPaginated` at page size `m ≥ 1` on the error-free listing `rest`. -/
theorem ListObjectsPaginated_call (c : WrappedMinioClient) (bucketName pfx : String)
    (recursive : Bool) (m : Int) (hm : 1 ≤ m) (token : String) (rest : List Minio.ObjectInfo)
    (hlist : c.client.ListObjects bucketName ⟨pfx, recursive, token⟩ = rest)
    (herr : ∀ o ∈ rest, o.Err = none) :
    c.ListObjectsPaginated bucketName ⟨pfx, recursive, m, token⟩ =
      .ok ⟨rest.take m.toNat, decide (m.toNat ≤ rest.length),
        if m.toNat ≤ rest.length then (((rest.take m.toNat).getLast?).map (·.Key)).getD ""
        else ""⟩ := by
  have hpos : m > 0 := by omega
  have h := ListObjectsPaginated_eq c bucketName ⟨pfx, recursive, m, token⟩
    (by simpa only [hlist] using herr)
  simpa only [hlist, hpos, if_true] using h

/-- The pages the caller collects from a point of a strictly increasing listing onwards. -/
theorem fetchPages_from (c : WrappedMinioClient) (bucketName pfx : String) (recursive : Bool)
    (m : Int) (hm : 1 ≤ m) (objs : List Minio.ObjectInfo)
    (hsorted : objs.Pairwise (fun a b => a.Key < b.Key))
    (hkeys : ∀ o ∈ objs, o.Key ≠ "")
    (herr : ∀ o ∈ objs, o.Err = none)
    (hafter : ∀ t, t ≠ "" → c.client.ListObjects bucketName ⟨pfx, recursive, t⟩ =
      objs.filter (fun o => decide (t < o.Key))) (t0 : String) :
    ∀ (k : Nat) (done rest : List Minio.ObjectInfo) (token : String), rest.length ≤ k →
      objs = done ++ rest →
      c.client.ListObjects bucketName ⟨pfx, recursive, token⟩ = rest →
      ∃ pages, (∀ fuel, rest.length + 1 ≤ fuel →
          fetchPages c bucketName ⟨pfx, recursive, m, t0⟩ fuel token = some pages) ∧
        (pages.map (·.Objects)).flatten = rest ∧
        pages.map (fun p => p.Objects.length) =
          List.replicate (rest.length / m.toNat) m.toNat ++ [rest.length % m.toNat] ∧
        pages.map (·.IsTruncated) = List.replicate (rest.length / m.toNat) true ++ [false] := by
  have hn : 1 ≤ m.toNat := by omega
  intro k
  induction k with
  | zero =>
    intro done rest token hk _ hlist
    have hrest : rest = [] := List.length_eq_zero.mp (by omega)
    subst hrest
    have hcall := ListObjectsPaginated_call c bucketName pfx recursive m hm token [] hlist
      (by simp)
    have hlt : ¬ m.toNat ≤ 0 := by omega
    refine ⟨[⟨[], false, ""⟩], ?_, by simp, ?_, ?_⟩
    · intro fuel hfuel
      obtain ⟨f, rfl⟩ : ∃ f, fuel = f + 1 := ⟨fuel - 1, by simp at hfuel; omega⟩
      simp only [fetchPages]
      rw [hcall]
      simp [hlt]
    · simp [Nat.div_eq_of_lt (show 0 < m.toNat by omega)]
    · simp [Nat.div_eq_of_lt (show 0 < m.toNat by omega)]
  | succ k ih =>
    intro done rest token hk hobjs hlist
    have herr_rest : ∀ o ∈ rest, o.Err = none := fun o ho =>
      herr o (by rw [hobjs]; exact List.mem_append_right _ ho)
    have hcall := ListObjectsPaginated_call c bucketName pfx recursive m hm token rest hlist
      herr_rest
    by_cases hfull : m.toNat ≤ rest.length
    · have hne : rest.take m.toNat ≠ [] := by
        intro hnil
        have := congrArg List.length hnil
        simp only [List.length_take, List.length_nil] at this
        omega
      have hsplit : objs = (done ++ (rest.take m.toNat).dropLast) ++
          (rest.take m.toNat).getLast hne :: rest.drop m.toNat := by
        rw [hobjs, List.append_assoc]
        congr 1
        rw [← List.singleton_append, ← List.append_assoc, List.dropLast_append_getLast hne,
          List.take_append_drop]
      have hmem : (rest.take m.toNat).getLast hne ∈ objs := by
        rw [hsplit]
        simp
      have hnext : c.client.ListObjects bucketName
          ⟨pfx, recursive, ((rest.take m.toNat).getLast hne).Key⟩ = rest.drop m.toNat := by
        rw [hafter _ (hkeys _ hmem)]
        conv_lhs => rw [hsplit]
        exact filter_after _ _ _ (hsplit ▸ hsorted)
      obtain ⟨pages, hrun, hcat, hlen, htr⟩ := ih (done ++ rest.take m.toNat)
        (rest.drop m.toNat) _ (by simp only [List.length_drop]; omega)
        (by rw [List.append_assoc, List.take_append_drop]; exact hobjs) hnext
      have hdiv : rest.length / m.toNat = (rest.length - m.toNat) / m.toNat + 1 := by
        rw [← Nat.sub_add_cancel hfull, Nat.add_div_right _ (by omega : 0 < m.toNat)]
        simp
      have hmod : rest.length % m.toNat = (rest.length - m.toNat) % m.toNat := by
        conv_lhs => rw [← Nat.sub_add_cancel hfull]
        simp
      refine ⟨⟨rest.take m.toNat, true, ((rest.take m.toNat).getLast hne).Key⟩ :: pages,
        ?_, ?_, ?_, ?_⟩
      · intro fuel hfuel
        obtain ⟨f, rfl⟩ : ∃ f, fuel = f + 1 := ⟨fuel - 1, by omega⟩
        simp only [fetchPages]
        rw [hcall]
        simp only [hfull, decide_True, if_true, List.getLast?_eq_getLast _ hne, Option.map_some',
          Option.getD_some]
        rw [hrun f (by simp only [List.length_drop]; omega)]
        rfl
      · simp only [List.map_cons, List.flatten_cons, hcat, List.take_append_drop]
      · simp only [List.map_cons, hlen, List.length_take, List.length_drop, hdiv, hmod,
          List.replicate_succ, List.cons_append, Nat.min_eq_left hfull]
      · simp only [List.map_cons, htr, List.length_drop, hdiv, List.replicate_succ,
          List.cons_append]
    · have hlt : rest.length < m.toNat := by omega
      refine ⟨[⟨rest, false, ""⟩], ?_, by simp, ?_, ?_⟩
      · intro fuel hfuel
        obtain ⟨f, rfl⟩ : ∃ f, fuel = f + 1 := ⟨fuel - 1, by omega⟩
        simp only [fetchPages]
        rw [hcall]
        simp [hfull, List.take_of_length_le (le_of_lt hlt)]
      · simp [Nat.div_eq_of_lt hlt, Nat.mod_eq_of_lt hlt]
      · simp [Nat.div_eq_of_lt hlt]


/-- Counterexample to C7 as stated: a backend holding the two keys `""` and `"a"`, in strictly
increasing order, that honours `StartAfter` as "strictly greater than", read with page size
1.  The first page holds the key `""`, reports `IsTruncated = true` and hands out the
continuation token `""`, which is the starting token again, so the next call is the same
call; the sequence of calls never reaches a page with `IsTruncated = false`, whatever the
number of calls allowed. -/
theorem fetchPages_empty_key_repeats :
    [objWithKey "", objWithKey "a"].Pairwise (fun a b => a.Key < b.Key) ∧
    (∀ t, t ≠ "" →
      (listingBackend [objWithKey "", objWithKey "a"]).ListObjects "bucket" ⟨"", true, t⟩ =
        [objWithKey "", objWithKey "a"].filter (fun o => decide (t < o.Key))) ∧
    (⟨listingBackend [objWithKey "", objWithKey "a"]⟩ : WrappedMinioClient).ListObjectsPaginated
      "bucket" ⟨"", true, 1, ""⟩ = .ok ⟨[objWithKey ""], true, ""⟩ ∧
    ¬ ∃ fuel pages, fetchPages ⟨listingBackend [objWithKey "", objWithKey "a"]⟩ "bucket"
      ⟨"", true, 1, ""⟩ fuel "" = some pages := by
  have hcall : (⟨listingBackend [objWithKey "", objWithKey "a"]⟩ :
      WrappedMinioClient).ListObjectsPaginated "bucket" ⟨"", true, 1, ""⟩ =
        .ok ⟨[objWithKey ""], true, ""⟩ := by
    simp [WrappedMinioClient.ListObjectsPaginated, listLoop, listingBackend, objWithKey]
  refine ⟨?_, ?_, hcall, ?_⟩
  · simp only [List.pairwise_cons, List.mem_singleton, forall_eq, objWithKey,
      String.lt_iff_toList_lt, List.Pairwise.nil]
    decide
  · intro t ht
    simp [listingBackend, ht]
  · rintro ⟨fuel, pages, h⟩
    induction fuel generalizing pages with
    | zero => simp [fetchPages] at h
    | succ f ih =>
      simp only [fetchPages] at h
      rw [hcall] at h
      simp only [if_true, Option.map_eq_some'] at h
      obtain ⟨ps, hps, -⟩ := h
      exact ih ps hps

/-- **C7 (amended).** Against a backend whose listing under a prefix returns `N` error-free
objects with distinct, non-empty keys in strictly increasing order and honours `StartAfter`
as "strictly greater than", calling `ListObjectsPaginated` with page size `m ≥ 1`, starting
from the empty continuation token and feeding each page's `NextContinuationToken` into the
next call until a page reports `IsTruncated = false`, terminates (`N + 1` calls are always
enough) and the pages concatenate to exactly the full listing; there are `N / m` pages of
exactly `m` objects with `IsTruncated = true`, followed by one last page of `N % m` objects
with `IsTruncated = false`.  For `N = 250` and `m = 100` the pages hold 100, 100 and 50
objects and only the last one reports `IsTruncated = false`. -/
theorem fetchPages_complete (c : WrappedMinioClient) (bucketName pfx : String)
    (recursive : Bool) (m : Int) (hm : 1 ≤ m) (objs : List Minio.ObjectInfo)
    (hsorted : objs.Pairwise (fun a b => a.Key < b.Key))
    (hkeys : ∀ o ∈ objs, o.Key ≠ "")
    (herr : ∀ o ∈ objs, o.Err = none)
    (hall : c.client.ListObjects bucketName ⟨pfx, recursive, ""⟩ = objs)
    (hafter : ∀ t, t ≠ "" → c.client.ListObjects bucketName ⟨pfx, recursive, t⟩ =
      objs.filter (fun o => decide (t < o.Key))) (t0 : String) :
    ∃ pages, (∀ fuel, objs.length + 1 ≤ fuel →
        fetchPages c bucketName ⟨pfx, recursive, m, t0⟩ fuel "" = some pages) ∧
      (pages.map (·.Objects)).flatten = objs ∧
      pages.map (fun p => p.Objects.length) =
        List.replicate (objs.length / m.toNat) m.toNat ++ [objs.length % m.toNat] ∧
      pages.map (·.IsTruncated) = List.replicate (objs.length / m.toNat) true ++ [false] ∧
      (objs.length = 250 → m = 100 →
        pages.map (fun p => p.Objects.length) = [100, 100, 50] ∧
        pages.map (·.IsTruncated) = [true, true, false]) := by
  obtain ⟨pages, hrun, hcat, hlen, htr⟩ := fetchPages_from c bucketName pfx recursive m hm objs
    hsorted hkeys herr hafter t0 objs.length [] objs "" le_rfl rfl hall
  refine ⟨pages, hrun, hcat, hlen, htr, ?_⟩
  intro hN hM
  rw [hlen, htr, hN, hM]
  exact ⟨by decide, by decide⟩

/-- Witness for C7 (amended): the keys `a`, `b`, `c` on the listing backend, page size 2. -/
theorem fetchPages_complete_witness :
    ∃ pages, (∀ fuel, [objWithKey "a", objWithKey "b", objWithKey "c"].length + 1 ≤ fuel →
        fetchPages ⟨listingBackend [objWithKey "a", objWithKey "b", objWithKey "c"]⟩ "bucket"
          ⟨"", true, 2, ""⟩ fuel "" = some pages) ∧
      (pages.map (·.Objects)).flatten = [objWithKey "a", objWithKey "b", objWithKey "c"] ∧
      pages.map (fun p => p.Objects.length) =
        List.replicate ([objWithKey "a", objWithKey "b", objWithKey "c"].length / (2 : Int).toNat)
          (2 : Int).toNat ++
          [[objWithKey "a", objWithKey "b", objWithKey "c"].length % (2 : Int).toNat] ∧
      pages.map (·.IsTruncated) =
        List.replicate ([objWithKey "a", objWithKey "b", objWithKey "c"].length / (2 : Int).toNat)
          true ++ [false] ∧
      ([objWithKey "a", objWithKey "b", objWithKey "c"].length = 250 → (2 : Int) = 100 →
        pages.map (fun p => p.Objects.length) = [100, 100, 50] ∧
        pages.map (·.IsTruncated) = [true, true, false]) :=
  fetchPages_complete ⟨listingBackend [objWithKey "a", objWithKey "b", objWithKey "c"]⟩ "bucket"
    "" true 2 (by decide) [objWithKey "a", objWithKey "b", objWithKey "c"]
    (by
      simp only [List.pairwise_cons, List.mem_cons, List.mem_singleton, forall_eq_or_imp,
        forall_eq, objWithKey, String.lt_iff_toList_lt, List.Pairwise.nil]
      decide)
    (by decide) (by decide) rfl (fun t ht => by simp [listingBackend, ht]) ""


/-! ## `DownloadZip` -/

theorem Header.Get_Set_ne (h : Header) (key key' value : String) (hne : key ≠ key') :
    (h.Set key value).Get key' = h.Get key' := by
  have h1 : (key' == key) = false := by simpa using fun e => hne e.symm
  have h2 : ∀ l : Header, (l.filter (fun kv => kv.1 != key)).lookup key' = l.lookup key' := by
    intro l
    induction l with
    | nil => rfl
    | cons kv l ih =>
      obtain ⟨k, v⟩ := kv
      by_cases hk : k = key
      · subst hk
        simp [List.filter_cons, List.lookup_cons, h1, ih]
      · by_cases hk' : key' = k
        · subst hk'
          simp [List.filter_cons, List.lookup_cons, hk]
        · simp [List.filter_cons, List.lookup_cons, hk, hk', ih]
  simp only [Header.Get, Header.Set, List.lookup_cons, h1, h2]

/-- With credentials in the context, `GetCredentialsOrRedirect` hands them out and leaves the
context alone. -/
theorem GetCredentialsOrRedirect_ok (c : Context) (creds : Credentials)
    (hcreds : GetCredentials c = .ok creds) :
    GetCredentialsOrRedirect c = (c, some creds, none) := by
  simp [GetCredentialsOrRedirect, hcreds]

/-- The loop of `DownloadZip` when every file opens and every entry can be created: one entry
per file, in order, after what the body held. -/
theorem zipLoop_all_ok (Z : ZipLib) (client : MinioClient) (bucketName pfx : String)
    (files : List Minio.ObjectInfo) :
    ∀ (body : List BodyChunk) (events : List ZipEvent),
      (∀ o ∈ files, ∃ reader size, client.GetObjectReader bucketName o.Key = some (reader, size) ∧
        reader.Err = false ∧ Z.createOk (TrimPrefix o.Key pfx) = true) →
      ∃ entries, (zipLoop Z client bucketName pfx files body events).1 = body ++ entries ∧
        List.Forall₂ (fun o e => ∃ reader size,
          client.GetObjectReader bucketName o.Key = some (reader, size) ∧ reader.Err = false ∧
          e = BodyChunk.zipEntry (TrimPrefix o.Key pfx) reader.Data) files entries := by
  induction files with
  | nil => intro body events _; exact ⟨[], by simp [zipLoop], List.Forall₂.nil⟩
  | cons o files ih =>
    intro body events hall
    obtain ⟨reader, size, hopen, hcopy, hcreate⟩ := hall o (List.mem_cons_self _ _)
    obtain ⟨entries, hbody, hrel⟩ := ih (body ++ [.zipEntry (TrimPrefix o.Key pfx) reader.Data])
      (events ++ [.opened o.Key, .created (TrimPrefix o.Key pfx),
        .copied (TrimPrefix o.Key pfx) (!reader.Err), .readerClosed o.Key])
      (fun x hx => hall x (List.mem_cons_of_mem _ hx))
    refine ⟨.zipEntry (TrimPrefix o.Key pfx) reader.Data :: entries, ?_,
      List.Forall₂.cons ⟨reader, size, hopen, hcopy, rfl⟩ hrel⟩
    simp only [zipLoop, hopen, hcreate, if_true, hbody, List.append_assoc, List.singleton_append]

/-- **C10.** Whenever the handler holds credentials, the client is created and the recursive
listing under the prefix succeeds but is empty or consists only of keys ending in `/`,
`DownloadZip` returns the error 404 "No files to download" with the context it was given,
untouched: no `Content-Type` or `Content-Disposition` header set, no status committed, no
byte written to the response; and it has opened no object nor created a zip writer. -/
theorem DownloadZip_no_files (Z : ZipLib) (h : BucketsHandler) (c : Context)
    (creds : Credentials) (client : MinioClient) (objectsList : List Minio.ObjectInfo)
    (hcreds : GetCredentials c = .ok creds)
    (hclient : h.minioFactory.NewClient creds = some client)
    (hlist : client.ListObjects (c.Param "bucketName") ⟨c.QueryParam "prefix", true, ""⟩ =
      some objectsList)
    (hmarkers : ∀ o ∈ objectsList, HasSuffix o.Key "/" = true) :
    BucketsHandler.DownloadZip Z h c =
      ⟨.returned c (some (.http 404 "No files to download")), []⟩ := by
  have hfiles : objectsList.filter (fun obj => !HasSuffix obj.Key "/") = [] := by
    rw [List.filter_eq_nil_iff]
    intro o ho
    simp [hmarkers o ho]
  simp only [BucketsHandler.DownloadZip, GetCredentialsOrRedirect_ok c creds hcreds, hclient,
    hlist, hfiles, List.length_nil, if_true, StatusNotFound]

/-- Witness for C10: a bucket whose listing under `empty/` holds only the folder marker. -/
theorem DownloadZip_no_files_witness :
    BucketsHandler.DownloadZip ⟨fun _ => true, fun s => s⟩
      ⟨⟨fun _ => some ⟨some [], fun _ _ => some [objWithKey "empty/"], fun _ _ => none, fun _ _ _ => .error ""⟩⟩⟩
      ⟨⟨"GET", "/buckets/b/zip", [], [], false, [], [("prefix", "empty/")]⟩,
        ⟨[], [], 200, false, []⟩, [("creds", .creds ⟨"e", "a", "s", ""⟩)],
        [("bucketName", "b")]⟩ =
      ⟨.returned ⟨⟨"GET", "/buckets/b/zip", [], [], false, [], [("prefix", "empty/")]⟩,
        ⟨[], [], 200, false, []⟩, [("creds", .creds ⟨"e", "a", "s", ""⟩)],
        [("bucketName", "b")]⟩ (some (.http 404 "No files to download")), []⟩ :=
  DownloadZip_no_files _ _ _ ⟨"e", "a", "s", ""⟩
    ⟨some [], fun _ _ => some [objWithKey "empty/"], fun _ _ => none, fun _ _ _ => .error ""⟩ [objWithKey "empty/"]
    rfl rfl rfl (by decide)


/-- **C9.** When the handler holds credentials, the client is created, the recursive listing
under the prefix succeeds and every listed object whose key does not end in `/` opens,
gets its entry created and is copied without error, `DownloadZip` returns without error on
a response with status 200 and `Content-Type: application/zip` (and the attachment name in
`Content-Disposition`); what it wrote to the body is exactly one entry per listed key not
ending in `/`, in the order of the listing, each named by the key with the leading prefix
removed and holding that object's bytes, followed by the central directory of the archive.
For the prefix `folder/` the keys `folder/file1.txt`, `folder/file2.txt` and
`folder/subfolder/file3.txt` give the names `file1.txt`, `file2.txt` and
`subfolder/file3.txt`. -/
theorem DownloadZip_archive (Z : ZipLib) (h : BucketsHandler) (c : Context)
    (creds : Credentials) (client : MinioClient) (objectsList : List Minio.ObjectInfo)
    (hfresh : c.response.Committed = false)
    (hcreds : GetCredentials c = .ok creds)
    (hclient : h.minioFactory.NewClient creds = some client)
    (hlist : client.ListObjects (c.Param "bucketName") ⟨c.QueryParam "prefix", true, ""⟩ =
      some objectsList)
    (hfile : ∃ o ∈ objectsList, HasSuffix o.Key "/" = false)
    (hall : ∀ o ∈ objectsList, HasSuffix o.Key "/" = false →
      ∃ reader size, client.GetObjectReader (c.Param "bucketName") o.Key = some (reader, size) ∧
        reader.Err = false ∧ Z.createOk (TrimPrefix o.Key (c.QueryParam "prefix")) = true) :
    (∃ c' entries, (BucketsHandler.DownloadZip Z h c).outcome = .returned c' none ∧
      c'.response.Status = 200 ∧ c'.response.Committed = true ∧
      c'.response.Header.Get "Content-Type" = "application/zip" ∧
      c'.response.Header.Get "Content-Disposition" = "attachment; filename=" ++
        Z.quote (zipFileName (c.Param "bucketName") (c.QueryParam "prefix")) ∧
      c'.response.Body = c.response.Body ++ entries ++ [.zipDirectory] ∧
      List.Forall₂ (fun o e => ∃ reader size,
          client.GetObjectReader (c.Param "bucketName") o.Key = some (reader, size) ∧
          reader.Err = false ∧
          e = BodyChunk.zipEntry (TrimPrefix o.Key (c.QueryParam "prefix")) reader.Data)
        (objectsList.filter (fun o => !HasSuffix o.Key "/")) entries) ∧
    TrimPrefix "folder/file1.txt" "folder/" = "file1.txt" ∧
    TrimPrefix "folder/file2.txt" "folder/" = "file2.txt" ∧
    TrimPrefix "folder/subfolder/file3.txt" "folder/" = "subfolder/file3.txt" := by
  refine ⟨?_, by decide, by decide, by decide⟩
  have hfiles : (objectsList.filter (fun obj => !HasSuffix obj.Key "/")).length ≠ 0 := by
    obtain ⟨o, ho, hkey⟩ := hfile
    have hmem : o ∈ objectsList.filter (fun obj => !HasSuffix obj.Key "/") := by
      simp [List.mem_filter, ho, hkey]
    intro hzero
    rw [List.length_eq_zero] at hzero
    rw [hzero] at hmem
    exact List.not_mem_nil _ hmem
  obtain ⟨entries, hbody, hrel⟩ := zipLoop_all_ok Z client (c.Param "bucketName")
    (c.QueryParam "prefix") (objectsList.filter (fun obj => !HasSuffix obj.Key "/"))
    c.response.Body [.writerCreated] (by
      intro o ho
      rw [List.mem_filter] at ho
      exact hall o ho.1 (by simpa using ho.2))
  have hout : (BucketsHandler.DownloadZip Z h c).outcome =
      .returned ⟨c.request,
        ⟨(c.response.Header.Set "Content-Type" "application/zip").Set "Content-Disposition"
            ("attachment; filename=" ++
              Z.quote (zipFileName (c.Param "bucketName") (c.QueryParam "prefix"))),
          c.response.SetCookies, 200, true,
          (zipLoop Z client (c.Param "bucketName") (c.QueryParam "prefix")
            (objectsList.filter (fun obj => !HasSuffix obj.Key "/")) c.response.Body
            [.writerCreated]).1 ++ [.zipDirectory]⟩, c.store, c.params⟩ none := by
    simp only [BucketsHandler.DownloadZip, GetCredentialsOrRedirect_ok c creds hcreds, hclient,
      hlist, if_neg hfiles, Response.WriteHeader, hfresh, StatusOK]
    rfl
  refine ⟨_, entries, hout, rfl, rfl, ?_, Header.Get_Set _ _ _, ?_, hrel⟩
  · exact (Header.Get_Set_ne _ _ _ _ (by decide)).trans (Header.Get_Set _ _ _)
  · simp only [hbody]

/-- Witness for C9: the request of `TestZipDownloadJourney`. -/
theorem DownloadZip_archive_witness :
    (∃ c' entries, (BucketsHandler.DownloadZip ⟨fun _ => true, fun s => s⟩
        ⟨⟨fun _ => some zipJourneyClient⟩⟩ zipJourneyContext).outcome = .returned c' none ∧
      c'.response.Status = 200 ∧ c'.response.Committed = true ∧
      c'.response.Header.Get "Content-Type" = "application/zip" ∧
      c'.response.Header.Get "Content-Disposition" = "attachment; filename=" ++
        (zipFileName (zipJourneyContext.Param "bucketName")
          (zipJourneyContext.QueryParam "prefix")) ∧
      c'.response.Body = zipJourneyContext.response.Body ++ entries ++ [.zipDirectory] ∧
      List.Forall₂ (fun o e => ∃ reader size,
          zipJourneyClient.GetObjectReader (zipJourneyContext.Param "bucketName") o.Key =
            some (reader, size) ∧
          reader.Err = false ∧
          e = BodyChunk.zipEntry (TrimPrefix o.Key (zipJourneyContext.QueryParam "prefix"))
            reader.Data)
        (zipJourneyObjects.filter (fun o => !HasSuffix o.Key "/")) entries) ∧
    TrimPrefix "folder/file1.txt" "folder/" = "file1.txt" ∧
    TrimPrefix "folder/file2.txt" "folder/" = "file2.txt" ∧
    TrimPrefix "folder/subfolder/file3.txt" "folder/" = "subfolder/file3.txt" :=
  DownloadZip_archive ⟨fun _ => true, fun s => s⟩ ⟨⟨fun _ => some zipJourneyClient⟩⟩
    zipJourneyContext ⟨"play.minio.io:9000", "admin", "password", ""⟩ zipJourneyClient
    zipJourneyObjects rfl rfl rfl rfl ⟨⟨"folder/file1.txt", 13, 0, "", none⟩, by decide, by decide⟩
    (fun o _ _ => by
      by_cases hk : o.Key = "folder/subfolder/file3.txt"
      · exact ⟨_, _, if_pos hk, rfl, rfl⟩
      · exact ⟨_, _, if_neg hk, rfl, rfl⟩)


/-- The loop of `DownloadZip` when each file either fails to open or opens, gets its entry
and is copied: one entry per file that opens, in order; the others are skipped. -/
theorem zipLoop_best_effort (Z : ZipLib) (client : MinioClient) (bucketName pfx : String)
    (files : List Minio.ObjectInfo) :
    ∀ (body : List BodyChunk) (events : List ZipEvent),
      (∀ o ∈ files, client.GetObjectReader bucketName o.Key = none ∨
        ∃ reader size, client.GetObjectReader bucketName o.Key = some (reader, size) ∧
          reader.Err = false ∧ Z.createOk (TrimPrefix o.Key pfx) = true) →
      ∃ entries, (zipLoop Z client bucketName pfx files body events).1 = body ++ entries ∧
        List.Forall₂ (fun o e => ∃ reader size,
          client.GetObjectReader bucketName o.Key = some (reader, size) ∧ reader.Err = false ∧
          e = BodyChunk.zipEntry (TrimPrefix o.Key pfx) reader.Data)
          (files.filter (fun o => (client.GetObjectReader bucketName o.Key).isSome)) entries := by
  induction files with
  | nil => intro body events _; exact ⟨[], by simp [zipLoop], by simp⟩
  | cons o files ih =>
    intro body events hall
    have hrest : ∀ x ∈ files, client.GetObjectReader bucketName x.Key = none ∨
        ∃ reader size, client.GetObjectReader bucketName x.Key = some (reader, size) ∧
          reader.Err = false ∧ Z.createOk (TrimPrefix x.Key pfx) = true :=
      fun x hx => hall x (List.mem_cons_of_mem _ hx)
    rcases hall o (List.mem_cons_self _ _) with hfail | ⟨reader, size, hopen, hcopy, hcreate⟩
    · obtain ⟨entries, hbody, hrel⟩ := ih body (events ++ [.openFailed o.Key]) hrest
      refine ⟨entries, ?_, ?_⟩
      · simp only [zipLoop, hfail, hbody]
      · simpa only [List.filter_cons, hfail, Option.isSome_none, Bool.false_eq_true,
          if_false] using hrel
    · obtain ⟨entries, hbody, hrel⟩ := ih
        (body ++ [.zipEntry (TrimPrefix o.Key pfx) reader.Data])
        (events ++ [.opened o.Key, .created (TrimPrefix o.Key pfx),
          .copied (TrimPrefix o.Key pfx) (!reader.Err), .readerClosed o.Key]) hrest
      refine ⟨.zipEntry (TrimPrefix o.Key pfx) reader.Data :: entries, ?_, ?_⟩
      · simp only [zipLoop, hopen, hcreate, if_true, hbody, List.append_assoc,
          List.singleton_append]
      · simpa only [List.filter_cons, hopen, Option.isSome_some, if_true] using
          List.Forall₂.cons ⟨reader, size, hopen, hcopy, rfl⟩ hrel

/-- **C11.** Once `DownloadZip` streams (credentials, client and listing available, at least
one listed key not ending in `/`, response not yet committed), whichever of the files fail
to open, the others opening, getting their entry and being copied, the handler returns
without error with status 200, and what it wrote to the body is one entry for each file
that opened, in listing order, followed by the central directory: every file after a
failed one is still opened and written. -/
theorem DownloadZip_best_effort (Z : ZipLib) (h : BucketsHandler) (c : Context)
    (creds : Credentials) (client : MinioClient) (objectsList : List Minio.ObjectInfo)
    (hfresh : c.response.Committed = false)
    (hcreds : GetCredentials c = .ok creds)
    (hclient : h.minioFactory.NewClient creds = some client)
    (hlist : client.ListObjects (c.Param "bucketName") ⟨c.QueryParam "prefix", true, ""⟩ =
      some objectsList)
    (hfile : ∃ o ∈ objectsList, HasSuffix o.Key "/" = false)
    (hall : ∀ o ∈ objectsList, HasSuffix o.Key "/" = false →
      client.GetObjectReader (c.Param "bucketName") o.Key = none ∨
      ∃ reader size, client.GetObjectReader (c.Param "bucketName") o.Key = some (reader, size) ∧
        reader.Err = false ∧ Z.createOk (TrimPrefix o.Key (c.QueryParam "prefix")) = true) :
    ∃ c' entries, (BucketsHandler.DownloadZip Z h c).outcome = .returned c' none ∧
      c'.response.Status = 200 ∧ c'.response.Committed = true ∧
      c'.response.Body = c.response.Body ++ entries ++ [.zipDirectory] ∧
      List.Forall₂ (fun o e => ∃ reader size,
          client.GetObjectReader (c.Param "bucketName") o.Key = some (reader, size) ∧
          reader.Err = false ∧
          e = BodyChunk.zipEntry (TrimPrefix o.Key (c.QueryParam "prefix")) reader.Data)
        ((objectsList.filter (fun o => !HasSuffix o.Key "/")).filter
          (fun o => (client.GetObjectReader (c.Param "bucketName") o.Key).isSome)) entries := by
  have hfiles : (objectsList.filter (fun obj => !HasSuffix obj.Key "/")).length ≠ 0 := by
    obtain ⟨o, ho, hkey⟩ := hfile
    have hmem : o ∈ objectsList.filter (fun obj => !HasSuffix obj.Key "/") := by
      simp [List.mem_filter, ho, hkey]
    intro hzero
    rw [List.length_eq_zero] at hzero
    rw [hzero] at hmem
    exact List.not_mem_nil _ hmem
  obtain ⟨entries, hbody, hrel⟩ := zipLoop_best_effort Z client (c.Param "bucketName")
    (c.QueryParam "prefix") (objectsList.filter (fun obj => !HasSuffix obj.Key "/"))
    c.response.Body [.writerCreated] (by
      intro o ho
      rw [List.mem_filter] at ho
      exact hall o ho.1 (by simpa using ho.2))
  have hout : (BucketsHandler.DownloadZip Z h c).outcome =
      .returned ⟨c.request,
        ⟨(c.response.Header.Set "Content-Type" "application/zip").Set "Content-Disposition"
            ("attachment; filename=" ++
              Z.quote (zipFileName (c.Param "bucketName") (c.QueryParam "prefix"))),
          c.response.SetCookies, 200, true,
          (zipLoop Z client (c.Param "bucketName") (c.QueryParam "prefix")
            (objectsList.filter (fun obj => !HasSuffix obj.Key "/")) c.response.Body
            [.writerCreated]).1 ++ [.zipDirectory]⟩, c.store, c.params⟩ none := by
    simp only [BucketsHandler.DownloadZip, GetCredentialsOrRedirect_ok c creds hcreds, hclient,
      hlist, if_neg hfiles, Response.WriteHeader, hfresh, StatusOK]
    rfl
  refine ⟨_, entries, hout, rfl, rfl, ?_, hrel⟩
  simp only [hbody]

/-- Witness for C11: the request of `TestZipDownloadJourney` against a client that cannot
open the second of the three files. -/
theorem DownloadZip_best_effort_witness :
    ∃ c' entries, (BucketsHandler.DownloadZip ⟨fun _ => true, fun s => s⟩
        ⟨⟨fun _ => some zipFlakyClient⟩⟩ zipJourneyContext).outcome = .returned c' none ∧
      c'.response.Status = 200 ∧ c'.response.Committed = true ∧
      c'.response.Body = zipJourneyContext.response.Body ++ entries ++ [.zipDirectory] ∧
      List.Forall₂ (fun o e => ∃ reader size,
          zipFlakyClient.GetObjectReader (zipJourneyContext.Param "bucketName") o.Key =
            some (reader, size) ∧
          reader.Err = false ∧
          e = BodyChunk.zipEntry (TrimPrefix o.Key (zipJourneyContext.QueryParam "prefix"))
            reader.Data)
        ((zipJourneyObjects.filter (fun o => !HasSuffix o.Key "/")).filter
          (fun o => (zipFlakyClient.GetObjectReader (zipJourneyContext.Param "bucketName")
            o.Key).isSome)) entries :=
  DownloadZip_best_effort ⟨fun _ => true, fun s => s⟩ ⟨⟨fun _ => some zipFlakyClient⟩⟩
    zipJourneyContext ⟨"play.minio.io:9000", "admin", "password", ""⟩ zipFlakyClient
    zipJourneyObjects rfl rfl rfl rfl ⟨⟨"folder/file1.txt", 13, 0, "", none⟩, by decide, by decide⟩
    (fun o _ _ => by
      by_cases hk : o.Key = "folder/file2.txt"
      · exact Or.inl (if_pos hk)
      · exact Or.inr ⟨_, _, if_neg hk, rfl, rfl⟩)


/-! ## Errors of the listing stream -/

/-- The loop of `ListObjectsPaginated` ends with the error of the first item that carries
one, when fewer than the page size items precede it. -/
theorem listLoop_error (m : Int) (bad : Minio.ObjectInfo) (post : List Minio.ObjectInfo)
    (e : String) (hbad : bad.Err = some e) (pre : List Minio.ObjectInfo) :
    ∀ (acc : List Minio.ObjectInfo) (lk : String), (∀ o ∈ pre, o.Err = none) →
      ((acc.length + pre.length : Nat) : Int) < m →
      listLoop m (pre ++ bad :: post) acc lk = .error e := by
  induction pre with
  | nil => intro acc lk _ _; simp [listLoop, hbad]
  | cons o pre ih =>
    intro acc lk hpre hroom
    have ho : o.Err = none := hpre o (List.mem_cons_self _ _)
    have hnot : ¬ (((acc.length + 1 : Nat) : Int) ≥ m) := by
      simp only [List.length_cons] at hroom
      omega
    simp only [List.cons_append, listLoop, ho, List.length_append, List.length_singleton,
      if_neg hnot]
    exact ih (acc ++ [o]) o.Key (fun x hx => hpre x (List.mem_cons_of_mem _ hx)) (by
      simp only [List.length_append, List.length_cons, List.length_nil] at hroom ⊢
      omega)

/-- **C19.** If the underlying listing yields an item carrying an error after fewer than `m`
error-free items (`m` the page size in force: `MaxKeys` when positive, 100 otherwise),
`ListObjectsPaginated` returns that error together with the zero result: no objects (none
of the items read before the error), `IsTruncated = false` and an empty
`NextContinuationToken`. -/
theorem ListObjectsPaginated_stream_error (c : WrappedMinioClient) (bucketName : String)
    (opts : ListObjectsOptions) (pre post : List Minio.ObjectInfo) (bad : Minio.ObjectInfo)
    (e : String)
    (hlisting : c.client.ListObjects bucketName
      ⟨opts.Prefix, opts.Recursive, opts.ContinuationToken⟩ = pre ++ bad :: post)
    (hpre : ∀ o ∈ pre, o.Err = none) (hbad : bad.Err = some e)
    (hroom : (pre.length : Int) < (if opts.MaxKeys > 0 then opts.MaxKeys else 100)) :
    c.ListObjectsPaginated bucketName opts = .error (⟨[], false, ""⟩, e) := by
  obtain ⟨hm, -⟩ := effective_maxKeys opts
  have hopts : (if opts.ContinuationToken ≠ "" then
      ({ Prefix := opts.Prefix, Recursive := opts.Recursive,
         StartAfter := opts.ContinuationToken } : Minio.ListObjectsOptions)
      else { Prefix := opts.Prefix, Recursive := opts.Recursive, StartAfter := "" }) =
      ⟨opts.Prefix, opts.Recursive, opts.ContinuationToken⟩ := by
    by_cases ht : opts.ContinuationToken = ""
    · simp [ht]
    · simp [ht]
  simp only [WrappedMinioClient.ListObjectsPaginated, hm, hopts, hlisting]
  rw [listLoop_error _ bad post e hbad pre [] "" hpre (by simpa using hroom)]

/-- Witness for C19: the second item of the stream carries an error, the page size is 2. -/
theorem ListObjectsPaginated_stream_error_witness :
    (⟨⟨fun _ _ => [objWithKey "a", ⟨"", 0, 0, "", some "connection reset"⟩, objWithKey "c"]⟩⟩ :
      WrappedMinioClient).ListObjectsPaginated "bucket" ⟨"", true, 2, ""⟩ =
      .error (⟨[], false, ""⟩, "connection reset") :=
  ListObjectsPaginated_stream_error _ "bucket" ⟨"", true, 2, ""⟩ [objWithKey "a"]
    [objWithKey "c"] ⟨"", 0, 0, "", some "connection reset"⟩ "connection reset" rfl
    (by decide) rfl (by decide)

/-! ## `GetCredentials` -/

/-- **C20.** `GetCredentials` returns the error 401 "Unauthorized" (and no record) if and only
if the context holds no value under the key `creds` or holds a value that is not a
credential record; it never returns another error; and when the context holds a record
under that key it returns exactly that record.  The function only reads the context. -/
theorem GetCredentials_iff (c : Context) :
    (GetCredentials c = .error (.http 401 "Unauthorized") ↔
      (c.Get "creds" = none ∨ ∃ tag, c.Get "creds" = some (.other tag))) ∧
    (∀ err, GetCredentials c = .error err → err = .http 401 "Unauthorized") ∧
    (∀ creds, GetCredentials c = .ok creds ↔ c.Get "creds" = some (.creds creds)) := by
  unfold GetCredentials
  simp only [ContextKeyCreds, StatusUnauthorized]
  cases hget : c.Get "creds" with
  | none => simp
  | some v =>
    cases v with
    | creds p => simp
    | other tag => simp


/-! ## `BrowseBucket` -/

/-- With credentials, a client and a listing, `BrowseBucket` reaches `c.Render` with the
projection of the listing and the breadcrumbs of the prefix. -/
theorem BrowseBucket_rendered (B : BrowseLib) (h : BucketsHandler)
    (renderer : Option (String → BrowserData → Option String)) (c : Context)
    (creds : Credentials) (client : MinioClient) (rawObjects : List Minio.ObjectInfo)
    (hcreds : GetCredentials c = .ok creds)
    (hclient : h.minioFactory.NewClient creds = some client)
    (hlist : client.ListObjects (c.Param "bucketName") ⟨c.QueryParam "prefix", false, ""⟩ =
      some rawObjects) :
    (BucketsHandler.BrowseBucket B h renderer c).rendered =
      some ⟨"buckets", c.Param "bucketName", c.QueryParam "prefix",
        (rawObjects.foldl (browseStep B (c.QueryParam "prefix")) ⟨[], [], []⟩).objects,
        (rawObjects.foldl (browseStep B (c.QueryParam "prefix")) ⟨[], [], []⟩).folders,
        buildBreadcrumbs (c.QueryParam "prefix")⟩ := by
  simp only [BucketsHandler.BrowseBucket, GetCredentialsOrRedirect_ok c creds hcreds, hclient,
    hlist]

/-- Whatever `BrowseBucket` hands to `c.Render` is the projection of some listing. -/
theorem BrowseBucket_rendered_inv (B : BrowseLib) (h : BucketsHandler)
    (renderer : Option (String → BrowserData → Option String)) (c : Context)
    (data : BrowserData)
    (hdata : (BucketsHandler.BrowseBucket B h renderer c).rendered = some data) :
    ∃ rawObjects : List Minio.ObjectInfo,
      data.Objects =
        (rawObjects.foldl (browseStep B (c.QueryParam "prefix")) ⟨[], [], []⟩).objects ∧
      data.Folders =
        (rawObjects.foldl (browseStep B (c.QueryParam "prefix")) ⟨[], [], []⟩).folders ∧
      data.Breadcrumbs = buildBreadcrumbs (c.QueryParam "prefix") := by
  cases hcreds : GetCredentials c with
  | error err =>
    have hredirect : GetCredentialsOrRedirect c =
        ((c.Redirect StatusSeeOther "/login").1, none, none) := by
      simp [GetCredentialsOrRedirect, hcreds, Context.Redirect, StatusSeeOther]
    simp [BucketsHandler.BrowseBucket, hredirect] at hdata
  | ok creds =>
    simp only [BucketsHandler.BrowseBucket, GetCredentialsOrRedirect_ok c creds hcreds] at hdata
    cases hclient : h.minioFactory.NewClient creds with
    | none => simp [hclient] at hdata
    | some client =>
      simp only [hclient] at hdata
      cases hlist : client.ListObjects (c.Param "bucketName")
          ⟨c.QueryParam "prefix", false, ""⟩ with
      | none => simp [hlist] at hdata
      | some rawObjects =>
        simp only [hlist, Option.some.injEq] at hdata
        subst hdata
        exact ⟨rawObjects, rfl, rfl, rfl⟩

/-- The files of the projection: one `fileInfo` per item whose key does not end in `/`. -/
theorem browse_objects (B : BrowseLib) (pfx : String) (rawObjects : List Minio.ObjectInfo) :
    ∀ st : BrowseState, (rawObjects.foldl (browseStep B pfx) st).objects =
      st.objects ++ (rawObjects.filter (fun o => !HasSuffix o.Key "/")).map (fileInfo B pfx) := by
  induction rawObjects with
  | nil => intro st; simp
  | cons o rest ih =>
    intro st
    rw [List.foldl_cons, ih]
    by_cases hf : HasSuffix o.Key "/" = true
    · have hobj : (browseStep B pfx st o).objects = st.objects := by
        unfold browseStep
        simp only [hf, if_true]
        split <;> rfl
      simp [hobj, List.filter_cons, hf]
    · have hobj : (browseStep B pfx st o).objects = st.objects ++ [fileInfo B pfx o] := by
        simp [browseStep, hf]
      simp [hobj, List.filter_cons, hf]

/-- **C18.** For every content type and size, `isPreviewable` returns true if and only if the
size is at most `10*1024*1024` bytes and the content type starts with `image/`, `video/` or
`text/` or is exactly `application/json`, `application/xml` or `application/javascript`; no
object larger than 10 MiB is previewable; and every file `BrowseBucket` hands to its
template with `IsPreviewable` set also has `IsImage`, `IsText` or `IsVideo` set. -/
theorem isPreviewable_iff (contentType : String) (size : Int) :
    (isPreviewable contentType size = true ↔
      size ≤ 10 * 1024 * 1024 ∧
        (HasPrefix contentType "image/" = true ∨ HasPrefix contentType "video/" = true ∨
          HasPrefix contentType "text/" = true ∨ contentType = "application/json" ∨
          contentType = "application/xml" ∨ contentType = "application/javascript")) ∧
    (size > 10 * 1024 * 1024 → isPreviewable contentType size = false) ∧
    (∀ (B : BrowseLib) (h : BucketsHandler)
      (renderer : Option (String → BrowserData → Option String)) (c : Context)
      (data : BrowserData), (BucketsHandler.BrowseBucket B h renderer c).rendered = some data →
      ∀ f ∈ data.Objects, f.IsPreviewable = true →
        f.IsImage = true ∨ f.IsText = true ∨ f.IsVideo = true) := by
  refine ⟨?_, ?_, ?_⟩
  · unfold isPreviewable isImageType isTextType isVideoType
    by_cases hs : size > 10 * 1024 * 1024
    · simp only [hs, if_true, Bool.false_eq_true, false_iff, not_and]
      intro hle
      omega
    · have hs' : size ≤ 10 * 1024 * 1024 := by omega
      simp only [hs, if_false, hs', true_and, Bool.or_eq_true, beq_iff_eq]
      tauto
  · intro hs
    simp only [isPreviewable, hs, if_true]
  · intro B h renderer c data hdata f hf hprev
    obtain ⟨rawObjects, hobjs, -, -⟩ := BrowseBucket_rendered_inv B h renderer c data hdata
    rw [hobjs, browse_objects] at hf
    simp only [List.nil_append, List.mem_map] at hf
    obtain ⟨o, -, rfl⟩ := hf
    simp only [fileInfo, isPreviewable] at hprev ⊢
    split at hprev
    · exact absurd hprev (by simp)
    · simpa [Bool.or_eq_true, or_assoc] using hprev


theorem browseStep_file (B : BrowseLib) (pfx : String) (st : BrowseState)
    (x : Minio.ObjectInfo) (hx : HasSuffix x.Key "/" = false) :
    (browseStep B pfx st x).folders = st.folders ∧
      (browseStep B pfx st x).seenFolders = st.seenFolders := by
  simp [browseStep, hx]

theorem browseStep_folder_new (B : BrowseLib) (pfx : String) (st : BrowseState)
    (x : Minio.ObjectInfo) (hx : HasSuffix x.Key "/" = true)
    (hname : TrimSuffix (TrimPrefix x.Key pfx) "/" ≠ "")
    (hnew : TrimSuffix (TrimPrefix x.Key pfx) "/" ∉ st.seenFolders) :
    (browseStep B pfx st x).folders =
        st.folders ++ [⟨TrimSuffix (TrimPrefix x.Key pfx) "/", x.Key⟩] ∧
      (browseStep B pfx st x).seenFolders =
        TrimSuffix (TrimPrefix x.Key pfx) "/" :: st.seenFolders := by
  simp [browseStep, hx, hname, hnew]

theorem browseStep_folder_skip (B : BrowseLib) (pfx : String) (st : BrowseState)
    (x : Minio.ObjectInfo) (hx : HasSuffix x.Key "/" = true)
    (hskip : TrimSuffix (TrimPrefix x.Key pfx) "/" = "" ∨
      TrimSuffix (TrimPrefix x.Key pfx) "/" ∈ st.seenFolders) :
    browseStep B pfx st x = st := by
  rcases hskip with h | h
  · simp [browseStep, hx, h]
  · simp [browseStep, hx, h]

/-- The folders of the projection of a listing: the names seen are the names recorded; the
names are distinct and not empty; every folder was recorded at the first item that gives
its name; every item that gives a non-empty name has it recorded; and the folders follow
the order of the listing. -/
theorem browse_folders (B : BrowseLib) (pfx : String) (rawObjects : List Minio.ObjectInfo) :
    (∀ n, n ∈ (rawObjects.foldl (browseStep B pfx) ⟨[], [], []⟩).seenFolders ↔
      n ∈ (rawObjects.foldl (browseStep B pfx) ⟨[], [], []⟩).folders.map (·.Name)) ∧
    ((rawObjects.foldl (browseStep B pfx) ⟨[], [], []⟩).folders.map (·.Name)).Nodup ∧
    (∀ f ∈ (rawObjects.foldl (browseStep B pfx) ⟨[], [], []⟩).folders, f.Name ≠ "") ∧
    (∀ f ∈ (rawObjects.foldl (browseStep B pfx) ⟨[], [], []⟩).folders,
      ∃ pre o post, rawObjects = pre ++ o :: post ∧ HasSuffix o.Key "/" = true ∧
        f = ⟨TrimSuffix (TrimPrefix o.Key pfx) "/", o.Key⟩ ∧
        ∀ x ∈ pre, HasSuffix x.Key "/" = true →
          TrimSuffix (TrimPrefix x.Key pfx) "/" ≠ f.Name) ∧
    (∀ o ∈ rawObjects, HasSuffix o.Key "/" = true →
      TrimSuffix (TrimPrefix o.Key pfx) "/" ≠ "" →
      TrimSuffix (TrimPrefix o.Key pfx) "/" ∈
        (rawObjects.foldl (browseStep B pfx) ⟨[], [], []⟩).folders.map (·.Name)) ∧
    List.Sublist (rawObjects.foldl (browseStep B pfx) ⟨[], [], []⟩).folders
      ((rawObjects.filter (fun o => HasSuffix o.Key "/")).map
        (fun o => (⟨TrimSuffix (TrimPrefix o.Key pfx) "/", o.Key⟩ : Models.FolderInfo))) := by
  induction rawObjects using List.reverseRecOn with
  | nil => simp
  | append_singleton raw x ih =>
    obtain ⟨hseen, hnodup, hnames, hfirst, hall, hsub⟩ := ih
    rw [List.foldl_append, List.foldl_cons, List.foldl_nil]
    generalize hst : raw.foldl (browseStep B pfx) ⟨[], [], []⟩ = st at *
    have hfirst' : ∀ f ∈ st.folders,
        ∃ pre o post, raw ++ [x] = pre ++ o :: post ∧ HasSuffix o.Key "/" = true ∧
          f = ⟨TrimSuffix (TrimPrefix o.Key pfx) "/", o.Key⟩ ∧
          ∀ y ∈ pre, HasSuffix y.Key "/" = true →
            TrimSuffix (TrimPrefix y.Key pfx) "/" ≠ f.Name := by
      intro f hf
      obtain ⟨pre, o, post, hraw, ho, hfo, hpre⟩ := hfirst f hf
      exact ⟨pre, o, post ++ [x], by rw [hraw]; simp, ho, hfo, hpre⟩
    by_cases hx : HasSuffix x.Key "/" = true
    · by_cases hskip : TrimSuffix (TrimPrefix x.Key pfx) "/" = "" ∨
          TrimSuffix (TrimPrefix x.Key pfx) "/" ∈ st.seenFolders
      · rw [browseStep_folder_skip B pfx st x hx hskip]
        refine ⟨hseen, hnodup, hnames, hfirst', ?_, ?_⟩
        · intro o ho hfo hne
          rcases List.mem_append.mp ho with ho | ho
          · exact hall o ho hfo hne
          · rw [List.mem_singleton] at ho
            subst ho
            rcases hskip with h | h
            · exact absurd h hne
            · exact (hseen _).mp h
        · rw [List.filter_append, List.map_append]
          exact hsub.trans (List.sublist_append_left _ _)
      · rw [not_or] at hskip
        obtain ⟨hname, hnew⟩ := hskip
        obtain ⟨hfolders, hseen'⟩ := browseStep_folder_new B pfx st x hx hname hnew
        rw [hfolders, hseen']
        have hfresh : TrimSuffix (TrimPrefix x.Key pfx) "/" ∉ st.folders.map (·.Name) :=
          fun h => hnew ((hseen _).mpr h)
        refine ⟨?_, ?_, ?_, ?_, ?_, ?_⟩
        · intro n
          simp only [List.mem_cons, List.map_append, List.map_cons, List.map_nil,
            List.mem_append, List.mem_singleton, hseen n]
          tauto
        · rw [List.map_append, List.nodup_append]
          refine ⟨hnodup, by simp, ?_⟩
          intro n hn hn'
          simp only [List.map_cons, List.map_nil, List.mem_singleton] at hn'
          exact hfresh (hn' ▸ hn)
        · intro f hf
          rcases List.mem_append.mp hf with hf | hf
          · exact hnames f hf
          · rw [List.mem_singleton] at hf
            subst hf
            exact hname
        · intro f hf
          rcases List.mem_append.mp hf with hf | hf
          · exact hfirst' f hf
          · rw [List.mem_singleton] at hf
            subst hf
            refine ⟨raw, x, [], rfl, hx, rfl, ?_⟩
            intro y hy hfy heq
            have heq' : TrimSuffix (TrimPrefix y.Key pfx) "/" =
                TrimSuffix (TrimPrefix x.Key pfx) "/" := heq
            have hmem := hall y hy hfy (by rw [heq']; exact hname)
            rw [heq'] at hmem
            exact hfresh hmem
        · intro o ho hfo hne
          rw [List.map_append, List.mem_append]
          rcases List.mem_append.mp ho with ho | ho
          · exact Or.inl (hall o ho hfo hne)
          · rw [List.mem_singleton] at ho
            subst ho
            exact Or.inr (by simp)
        · rw [List.filter_append, List.map_append]
          refine List.Sublist.append hsub ?_
          simp [List.filter_cons, hx]
    · have hx' : HasSuffix x.Key "/" = false := by simpa using hx
      obtain ⟨hfolders, hseen'⟩ := browseStep_file B pfx st x hx'
      rw [hfolders, hseen']
      refine ⟨hseen, hnodup, hnames, hfirst', ?_, ?_⟩
      · intro o ho hfo hne
        rcases List.mem_append.mp ho with ho | ho
        · exact hall o ho hfo hne
        · rw [List.mem_singleton] at ho
          subst ho
          rw [hx'] at hfo
          exact absurd hfo (by simp)
      · rw [List.filter_append, List.map_append]
        simpa [List.filter_cons, hx'] using hsub


theorem TrimPrefix_self (s : String) : TrimPrefix s s = "" := by
  have h : HasPrefix s s = true := by simp [HasPrefix]
  simp only [TrimPrefix, h, if_true, List.drop_length]

/-- **C13.** For every prefix and listing (repeated keys included), the folder list
`BrowseBucket` hands to its template has pairwise distinct names and no empty name, a name
being the key with the leading prefix and one trailing `/` removed; each folder was recorded
at the first listed item ending in `/` that gives its name, its `Prefix` being the key of
that item; every such item with a non-empty name has its name in the list; and the folders
follow the order of the listing (first occurrences). -/
theorem BrowseBucket_folders (B : BrowseLib) (h : BucketsHandler)
    (renderer : Option (String → BrowserData → Option String)) (c : Context)
    (creds : Credentials) (client : MinioClient) (rawObjects : List Minio.ObjectInfo)
    (hcreds : GetCredentials c = .ok creds)
    (hclient : h.minioFactory.NewClient creds = some client)
    (hlist : client.ListObjects (c.Param "bucketName") ⟨c.QueryParam "prefix", false, ""⟩ =
      some rawObjects) :
    ∃ data, (BucketsHandler.BrowseBucket B h renderer c).rendered = some data ∧
      (data.Folders.map (·.Name)).Nodup ∧
      (∀ f ∈ data.Folders, f.Name ≠ "") ∧
      (∀ f ∈ data.Folders,
        ∃ pre o post, rawObjects = pre ++ o :: post ∧ HasSuffix o.Key "/" = true ∧
          f = ⟨TrimSuffix (TrimPrefix o.Key (c.QueryParam "prefix")) "/", o.Key⟩ ∧
          ∀ x ∈ pre, HasSuffix x.Key "/" = true →
            TrimSuffix (TrimPrefix x.Key (c.QueryParam "prefix")) "/" ≠ f.Name) ∧
      (∀ o ∈ rawObjects, HasSuffix o.Key "/" = true →
        TrimSuffix (TrimPrefix o.Key (c.QueryParam "prefix")) "/" ≠ "" →
        TrimSuffix (TrimPrefix o.Key (c.QueryParam "prefix")) "/" ∈
          data.Folders.map (·.Name)) ∧
      List.Sublist data.Folders
        ((rawObjects.filter (fun o => HasSuffix o.Key "/")).map
          (fun o => (⟨TrimSuffix (TrimPrefix o.Key (c.QueryParam "prefix")) "/", o.Key⟩ :
            Models.FolderInfo))) := by
  obtain ⟨-, hnodup, hnames, hfirst, hall, hsub⟩ :=
    browse_folders B (c.QueryParam "prefix") rawObjects
  exact ⟨_, BrowseBucket_rendered B h renderer c creds client rawObjects hcreds hclient hlist,
    hnodup, hnames, hfirst, hall, hsub⟩

/-- Witness for C13: a listing under `a/` in which the key `a/b/` comes twice. -/
theorem BrowseBucket_folders_witness :
    ∃ data, (BucketsHandler.BrowseBucket ⟨fun s => s, fun _ => ""⟩
        ⟨⟨fun _ => some (listingClient
          [objWithKey "a/b/", objWithKey "a/x.txt", objWithKey "a/b/", objWithKey "a/"] "")⟩⟩
        none (browseContext "a/" "")).rendered = some data ∧
      (data.Folders.map (·.Name)).Nodup ∧
      (∀ f ∈ data.Folders, f.Name ≠ "") ∧
      (∀ f ∈ data.Folders,
        ∃ pre o post,
          [objWithKey "a/b/", objWithKey "a/x.txt", objWithKey "a/b/", objWithKey "a/"] =
            pre ++ o :: post ∧ HasSuffix o.Key "/" = true ∧
          f = ⟨TrimSuffix (TrimPrefix o.Key ((browseContext "a/" "").QueryParam "prefix")) "/",
            o.Key⟩ ∧
          ∀ x ∈ pre, HasSuffix x.Key "/" = true →
            TrimSuffix (TrimPrefix x.Key ((browseContext "a/" "").QueryParam "prefix")) "/" ≠
              f.Name) ∧
      (∀ o ∈ [objWithKey "a/b/", objWithKey "a/x.txt", objWithKey "a/b/", objWithKey "a/"],
        HasSuffix o.Key "/" = true →
        TrimSuffix (TrimPrefix o.Key ((browseContext "a/" "").QueryParam "prefix")) "/" ≠ "" →
        TrimSuffix (TrimPrefix o.Key ((browseContext "a/" "").QueryParam "prefix")) "/" ∈
          data.Folders.map (·.Name)) ∧
      List.Sublist data.Folders
        (([objWithKey "a/b/", objWithKey "a/x.txt", objWithKey "a/b/", objWithKey "a/"].filter
          (fun o => HasSuffix o.Key "/")).map
          (fun o => (⟨TrimSuffix (TrimPrefix o.Key
            ((browseContext "a/" "").QueryParam "prefix")) "/", o.Key⟩ : Models.FolderInfo))) :=
  BrowseBucket_folders ⟨fun s => s, fun _ => ""⟩ _ none (browseContext "a/" "")
    ⟨"play.minio.io:9000", "admin", "password", ""⟩
    (listingClient
      [objWithKey "a/b/", objWithKey "a/x.txt", objWithKey "a/b/", objWithKey "a/"] "")
    [objWithKey "a/b/", objWithKey "a/x.txt", objWithKey "a/b/", objWithKey "a/"] rfl rfl rfl

/-- Counterexample to C12 as stated: browsing with the prefix `a` a bucket that holds the
object `a`.  The key equals the prefix and does not end in `/`, and `BrowseBucket` lists it
as a file, with an empty display name. -/
theorem BrowseBucket_prefix_key_is_file :
    ∃ data, (BucketsHandler.BrowseBucket ⟨fun s => s, fun _ => ""⟩
        ⟨⟨fun _ => some (listingClient [objWithKey "a"] "")⟩⟩ none
        (browseContext "a" "")).rendered = some data ∧
      data.Prefix = "a" ∧
      data.Objects.map (fun f => (f.Key, f.DisplayName)) = [("a", "")] := by
  refine ⟨_, BrowseBucket_rendered ⟨fun s => s, fun _ => ""⟩ _ none (browseContext "a" "")
    ⟨"play.minio.io:9000", "admin", "password", ""⟩ (listingClient [objWithKey "a"] "")
    [objWithKey "a"] rfl rfl rfl, rfl, ?_⟩
  decide

/-- **C12 (amended).** For every prefix `P` and every non-recursive listing, the file list
`BrowseBucket` hands to its template consists of exactly the listed keys that do not end
in `/`, in listing order, each with `Key` the original key and `DisplayName` the key with a
leading `P` removed; keys ending in `/` never appear as files; a key equal to `P` yields
no folder, and no file either when `P` ends in `/`.  For the keys `a/`, `a/x.txt`, `a/b/`
under the prefix `a/` the result is exactly the folder `b` and the file displayed as
`x.txt`. -/
theorem BrowseBucket_files (B : BrowseLib) (h : BucketsHandler)
    (renderer : Option (String → BrowserData → Option String)) (c : Context)
    (creds : Credentials) (client : MinioClient) (rawObjects : List Minio.ObjectInfo)
    (hcreds : GetCredentials c = .ok creds)
    (hclient : h.minioFactory.NewClient creds = some client)
    (hlist : client.ListObjects (c.Param "bucketName") ⟨c.QueryParam "prefix", false, ""⟩ =
      some rawObjects) :
    (∃ data, (BucketsHandler.BrowseBucket B h renderer c).rendered = some data ∧
      data.Objects.map (fun f => (f.Key, f.DisplayName)) =
        (rawObjects.filter (fun o => !HasSuffix o.Key "/")).map
          (fun o => (o.Key, TrimPrefix o.Key (c.QueryParam "prefix"))) ∧
      (∀ f ∈ data.Objects, HasSuffix f.Key "/" = false) ∧
      (∀ f ∈ data.Folders, f.Prefix ≠ c.QueryParam "prefix") ∧
      (HasSuffix (c.QueryParam "prefix") "/" = true →
        ∀ f ∈ data.Objects, f.Key ≠ c.QueryParam "prefix")) ∧
    ([objWithKey "a/", objWithKey "a/x.txt", objWithKey "a/b/"].foldl (browseStep B "a/")
        ⟨[], [], []⟩).folders = [⟨"b", "a/b/"⟩] ∧
    (([objWithKey "a/", objWithKey "a/x.txt", objWithKey "a/b/"].foldl (browseStep B "a/")
        ⟨[], [], []⟩).objects.map (fun f => (f.Key, f.DisplayName))) =
      [("a/x.txt", "x.txt")] := by
  obtain ⟨-, -, hnames, hfirst, -, -⟩ := browse_folders B (c.QueryParam "prefix") rawObjects
  have hobjs := browse_objects B (c.QueryParam "prefix") rawObjects ⟨[], [], []⟩
  have hfile : ∀ f ∈ (rawObjects.foldl (browseStep B (c.QueryParam "prefix"))
      ⟨[], [], []⟩).objects, HasSuffix f.Key "/" = false := by
    intro f hf
    rw [hobjs] at hf
    simp only [List.nil_append, List.mem_map, List.mem_filter] at hf
    obtain ⟨o, ⟨-, ho⟩, rfl⟩ := hf
    simpa [fileInfo] using ho
  refine ⟨⟨_, BrowseBucket_rendered B h renderer c creds client rawObjects hcreds hclient hlist,
    ?_, hfile, ?_, ?_⟩, ?_, ?_⟩
  · simp only [hobjs, List.nil_append, List.map_map]
    rfl
  · intro f hf hP
    obtain ⟨pre, o, post, -, -, hfo, -⟩ := hfirst f hf
    have hkey : o.Key = c.QueryParam "prefix" := by
      rw [hfo] at hP
      exact hP
    have hname := hnames f hf
    rw [hfo, hkey, TrimPrefix_self] at hname
    exact hname (by decide : TrimSuffix "" "/" = "")
  · intro hP f hf hkey
    have := hfile f hf
    rw [hkey, hP] at this
    exact absurd this (by simp)
  · rfl
  · rfl

/-- Witness for C12 (amended): the listing `a/`, `a/x.txt`, `a/b/` under the prefix `a/`. -/
theorem BrowseBucket_files_witness :
    (∃ data, (BucketsHandler.BrowseBucket ⟨fun s => s, fun _ => ""⟩
        ⟨⟨fun _ => some (listingClient
          [objWithKey "a/", objWithKey "a/x.txt", objWithKey "a/b/"] "")⟩⟩
        none (browseContext "a/" "")).rendered = some data ∧
      data.Objects.map (fun f => (f.Key, f.DisplayName)) =
        ([objWithKey "a/", objWithKey "a/x.txt", objWithKey "a/b/"].filter
          (fun o => !HasSuffix o.Key "/")).map
          (fun o => (o.Key, TrimPrefix o.Key ((browseContext "a/" "").QueryParam "prefix"))) ∧
      (∀ f ∈ data.Objects, HasSuffix f.Key "/" = false) ∧
      (∀ f ∈ data.Folders, f.Prefix ≠ (browseContext "a/" "").QueryParam "prefix") ∧
      (HasSuffix ((browseContext "a/" "").QueryParam "prefix") "/" = true →
        ∀ f ∈ data.Objects, f.Key ≠ (browseContext "a/" "").QueryParam "prefix")) ∧
    ([objWithKey "a/", objWithKey "a/x.txt", objWithKey "a/b/"].foldl
        (browseStep ⟨fun s => s, fun _ => ""⟩ "a/") ⟨[], [], []⟩).folders = [⟨"b", "a/b/"⟩] ∧
    (([objWithKey "a/", objWithKey "a/x.txt", objWithKey "a/b/"].foldl
        (browseStep ⟨fun s => s, fun _ => ""⟩ "a/") ⟨[], [], []⟩).objects.map
          (fun f => (f.Key, f.DisplayName))) = [("a/x.txt", "x.txt")] :=
  BrowseBucket_files ⟨fun s => s, fun _ => ""⟩ _ none (browseContext "a/" "")
    ⟨"play.minio.io:9000", "admin", "password", ""⟩
    (listingClient [objWithKey "a/", objWithKey "a/x.txt", objWithKey "a/b/"] "")
    [objWithKey "a/", objWithKey "a/x.txt", objWithKey "a/b/"] rfl rfl rfl


/-! ## Breadcrumbs -/

theorem String.join_concat (l : List String) (x : String) :
    String.join (l ++ [x]) = String.join l ++ x := by
  simp [String.join, List.foldl_append]

/-- The loop over the parts of the prefix: the path reached, the names and the paths of the
breadcrumbs, in terms of the non-empty parts. -/
theorem crumbs_fold (parts : List String) :
    (parts.foldl crumbStep ("", [])).1 =
      String.join ((parts.filter (fun s => decide (s ≠ ""))).map (fun s => s ++ "/")) ∧
    (parts.foldl crumbStep ("", [])).2.map (·.Name) = parts.filter (fun s => decide (s ≠ "")) ∧
    (parts.foldl crumbStep ("", [])).2.map (·.Path) =
      (List.range (parts.filter (fun s => decide (s ≠ ""))).length).map (fun i =>
        String.join (((parts.filter (fun s => decide (s ≠ ""))).take (i + 1)).map
          (fun s => s ++ "/"))) := by
  induction parts using List.reverseRecOn with
  | nil => exact ⟨rfl, rfl, rfl⟩
  | append_singleton parts p ih =>
    obtain ⟨hpath, hnames, hpaths⟩ := ih
    rw [List.foldl_append, List.foldl_cons, List.foldl_nil, List.filter_append]
    generalize hst : parts.foldl crumbStep ("", []) = st at *
    generalize hsegs : parts.filter (fun s => decide (s ≠ "")) = segs at *
    by_cases hp : p = ""
    · subst hp
      simp only [crumbStep, if_true, List.filter_cons, ne_eq, not_true_eq_false, decide_False,
        Bool.false_eq_true, if_false, List.filter_nil, List.append_nil]
      exact ⟨hpath, hnames, hpaths⟩
    · have hfilter : [p].filter (fun s => decide (s ≠ "")) = [p] := by simp [hp]
      rw [hfilter]
      simp only [crumbStep, if_neg hp]
      refine ⟨?_, ?_, ?_⟩
      · rw [List.map_append, List.map_cons, List.map_nil, String.join_concat, hpath]
      · rw [List.map_append, hnames]
        rfl
      · rw [List.map_append, hpaths, List.length_append, List.length_singleton,
          List.range_succ, List.map_append]
        congr 1
        · apply List.map_congr_left
          intro i hi
          rw [List.mem_range] at hi
          rw [List.take_append_of_le_length (by omega)]
        · simp only [List.map_cons, List.map_nil]
          rw [List.take_of_length_le (by simp), List.map_append, List.map_cons, List.map_nil,
            String.join_concat, hpath]

/-- **C14.** For every prefix, the breadcrumbs `BrowseBucket` builds are one per non-empty
`/`-separated segment of the prefix with one trailing `/` trimmed, in order: the names are
these segments, and the `i`-th path is the concatenation of the first `i` segments, each
followed by `/`.  It is these breadcrumbs that the handler hands to its template.  The empty
prefix yields no breadcrumbs, and the prefix `docs/2024/` yields exactly `(docs, docs/)` and
`(2024, docs/2024/)`. -/
theorem buildBreadcrumbs_segments (pfx : String) :
    (buildBreadcrumbs pfx).map (·.Name) =
      (Split (TrimSuffix pfx "/") '/').filter (fun s => decide (s ≠ "")) ∧
    (buildBreadcrumbs pfx).map (·.Path) =
      (List.range ((Split (TrimSuffix pfx "/") '/').filter
          (fun s => decide (s ≠ ""))).length).map (fun i =>
        String.join ((((Split (TrimSuffix pfx "/") '/').filter
          (fun s => decide (s ≠ ""))).take (i + 1)).map (fun s => s ++ "/"))) ∧
    (∀ (B : BrowseLib) (h : BucketsHandler)
      (renderer : Option (String → BrowserData → Option String)) (c : Context)
      (data : BrowserData), c.QueryParam "prefix" = pfx →
      (BucketsHandler.BrowseBucket B h renderer c).rendered = some data →
      data.Breadcrumbs = buildBreadcrumbs pfx) ∧
    buildBreadcrumbs "" = [] ∧
    buildBreadcrumbs "docs/2024/" = [⟨"docs", "docs/"⟩, ⟨"2024", "docs/2024/"⟩] := by
  refine ⟨?_, ?_, ?_, rfl, by decide⟩
  · by_cases hp : pfx = ""
    · subst hp
      decide
    · simp only [buildBreadcrumbs, ne_eq, hp, not_false_eq_true, if_true]
      exact (crumbs_fold _).2.1
  · by_cases hp : pfx = ""
    · subst hp
      decide
    · simp only [buildBreadcrumbs, ne_eq, hp, not_false_eq_true, if_true]
      exact (crumbs_fold _).2.2
  · intro B h renderer c data hpfx hdata
    obtain ⟨-, -, -, hcrumbs⟩ := BrowseBucket_rendered_inv B h renderer c data hdata
    rw [hcrumbs, hpfx]


/-! ## Share links -/

theorem wrapInt64_of_range (x : Int) (h0 : 0 ≤ x) (h1 : x < 9223372036854775808) :
    wrapInt64 x = x := by
  unfold wrapInt64
  norm_num
  rw [Int.emod_eq_of_lt (by omega) (by omega)]
  omega

/-- The expiry `GenerateShareLink` resolves, as long as the product with `time.Second` stays
within `int64`: the seconds asked for, capped at 7 days. -/
theorem shareExpires_in_range (s : String) (n : Int) (hparse : ParseInt s = some n)
    (hpos : 1 ≤ n) (hmax : n ≤ 9223372036) :
    shareExpires s = if n ≤ 604800 then n * 1000000000 else 604800 * 1000000000 := by
  have hs : s ≠ "" := by
    intro h
    rw [h, show ParseInt "" = none from rfl] at hparse
    exact Option.noConfusion hparse
  have hwrap : wrapInt64 (n * timeSecond) = n * 1000000000 :=
    wrapInt64_of_range _ (by simp only [timeSecond]; omega) (by simp only [timeSecond]; omega)
  simp only [shareExpires, ne_eq, hs, not_false_eq_true, if_true, hparse,
    show n > 0 from by omega, hwrap, timeHour]
  by_cases hn : n ≤ 604800
  · rw [if_pos hn, if_neg (by omega)]
  · rw [if_neg hn, if_pos (by omega)]
    norm_num

/-- **C15.** The expiry handed to `PresignedGetObject` for a form value that parses as `n`:
exactly `n` seconds for `1 ≤ n ≤ 604800`, and exactly 7 days for
`604800 < n ≤ 9223372036`, so `999999` gives 604800 seconds.  Above that the product
`n * time.Second` leaves `int64`: for `expires=9223372037` the handler calls
`PresignedGetObject` with the negative duration `-9223372036709551616` ns instead of 7
days. -/
theorem GenerateShareLink_expiry :
    (∀ s n, ParseInt s = some n → 1 ≤ n → n ≤ 604800 → shareExpires s = n * timeSecond) ∧
    (∀ s n, ParseInt s = some n → 604800 < n → n ≤ 9223372036 →
      shareExpires s = 7 * 24 * 3600 * timeSecond) ∧
    shareExpires "999999" = 604800 * timeSecond ∧
    ParseInt "9223372037" = some 9223372037 ∧
    (BucketsHandler.GenerateShareLink ⟨fun _ => "", fun _ => ""⟩
      ⟨⟨fun _ => some (listingClient [] "https://play.minio.io/b/report.pdf")⟩⟩ none 0
      (browseContext "" "9223372037")).presigned =
        [("b", "report.pdf", -9223372036709551616)] := by
  refine ⟨?_, ?_, by decide, by decide, by decide⟩
  · intro s n hparse h1 h2
    rw [shareExpires_in_range s n hparse h1 (by omega), if_pos h2, timeSecond]
  · intro s n hparse h1 h2
    rw [shareExpires_in_range s n hparse (by omega) h2, if_neg (by omega), timeSecond]
    norm_num

/-- **C16.** For every `expires` form value that is absent or empty, does not parse as a
base-10 integer, or parses to a value `≤ 0`, `GenerateShareLink` (holding credentials and
a client) does not reject the request: it calls `PresignedGetObject` once, with an expiry of
exactly one hour, and when that call returns a URL it renders the template `share_link`. -/
theorem GenerateShareLink_default_expiry (S : ShareLib) (h : BucketsHandler)
    (renderer : Option (String → ShareLinkData → Option String)) (now : Int) (c : Context)
    (creds : Credentials) (client : MinioClient)
    (hcreds : GetCredentials c = .ok creds)
    (hclient : h.minioFactory.NewClient creds = some client)
    (hexpires : c.FormValue "expires" = "" ∨ ParseInt (c.FormValue "expires") = none ∨
      ∃ n, ParseInt (c.FormValue "expires") = some n ∧ n ≤ 0) :
    (BucketsHandler.GenerateShareLink S h renderer now c).presigned =
      [(c.Param "bucketName", c.FormValue "key", 3600 * 1000000000)] ∧
    (∀ url, client.PresignedGetObject (c.Param "bucketName") (c.FormValue "key")
        (3600 * 1000000000) = .ok url →
      (BucketsHandler.GenerateShareLink S h renderer now c).outcome =
        .returned
          (c.RenderData renderer 200 "share_link"
            (⟨url, c.Param "bucketName", c.FormValue "key", S.Format (now + 3600 * 1000000000),
              S.formatExpiration (3600 * 1000000000)⟩ : ShareLinkData)).1
          (c.RenderData renderer 200 "share_link"
            (⟨url, c.Param "bucketName", c.FormValue "key", S.Format (now + 3600 * 1000000000),
              S.formatExpiration (3600 * 1000000000)⟩ : ShareLinkData)).2) := by
  have hexp : shareExpires (c.FormValue "expires") = 3600 * 1000000000 := by
    unfold shareExpires
    rcases hexpires with h0 | h0 | ⟨n, h0, hn⟩
    · simp [h0, timeHour]
    · simp [h0, timeHour]
    · have hn' : ¬ n > 0 := by omega
      simp [h0, hn', timeHour]
  constructor
  · simp only [BucketsHandler.GenerateShareLink, hcreds, hclient, hexp]
    split <;> rfl
  · intro url hurl
    simp only [BucketsHandler.GenerateShareLink, hcreds, hclient, hexp, hurl, StatusOK]

/-- Witness for C16: the form value `soon`, which is not a number. -/
theorem GenerateShareLink_default_expiry_witness :
    (BucketsHandler.GenerateShareLink ⟨fun _ => "", fun _ => ""⟩
      ⟨⟨fun _ => some (listingClient [] "https://play.minio.io/b/report.pdf")⟩⟩ none 0
      (browseContext "" "soon")).presigned =
      [((browseContext "" "soon").Param "bucketName", (browseContext "" "soon").FormValue "key",
        3600 * 1000000000)] ∧
    (∀ url, (listingClient [] "https://play.minio.io/b/report.pdf").PresignedGetObject
        ((browseContext "" "soon").Param "bucketName") ((browseContext "" "soon").FormValue "key")
        (3600 * 1000000000) = .ok url →
      (BucketsHandler.GenerateShareLink ⟨fun _ => "", fun _ => ""⟩
        ⟨⟨fun _ => some (listingClient [] "https://play.minio.io/b/report.pdf")⟩⟩ none 0
        (browseContext "" "soon")).outcome =
        .returned
          ((browseContext "" "soon").RenderData none 200 "share_link"
            (⟨url, (browseContext "" "soon").Param "bucketName",
              (browseContext "" "soon").FormValue "key", (fun _ => "") (0 + 3600 * 1000000000),
              (fun _ => "") (3600 * 1000000000)⟩ : ShareLinkData)).1
          ((browseContext "" "soon").RenderData none 200 "share_link"
            (⟨url, (browseContext "" "soon").Param "bucketName",
              (browseContext "" "soon").FormValue "key", (fun _ => "") (0 + 3600 * 1000000000),
              (fun _ => "") (3600 * 1000000000)⟩ : ShareLinkData)).2) :=
  GenerateShareLink_default_expiry ⟨fun _ => "", fun _ => ""⟩
    ⟨⟨fun _ => some (listingClient [] "https://play.minio.io/b/report.pdf")⟩⟩ none 0
    (browseContext "" "soon") ⟨"play.minio.io:9000", "admin", "password", ""⟩
    (listingClient [] "https://play.minio.io/b/report.pdf") rfl rfl (Or.inr (Or.inl (by decide)))


/-! ## The name of the archive -/

theorem splitChars_ne_nil (sep : Char) (l : List Char) :
    ∃ seg segs, splitChars sep l = seg :: segs := by
  induction l with
  | nil => exact ⟨[], [], rfl⟩
  | cons ch rest ih =>
    obtain ⟨seg, segs, h⟩ := ih
    by_cases hc : ch = sep
    · exact ⟨[], splitChars sep rest, by simp [splitChars, hc]⟩
    · exact ⟨ch :: seg, segs, by simp [splitChars, hc, h]⟩

theorem splitChars_concat_sep (sep : Char) (l : List Char) :
    splitChars sep (l ++ [sep]) = splitChars sep l ++ [[]] := by
  induction l with
  | nil => simp [splitChars]
  | cons ch rest ih =>
    obtain ⟨seg, segs, h⟩ := splitChars_ne_nil sep rest
    by_cases hc : ch = sep
    · simp [splitChars, hc, ih]
    · simp [splitChars, hc, ih, h]

theorem splitChars_of_not_mem (sep : Char) (l : List Char) (h : sep ∉ l) :
    splitChars sep l = [l] := by
  induction l with
  | nil => rfl
  | cons ch rest ih =>
    rw [List.mem_cons, not_or] at h
    have hc : ¬ ch = sep := fun e => h.1 e.symm
    simp [splitChars, hc, ih h.2]

theorem splitChars_of_mem (sep : Char) (l : List Char) (h : sep ∈ l) :
    ∃ seg seg' segs, splitChars sep l = seg :: seg' :: segs := by
  induction l with
  | nil => exact absurd h (List.not_mem_nil _)
  | cons ch rest ih =>
    obtain ⟨seg, segs, hs⟩ := splitChars_ne_nil sep rest
    by_cases hc : ch = sep
    · exact ⟨[], seg, segs, by simp [splitChars, hc, hs]⟩
    · have hrest : sep ∈ rest := by
        rcases List.mem_cons.mp h with h | h
        · exact absurd h.symm hc
        · exact h
      obtain ⟨s1, s2, ss, hs'⟩ := ih hrest
      exact ⟨ch :: s1, s2, ss, by simp [splitChars, hc, hs']⟩

/-- The text after the last separator is the last part of the split. -/
theorem splitChars_getLast (sep : Char) (l : List Char) :
    (splitChars sep l).getLast? = some (afterLast sep l) := by
  induction l with
  | nil => rfl
  | cons ch rest ih =>
    by_cases hmem : sep ∈ rest
    · obtain ⟨s1, s2, ss, hs⟩ := splitChars_of_mem sep rest hmem
      have hcontains : rest.contains sep = true := by simpa using hmem
      rw [hs] at ih
      by_cases hc : ch = sep
      · simp only [splitChars, hc, if_true, afterLast, hcontains, hs]
        simpa [List.getLast?_cons_cons] using ih
      · simp only [splitChars, hc, if_false, afterLast, hcontains, if_true, hs]
        simpa [List.getLast?_cons_cons] using ih
    · have hcontains : rest.contains sep = false := by simpa using hmem
      have hs := splitChars_of_not_mem sep rest hmem
      by_cases hc : ch = sep
      · simp [splitChars, hc, afterLast, hmem, hs]
      · simp [splitChars, hc, afterLast, hmem, hs]

theorem afterLast_ne_nil (sep : Char) (l : List Char) (hne : l ≠ [])
    (hlast : l.getLast? ≠ some sep) : afterLast sep l ≠ [] := by
  induction l with
  | nil => exact absurd rfl hne
  | cons ch rest ih =>
    by_cases hmem : sep ∈ rest
    · have hcontains : rest.contains sep = true := by simpa using hmem
      have hrest : rest ≠ [] := List.ne_nil_of_mem hmem
      obtain ⟨x, xs, rfl⟩ := List.exists_cons_of_ne_nil hrest
      rw [List.getLast?_cons_cons] at hlast
      simp only [afterLast, hcontains, if_true]
      exact ih hrest hlast
    · have hcontains : rest.contains sep = false := by simpa using hmem
      by_cases hc : ch = sep
      · simp only [afterLast, hcontains, hc, if_true, Bool.false_eq_true, if_false]
        intro hrest
        subst hrest
        exact hlast (by simp [hc])
      · simp [afterLast, hmem, hc]

theorem afterLast_of_getLast (sep : Char) (l : List Char) (hlast : l.getLast? = some sep) :
    afterLast sep l = [] := by
  induction l with
  | nil => rfl
  | cons ch rest ih =>
    cases rest with
    | nil =>
      have hc : ch = sep := by simpa using hlast
      simp [afterLast, hc]
    | cons x xs =>
      rw [List.getLast?_cons_cons] at hlast
      have hmem : sep ∈ x :: xs := List.mem_of_getLast?_eq_some hlast
      have hcontains : (x :: xs).contains sep = true := by simpa using hmem
      simp only [afterLast, hcontains, if_true] at ih ⊢
      exact ih hlast


theorem HasSuffix_slash_iff (s : String) :
    HasSuffix s "/" = true ↔ s.data.getLast? = some '/' := by
  have hdata : ("/" : String).data = ['/'] := rfl
  simp only [HasSuffix, hdata, List.isSuffixOf_iff_suffix, List.getLast?_eq_some_iff]
  constructor
  · rintro ⟨t, ht⟩
    exact ⟨t, ht.symm⟩
  · rintro ⟨t, ht⟩
    exact ⟨t, ht.symm⟩

/-- What `strings.TrimSuffix(s, "/")` does to the characters of `s`. -/
theorem TrimSuffix_slash (s : String) :
    (HasSuffix s "/" = true ∧ s.data = (TrimSuffix s "/").data ++ ['/']) ∨
      (HasSuffix s "/" = false ∧ TrimSuffix s "/" = s) := by
  by_cases h : HasSuffix s "/" = true
  · left
    refine ⟨h, ?_⟩
    obtain ⟨t, ht⟩ := List.getLast?_eq_some_iff.mp ((HasSuffix_slash_iff s).mp h)
    have hdata : ("/" : String).data = ['/'] := rfl
    simp only [TrimSuffix, h, if_true, hdata, ht, List.length_append, List.length_singleton,
      Nat.add_sub_cancel, List.take_left']
  · right
    have h' : HasSuffix s "/" = false := by simpa using h
    exact ⟨h', by simp [TrimSuffix, h']⟩

/-- Trimming one trailing `/` does not change the non-empty segments. -/
theorem Split_TrimSuffix (s : String) :
    (Split (TrimSuffix s "/") '/').filter (fun x => decide (x ≠ "")) =
      (Split s '/').filter (fun x => decide (x ≠ "")) := by
  rcases TrimSuffix_slash s with ⟨-, h⟩ | ⟨-, h⟩
  · have hempty : (String.mk [] : String) = "" := rfl
    simp [Split, h, splitChars_concat_sep, List.filter_append, List.filter_cons, hempty]
  · rw [h]

/-- The folder name of `DownloadZip` is the last non-empty segment of the prefix when the
prefix, one trailing `/` trimmed, is not empty and does not end in `/`. -/
theorem afterLast_last_segment (pfx : String) (hne : TrimSuffix pfx "/" ≠ "")
    (hslash : HasSuffix (TrimSuffix pfx "/") "/" = false) :
    ((Split pfx '/').filter (fun x => decide (x ≠ ""))).getLast? =
      some ⟨afterLast '/' (TrimSuffix pfx "/").data⟩ := by
  rw [← Split_TrimSuffix]
  generalize TrimSuffix pfx "/" = t at hne hslash
  have hdata : t.data ≠ [] := by
    intro h
    apply hne
    cases t
    simp only at h
    subst h
    rfl
  have hlast : t.data.getLast? ≠ some '/' := by
    intro h
    rw [(HasSuffix_slash_iff t).mpr h] at hslash
    exact Bool.noConfusion hslash
  obtain ⟨init, hinit⟩ := List.getLast?_eq_some_iff.mp (splitChars_getLast '/' t.data)
  have hseg : decide ((String.mk (afterLast '/' t.data)) ≠ "") = true := by
    rw [decide_eq_true_eq]
    intro h
    exact afterLast_ne_nil '/' t.data hdata hlast (congrArg String.data h)
  simp only [Split, hinit, List.map_append, List.map_cons, List.map_nil, List.filter_append,
    List.filter_cons, hseg, if_true, List.filter_nil, List.getLast?_concat]

/-- `DownloadZip` returns without error only after it has set the headers of the archive. -/
theorem DownloadZip_disposition (Z : ZipLib) (h : BucketsHandler) (c c' : Context)
    (hout : (BucketsHandler.DownloadZip Z h c).outcome = .returned c' none) :
    c'.response.Header.Get "Content-Disposition" =
      "attachment; filename=" ++
        Z.quote (zipFileName (c.Param "bucketName") (c.QueryParam "prefix")) := by
  cases hcreds : GetCredentials c with
  | error err =>
    have hredirect : GetCredentialsOrRedirect c =
        ((c.Redirect StatusSeeOther "/login").1, none, none) := by
      simp [GetCredentialsOrRedirect, hcreds, Context.Redirect, StatusSeeOther]
    simp [BucketsHandler.DownloadZip, hredirect] at hout
  | ok creds =>
    simp only [BucketsHandler.DownloadZip, GetCredentialsOrRedirect_ok c creds hcreds] at hout
    cases hclient : h.minioFactory.NewClient creds with
    | none => simp [hclient] at hout
    | some client =>
      simp only [hclient] at hout
      cases hlist : client.ListObjects (c.Param "bucketName")
          ⟨c.QueryParam "prefix", true, ""⟩ with
      | none => simp [hlist] at hout
      | some objectsList =>
        simp only [hlist] at hout
        split at hout
        · simp at hout
        · simp only [Outcome.returned.injEq, and_true] at hout
          subst hout
          simp only [Response.WriteHeader]
          split
          · exact Header.Get_Set _ _ _
          · exact Header.Get_Set _ _ _

/-- Counterexample to C17 as stated: the prefix `a//` is not empty and its last non-empty
segment is `a`, but the archive is named `.zip`. -/
theorem zipFileName_double_slash :
    ((Split "a//" '/').filter (fun x => decide (x ≠ ""))).getLast? = some "a" ∧
      zipFileName "b" "a//" = ".zip" := by
  decide

/-- **C17 (amended).** The archive file name computed by `DownloadZip` is the bucket name
followed by `.zip` when the prefix is empty; for a non-empty prefix it is the text after
the last `/` of the prefix with one trailing `/` removed, followed by `.zip`: that is the
last non-empty `/`-separated segment of the prefix whenever the trimmed prefix is not empty
and does not end in `/`, and it is empty otherwise (the prefix `/` and the prefixes ending
in `//`).  Whenever `DownloadZip` returns without error, the name is in the response as
the quoted file name of `Content-Disposition: attachment`.  The prefix `folder/` gives
`folder.zip`. -/
theorem zipFileName_segment (bucketName pfx : String) :
    zipFileName bucketName "" = bucketName ++ ".zip" ∧
    (pfx ≠ "" → zipFileName bucketName pfx =
      (⟨afterLast '/' (TrimSuffix pfx "/").data⟩ : String) ++ ".zip") ∧
    (pfx ≠ "" → TrimSuffix pfx "/" ≠ "" → HasSuffix (TrimSuffix pfx "/") "/" = false →
      ∃ seg, ((Split pfx '/').filter (fun x => decide (x ≠ ""))).getLast? = some seg ∧
        zipFileName bucketName pfx = seg ++ ".zip") ∧
    (pfx ≠ "" → (TrimSuffix pfx "/" = "" ∨ HasSuffix (TrimSuffix pfx "/") "/" = true) →
      zipFileName bucketName pfx = ".zip") ∧
    (∀ (Z : ZipLib) (h : BucketsHandler) (c c' : Context),
      (BucketsHandler.DownloadZip Z h c).outcome = .returned c' none →
      c'.response.Header.Get "Content-Disposition" =
        "attachment; filename=" ++
          Z.quote (zipFileName (c.Param "bucketName") (c.QueryParam "prefix"))) ∧
    zipFileName bucketName "folder/" = "folder.zip" := by
  have hname : pfx ≠ "" → zipFileName bucketName pfx =
      (⟨afterLast '/' (TrimSuffix pfx "/").data⟩ : String) ++ ".zip" := by
    intro hp
    simp only [zipFileName, ne_eq, hp, not_false_eq_true, if_true]
  refine ⟨by simp [zipFileName], hname, ?_, ?_, DownloadZip_disposition, ?_⟩
  · intro hp hne hslash
    exact ⟨_, afterLast_last_segment pfx hne hslash, hname hp⟩
  · intro hp hcases
    rw [hname hp]
    have hnil : afterLast '/' (TrimSuffix pfx "/").data = [] := by
      rcases hcases with h | h
      · rw [h]
        rfl
      · exact afterLast_of_getLast '/' _ ((HasSuffix_slash_iff _).mp h)
    rw [hnil]
    rfl
  · have hfolder : ("folder/" : String) ≠ "" := by decide
    have hfixed : zipFileName bucketName "folder/" =
        (⟨afterLast '/' (TrimSuffix "folder/" "/").data⟩ : String) ++ ".zip" := by
      simp only [zipFileName, ne_eq, hfolder, not_false_eq_true, if_true]
    rw [hfixed]
    decide


/-! ## Nonces -/

/-- **C21.** Under a 32-byte key, `EncryptCredentials` on a record returns the URL-safe base64
encoding of the 12-byte nonce it drew followed by the sealed JSON; the nonce is recovered
from the output as the first 12 bytes of its decoding; and two calls on the same record
that draw different nonces return different strings. -/
theorem EncryptCredentials_nonce (L : StdLib) (hL : StdLibLaws L) (s : AuthService)
    (hk : s.encryptionKey.length = 32) (e₁ e₂ : Bytes) (h₁ : gcmNonceSize ≤ e₁.length)
    (h₂ : gcmNonceSize ≤ e₂.length) (R : Credentials) :
    ∃ data t₁ t₂, L.jsonMarshal R = some data ∧
      EncryptCredentials L s (some e₁) R = .ok t₁ ∧
      EncryptCredentials L s (some e₂) R = .ok t₂ ∧
      t₁ = L.base64Encode (e₁.take 12 ++ L.gcmSeal s.encryptionKey (e₁.take 12) data) ∧
      (L.base64Decode t₁).map (fun b => b.take 12) = some (e₁.take 12) ∧
      (e₁.take 12 ≠ e₂.take 12 → t₁ ≠ t₂) := by
  obtain ⟨data, hdata⟩ := hL.marshal_total R
  have hn₁ : (e₁.take gcmNonceSize).length = gcmNonceSize := by simp [List.length_take, h₁]
  have hn₂ : (e₂.take gcmNonceSize).length = gcmNonceSize := by simp [List.length_take, h₂]
  refine ⟨data, L.base64Encode (e₁.take gcmNonceSize ++
      L.gcmSeal s.encryptionKey (e₁.take gcmNonceSize) data),
    L.base64Encode (e₂.take gcmNonceSize ++
      L.gcmSeal s.encryptionKey (e₂.take gcmNonceSize) data), hdata, ?_, ?_, rfl, ?_, ?_⟩
  · simp [EncryptCredentials, hdata, aesNewCipher_of_length _ hk, readFull, h₁, gcmSealCall, hn₁]
  · simp [EncryptCredentials, hdata, aesNewCipher_of_length _ hk, readFull, h₂, gcmSealCall, hn₂]
  · rw [hL.decode_encode]
    simp only [Option.map_some', Option.some.injEq]
    rw [List.take_left' (by simpa [gcmNonceSize] using hn₁)]
    rfl
  · intro hne heq
    have hdec := congrArg L.base64Decode heq
    rw [hL.decode_encode, hL.decode_encode, Option.some.injEq] at hdec
    exact hne (List.append_inj hdec (by rw [hn₁, hn₂])).1

/-- Witness for C21: two nonces that differ in every byte, on the reference library. -/
theorem EncryptCredentials_nonce_witness :
    ∃ data t₁ t₂,
      refLib.jsonMarshal ⟨"play.minio.io:9000", "testuser", "testpassword", ""⟩ = some data ∧
      EncryptCredentials refLib ⟨List.replicate 32 7⟩ (some (List.replicate 12 3))
        ⟨"play.minio.io:9000", "testuser", "testpassword", ""⟩ = .ok t₁ ∧
      EncryptCredentials refLib ⟨List.replicate 32 7⟩ (some (List.replicate 12 4))
        ⟨"play.minio.io:9000", "testuser", "testpassword", ""⟩ = .ok t₂ ∧
      t₁ = refLib.base64Encode ((List.replicate 12 (3 : UInt8)).take 12 ++
        refLib.gcmSeal (⟨List.replicate 32 7⟩ : AuthService).encryptionKey
          ((List.replicate 12 (3 : UInt8)).take 12) data) ∧
      (refLib.base64Decode t₁).map (fun b => b.take 12) =
        some ((List.replicate 12 (3 : UInt8)).take 12) ∧
      ((List.replicate 12 (3 : UInt8)).take 12 ≠ (List.replicate 12 (4 : UInt8)).take 12 →
        t₁ ≠ t₂) :=
  EncryptCredentials_nonce refLib refLib_laws ⟨List.replicate 32 7⟩ (by simp)
    (List.replicate 12 3) (List.replicate 12 4) (by simp [gcmNonceSize])
    (by simp [gcmNonceSize]) ⟨"play.minio.io:9000", "testuser", "testpassword", ""⟩

/-! ## `NewAuthService` -/

/-- **C22.** For every value of `IRON_SESSION_KEY` (unset included), with a random source
that delivers 32 bytes, `NewAuthService` returns a service whose key is exactly 32 bytes
long; the key is the environment value if and only if that value is exactly 32 bytes long,
and otherwise it is the 32 bytes read from the random source.  The only other way out is
the panic of the code, taken exactly when the value is not 32 bytes long and the random
source fails. -/
theorem NewAuthService_key (env entropy : Bytes) (hrand : 32 ≤ entropy.length) :
    (∃ s, NewAuthService env (some entropy) = .ok s ∧ s.encryptionKey.length = 32 ∧
      (s.encryptionKey = env ↔ env.length = 32) ∧
      (env.length ≠ 32 → s.encryptionKey = entropy.take 32)) ∧
    (∀ e, NewAuthService env e = .panicked ↔ (env.length ≠ 32 ∧ readFull e 32 = none)) := by
  constructor
  · by_cases henv : env.length = 32
    · exact ⟨⟨env⟩, by simp [NewAuthService, henv], henv, by simp [henv],
        fun h => absurd henv h⟩
    · refine ⟨⟨entropy.take 32⟩, by simp [NewAuthService, henv, readFull, hrand],
        by simp [List.length_take, hrand], ?_, fun _ => rfl⟩
      constructor
      · intro h
        have hlen := congrArg List.length h
        simp only [List.length_take] at hlen
        omega
      · intro h
        exact absurd h henv
  · intro e
    by_cases henv : env.length = 32
    · simp [NewAuthService, henv]
    · cases hread : readFull e 32 with
      | none => simp [NewAuthService, henv, hread]
      | some key => simp [NewAuthService, henv, hread]

/-- Witness for C22: a value of 5 bytes, which is replaced by 32 random bytes. -/
theorem NewAuthService_key_witness :
    (∃ s, NewAuthService [115, 104, 111, 114, 116] (some (List.replicate 40 9)) = .ok s ∧
      s.encryptionKey.length = 32 ∧
      (s.encryptionKey = [115, 104, 111, 114, 116] ↔
        ([115, 104, 111, 114, 116] : Bytes).length = 32) ∧
      (([115, 104, 111, 114, 116] : Bytes).length ≠ 32 →
        s.encryptionKey = (List.replicate 40 (9 : UInt8)).take 32)) ∧
    (∀ e, NewAuthService [115, 104, 111, 114, 116] e = .panicked ↔
      (([115, 104, 111, 114, 116] : Bytes).length ≠ 32 ∧ readFull e 32 = none)) :=
  NewAuthService_key [115, 104, 111, 114, 116] (List.replicate 40 9) (by simp)


/-! ## Secure transport -/

theorem asciiFold_laws : FoldLaws asciiFold where
  refl := by intro s; simp [asciiFold]
  https_upper := by decide

/-- **C30.** The two predicates agree on every request that came over TLS, and whatever
`requestIsSecure` accepts `isSecureRequest` accepts too; but `isSecureRequest` compares the
header `X-Forwarded-Proto` with `https` under case folding and `requestIsSecure` compares
it exactly: on a request without TLS whose header is `HTTPS`, `isSecureRequest` is true
and `requestIsSecure` is false. -/
theorem isSecureRequest_requestIsSecure (S : FoldLib) (hS : FoldLaws S) :
    (∀ c : Context, c.request.TLS = true → requestIsSecure c = isSecureRequest S c) ∧
    (∀ c : Context, requestIsSecure c = true → isSecureRequest S c = true) ∧
    requestIsSecure ⟨⟨"POST", "/login", [("X-Forwarded-Proto", ["HTTPS"])], [], false, [], []⟩,
      ⟨[], [], 200, false, []⟩, [], []⟩ = false ∧
    isSecureRequest S ⟨⟨"POST", "/login", [("X-Forwarded-Proto", ["HTTPS"])], [], false, [],
      []⟩, ⟨[], [], 200, false, []⟩, [], []⟩ = true := by
  refine ⟨?_, ?_, by decide, ?_⟩
  · intro c hT
    simp [requestIsSecure, isSecureRequest, hT]
  · intro c hc
    rcases (requestIsSecure_iff c).mp hc with hT | hH
    · simp [isSecureRequest, hT]
    · simp [isSecureRequest, hH, hS.refl]
  · have hget : Header.Get [("X-Forwarded-Proto", ["HTTPS"])] "X-Forwarded-Proto" = "HTTPS" := by
      decide
    simp only [isSecureRequest, hget, hS.https_upper]
    rfl

/-- Witness for C30: folding of the ASCII letters. -/
theorem isSecureRequest_requestIsSecure_witness :
    (∀ c : Context, c.request.TLS = true → requestIsSecure c = isSecureRequest asciiFold c) ∧
    (∀ c : Context, requestIsSecure c = true → isSecureRequest asciiFold c = true) ∧
    requestIsSecure ⟨⟨"POST", "/login", [("X-Forwarded-Proto", ["HTTPS"])], [], false, [], []⟩,
      ⟨[], [], 200, false, []⟩, [], []⟩ = false ∧
    isSecureRequest asciiFold ⟨⟨"POST", "/login", [("X-Forwarded-Proto", ["HTTPS"])], [], false,
      [], []⟩, ⟨[], [], 200, false, []⟩, [], []⟩ = true :=
  isSecureRequest_requestIsSecure asciiFold asciiFold_laws

/-! ## `shouldUseSSL` -/

theorem splitChars_head (sep : Char) (l : List Char) :
    (splitChars sep l).headD [] = l.takeWhile (fun ch => decide (ch ≠ sep)) := by
  induction l with
  | nil => rfl
  | cons ch rest ih =>
    obtain ⟨seg, segs, h⟩ := splitChars_ne_nil sep rest
    by_cases hc : ch = sep
    · simp [splitChars, hc, List.takeWhile_cons]
    · rw [h] at ih
      simp only [List.headD_cons] at ih
      simp [splitChars, hc, h, List.takeWhile_cons, ih]

theorem Split_head (s : String) (sep : Char) :
    ((Split s sep).headD "").data = s.data.takeWhile (fun ch => decide (ch ≠ sep)) := by
  obtain ⟨seg, segs, h⟩ := splitChars_ne_nil sep s.data
  have hhead := splitChars_head sep s.data
  rw [h] at hhead
  simp only [List.headD_cons] at hhead
  simp [Split, h, hhead]

theorem Contains_dot (s : String) : Contains s "." = true ↔ '.' ∈ s.data := by
  have hdata : (".": String).data = ['.'] := rfl
  simp only [Contains, hdata, List.any_eq_true]
  generalize s.data = l
  induction l with
  | nil => simp
  | cons ch rest ih =>
    simp only [List.tails, List.mem_cons, exists_eq_or_imp, List.mem_cons]
    refine or_congr ?_ ih
    simp [List.isPrefixOf]

/-- **C26.** `shouldUseSSL` returns false exactly when the endpoint is `localhost:9000` or
`127.0.0.1:9000`, or starts with `minio`, has no `.` before its first `:` and contains
`:9000`; every other endpoint gets true: every endpoint with a dot before its first `:`
other than `127.0.0.1:9000` (so `play.minio.io:9000`, `minio.example.com:9000`,
`192.168.1.100:9000`), and `localhost` on any other port.  The Docker service names
`minio:9000` and `minio1:9000` get false. -/
theorem shouldUseSSL_iff (endpoint : String) :
    (shouldUseSSL endpoint = false ↔
      (endpoint = "localhost:9000" ∨ endpoint = "127.0.0.1:9000" ∨
        (HasPrefix endpoint "minio" = true ∧
          '.' ∉ endpoint.data.takeWhile (fun ch => decide (ch ≠ ':')) ∧
          Contains endpoint ":9000" = true))) ∧
    ('.' ∈ endpoint.data.takeWhile (fun ch => decide (ch ≠ ':')) →
      endpoint ≠ "127.0.0.1:9000" → shouldUseSSL endpoint = true) ∧
    (∀ port : String, port ≠ "9000" → shouldUseSSL ("localhost:" ++ port) = true) ∧
    shouldUseSSL "play.minio.io:9000" = true ∧ shouldUseSSL "minio.example.com:9000" = true ∧
    shouldUseSSL "192.168.1.100:9000" = true ∧ shouldUseSSL "minio:9000" = false ∧
    shouldUseSSL "minio1:9000" = false := by
  have hdot : ∀ e : String, Contains ((Split e ':').headD "") "." = true ↔
      '.' ∈ e.data.takeWhile (fun ch => decide (ch ≠ ':')) := by
    intro e
    rw [Contains_dot, Split_head]
  have hiff : ∀ e : String, shouldUseSSL e = false ↔
      (e = "localhost:9000" ∨ e = "127.0.0.1:9000" ∨
        (HasPrefix e "minio" = true ∧
          '.' ∉ e.data.takeWhile (fun ch => decide (ch ≠ ':')) ∧
          Contains e ":9000" = true)) := by
    intro e
    unfold shouldUseSSL
    by_cases hlocal : e = "localhost:9000" ∨ e = "127.0.0.1:9000"
    · simp only [hlocal, if_true, true_iff]
      tauto
    · rw [if_neg hlocal]
      rw [not_or] at hlocal
      rw [← hdot e]
      by_cases hdocker : (HasPrefix e "minio" && !Contains ((Split e ':').headD "") "." &&
          Contains e ":9000") = true
      · simp only [hdocker, if_true, true_iff]
        simp only [Bool.and_eq_true, Bool.not_eq_true'] at hdocker
        right; right
        exact ⟨hdocker.1.1, by rw [hdocker.1.2]; exact Bool.false_ne_true, hdocker.2⟩
      · simp only [hdocker, Bool.false_eq_true, if_false]
        refine ⟨fun h => Bool.noConfusion h, ?_⟩
        rintro (h | h | ⟨h1, h2, h3⟩)
        · exact absurd h hlocal.1
        · exact absurd h hlocal.2
        · exfalso
          apply hdocker
          simp only [Bool.and_eq_true, Bool.not_eq_true']
          exact ⟨⟨h1, by simpa using h2⟩, h3⟩
  refine ⟨hiff endpoint, ?_, ?_, by decide, by decide, by decide, by decide, by decide⟩
  · intro hmem hne
    cases hssl : shouldUseSSL endpoint with
    | true => rfl
    | false =>
      rcases (hiff endpoint).mp hssl with h | h | ⟨-, h, -⟩
      · rw [h] at hmem
        exact absurd hmem (by decide)
      · exact absurd h hne
      · exact absurd hmem h
  · intro port hport
    cases hssl : shouldUseSSL ("localhost:" ++ port) with
    | true => rfl
    | false =>
      rcases (hiff _).mp hssl with h | h | ⟨h, -, -⟩
      · exfalso
        apply hport
        have hd := congrArg String.data h
        simp only [String.data_append] at hd
        have hd' : "localhost:".data ++ port.data = "localhost:".data ++ "9000".data := hd
        exact String.ext (List.append_cancel_left hd')
      · exfalso
        have hd := congrArg (fun s => s.data.head?) h
        simp [String.data_append] at hd
      · exfalso
        simp [HasPrefix, String.data_append, List.isPrefixOf] at h


/-! ## Handlers without credentials -/

/-- **C28.** On a context that holds no credentials (response not yet committed),
`GetCredentialsOrRedirect` writes the 303 redirect to `/login` and returns the pair
`(nil, nil)`, since `c.Redirect` returns no error; the guard `if err != nil` of its callers
therefore does not fire, and `BrowseBucket` and `DownloadZip` go on to evaluate `*creds` on
the nil record: both end in a panic after the redirect has been written, with nothing
handed to the template and no archive started. -/
theorem GetCredentialsOrRedirect_missing (B : BrowseLib) (Z : ZipLib) (h : BucketsHandler)
    (renderer : Option (String → BrowserData → Option String)) (c : Context)
    (hmissing : c.Get ContextKeyCreds = none) (hfresh : c.response.Committed = false) :
    ∃ c', GetCredentialsOrRedirect c = (c', none, none) ∧
      c'.response.Status = 303 ∧ c'.response.Committed = true ∧
      c'.response.Header.Get "Location" = "/login" ∧
      BucketsHandler.BrowseBucket B h renderer c = ⟨.panicked c', none⟩ ∧
      BucketsHandler.DownloadZip Z h c = ⟨.panicked c', []⟩ := by
  obtain ⟨c', hredirect, hstatus, hcommitted, hlocation, -⟩ := Context.Redirect_login c hfresh
  have hcreds : GetCredentials c = .error (.http StatusUnauthorized "Unauthorized") := by
    simp [GetCredentials, hmissing]
  have hget : GetCredentialsOrRedirect c = (c', none, none) := by
    simp [GetCredentialsOrRedirect, hcreds, hredirect]
  exact ⟨c', hget, hstatus, hcommitted, hlocation,
    by simp [BucketsHandler.BrowseBucket, hget], by simp [BucketsHandler.DownloadZip, hget]⟩

/-- Witness for C28: a request on `/buckets/b` with an empty context store. -/
theorem GetCredentialsOrRedirect_missing_witness :
    ∃ c', GetCredentialsOrRedirect ⟨⟨"GET", "/buckets/b", [], [], false, [], []⟩,
        ⟨[], [], 200, false, []⟩, [], [("bucketName", "b")]⟩ = (c', none, none) ∧
      c'.response.Status = 303 ∧ c'.response.Committed = true ∧
      c'.response.Header.Get "Location" = "/login" ∧
      BucketsHandler.BrowseBucket ⟨fun s => s, fun _ => ""⟩
        ⟨⟨fun _ => some (listingClient [] "")⟩⟩ none
        ⟨⟨"GET", "/buckets/b", [], [], false, [], []⟩,
          ⟨[], [], 200, false, []⟩, [], [("bucketName", "b")]⟩ = ⟨.panicked c', none⟩ ∧
      BucketsHandler.DownloadZip ⟨fun _ => true, fun s => s⟩
        ⟨⟨fun _ => some (listingClient [] "")⟩⟩
        ⟨⟨"GET", "/buckets/b", [], [], false, [], []⟩,
          ⟨[], [], 200, false, []⟩, [], [("bucketName", "b")]⟩ = ⟨.panicked c', []⟩ :=
  GetCredentialsOrRedirect_missing ⟨fun s => s, fun _ => ""⟩ ⟨fun _ => true, fun s => s⟩
    ⟨⟨fun _ => some (listingClient [] "")⟩⟩ none
    ⟨⟨"GET", "/buckets/b", [], [], false, [], []⟩, ⟨[], [], 200, false, []⟩, [],
      [("bucketName", "b")]⟩ rfl rfl

/-! ## Resources of `DownloadZip` -/

/-- The events of one pass of the loop of `DownloadZip` over a file: the open failed; or
the reader was opened, the entry created, the copy made and the reader closed; or the
reader was opened, the entry not created and the reader closed. -/
theorem zipLoop_events (Z : ZipLib) (client : MinioClient) (bucketName pfx : String)
    (files : List Minio.ObjectInfo) :
    ∀ (body : List BodyChunk) (events : List ZipEvent),
      ∃ blocks : List (List ZipEvent),
        (zipLoop Z client bucketName pfx files body events).2 = events ++ blocks.flatten ∧
        List.Forall₂ (fun o b =>
          b = [.openFailed o.Key] ∨
          (∃ n ok, b = [.opened o.Key, .created n, .copied n ok, .readerClosed o.Key]) ∨
          (∃ n, b = [.opened o.Key, .createFailed n, .readerClosed o.Key])) files blocks := by
  induction files with
  | nil => intro body events; exact ⟨[], by simp [zipLoop], List.Forall₂.nil⟩
  | cons o files ih =>
    intro body events
    cases hopen : client.GetObjectReader bucketName o.Key with
    | none =>
      obtain ⟨blocks, hev, hrel⟩ := ih body (events ++ [.openFailed o.Key])
      refine ⟨[.openFailed o.Key] :: blocks, ?_, List.Forall₂.cons (Or.inl rfl) hrel⟩
      simp only [zipLoop, hopen, hev, List.flatten_cons, List.append_assoc]
    | some r =>
      obtain ⟨reader, size⟩ := r
      by_cases hcreate : Z.createOk (TrimPrefix o.Key pfx) = true
      · obtain ⟨blocks, hev, hrel⟩ := ih
          (body ++ [.zipEntry (TrimPrefix o.Key pfx) reader.Data])
          (events ++ [.opened o.Key, .created (TrimPrefix o.Key pfx),
            .copied (TrimPrefix o.Key pfx) (!reader.Err), .readerClosed o.Key])
        refine ⟨[.opened o.Key, .created (TrimPrefix o.Key pfx),
            .copied (TrimPrefix o.Key pfx) (!reader.Err), .readerClosed o.Key] :: blocks, ?_,
          List.Forall₂.cons (Or.inr (Or.inl ⟨_, _, rfl⟩)) hrel⟩
        simp only [zipLoop, hopen, hcreate, if_true, hev, List.flatten_cons, List.append_assoc]
      · obtain ⟨blocks, hev, hrel⟩ := ih body
          (events ++ [.opened o.Key, .createFailed (TrimPrefix o.Key pfx), .readerClosed o.Key])
        refine ⟨[.opened o.Key, .createFailed (TrimPrefix o.Key pfx), .readerClosed o.Key] ::
            blocks, ?_, List.Forall₂.cons (Or.inr (Or.inr ⟨_, rfl⟩)) hrel⟩
        simp only [zipLoop, hopen, hcreate, Bool.false_eq_true, if_false, hev,
          List.flatten_cons, List.append_assoc]

/-- Counting in the events of the loop: every reader opened is closed, and the loop neither
creates nor closes the archive writer. -/
theorem zipBlocks_count (files : List Minio.ObjectInfo) (blocks : List (List ZipEvent))
    (hrel : List.Forall₂ (fun o b =>
      b = [ZipEvent.openFailed o.Key] ∨
      (∃ n ok, b = [.opened o.Key, .created n, .copied n ok, .readerClosed o.Key]) ∨
      (∃ n, b = [.opened o.Key, .createFailed n, .readerClosed o.Key])) files blocks) :
    (∀ key, blocks.flatten.count (.opened key) = blocks.flatten.count (.readerClosed key)) ∧
      blocks.flatten.count .writerCreated = 0 ∧ blocks.flatten.count .writerClosed = 0 := by
  induction hrel with
  | nil => simp
  | cons hb _ ih =>
    obtain ⟨hkeys, hcreated, hclosed⟩ := ih
    rcases hb with rfl | ⟨n, ok, rfl⟩ | ⟨n, rfl⟩
    · refine ⟨fun key => ?_, ?_, ?_⟩
      · simp [List.count_cons, hkeys key]
      · simp [List.count_cons, hcreated]
      · simp [List.count_cons, hclosed]
    · refine ⟨fun key => ?_, ?_, ?_⟩
      · simp [List.count_cons, hkeys key]
      · simp [List.count_cons, hcreated]
      · simp [List.count_cons, hclosed]
    · refine ⟨fun key => ?_, ?_, ?_⟩
      · simp [List.count_cons, hkeys key]
      · simp [List.count_cons, hcreated]
      · simp [List.count_cons, hclosed]

/-- **C23.** Every run of `DownloadZip` is of one of two kinds.  Either it ends before
streaming (an error return or a panic) and has touched no reader and no archive writer.  Or
it streams and returns without error, and its events are: the archive writer created; then,
for each file in order, either a failed open, or the reader opened, the entry created, the
copy made (with or without error) and the reader closed, or the reader opened, the entry
refused and the reader closed; then the archive writer closed.  So every reader opened is
closed exactly once, right after its file, and the archive writer is created once and
closed once, after the last file. -/
theorem DownloadZip_resources (Z : ZipLib) (h : BucketsHandler) (c : Context) :
    (((BucketsHandler.DownloadZip Z h c).events = [] ∧
        ∀ c', (BucketsHandler.DownloadZip Z h c).outcome ≠ .returned c' none) ∨
      (∃ c' files blocks, (BucketsHandler.DownloadZip Z h c).outcome = .returned c' none ∧
        (BucketsHandler.DownloadZip Z h c).events =
          ZipEvent.writerCreated :: blocks.flatten ++ [.writerClosed] ∧
        List.Forall₂ (fun (o : Minio.ObjectInfo) b =>
          b = [ZipEvent.openFailed o.Key] ∨
          (∃ n ok, b = [.opened o.Key, .created n, .copied n ok, .readerClosed o.Key]) ∨
          (∃ n, b = [.opened o.Key, .createFailed n, .readerClosed o.Key])) files blocks)) ∧
    (∀ key, (BucketsHandler.DownloadZip Z h c).events.count (.opened key) =
      (BucketsHandler.DownloadZip Z h c).events.count (.readerClosed key)) ∧
    (BucketsHandler.DownloadZip Z h c).events.count .writerCreated =
      (BucketsHandler.DownloadZip Z h c).events.count .writerClosed ∧
    (BucketsHandler.DownloadZip Z h c).events.count .writerClosed ≤ 1 := by
  have hkinds : ((BucketsHandler.DownloadZip Z h c).events = [] ∧
        ∀ c', (BucketsHandler.DownloadZip Z h c).outcome ≠ .returned c' none) ∨
      (∃ c' files blocks, (BucketsHandler.DownloadZip Z h c).outcome = .returned c' none ∧
        (BucketsHandler.DownloadZip Z h c).events =
          ZipEvent.writerCreated :: blocks.flatten ++ [.writerClosed] ∧
        List.Forall₂ (fun (o : Minio.ObjectInfo) b =>
          b = [ZipEvent.openFailed o.Key] ∨
          (∃ n ok, b = [.opened o.Key, .created n, .copied n ok, .readerClosed o.Key]) ∨
          (∃ n, b = [.opened o.Key, .createFailed n, .readerClosed o.Key])) files blocks) := by
    cases hcreds : GetCredentials c with
    | error err =>
      have hredirect : GetCredentialsOrRedirect c =
          ((c.Redirect StatusSeeOther "/login").1, none, none) := by
        simp [GetCredentialsOrRedirect, hcreds, Context.Redirect, StatusSeeOther]
      left
      simp [BucketsHandler.DownloadZip, hredirect]
    | ok creds =>
      have hget := GetCredentialsOrRedirect_ok c creds hcreds
      cases hclient : h.minioFactory.NewClient creds with
      | none =>
        left
        simp [BucketsHandler.DownloadZip, hget, hclient]
      | some client =>
        cases hlist : client.ListObjects (c.Param "bucketName")
            ⟨c.QueryParam "prefix", true, ""⟩ with
        | none =>
          left
          simp [BucketsHandler.DownloadZip, hget, hclient, hlist]
        | some objectsList =>
          by_cases hfiles : (objectsList.filter (fun obj => !HasSuffix obj.Key "/")).length = 0
          · left
            simp only [BucketsHandler.DownloadZip, hget, hclient, hlist, if_pos hfiles]
            simp
          · right
            obtain ⟨blocks, hev, hrel⟩ := zipLoop_events Z client (c.Param "bucketName")
              (c.QueryParam "prefix") (objectsList.filter (fun obj => !HasSuffix obj.Key "/"))
              ((({ ({ c.response with
                  Header := c.response.Header.Set "Content-Type" "application/zip" } :
                    Response) with
                Header := (c.response.Header.Set "Content-Type" "application/zip").Set
                  "Content-Disposition"
                  ("attachment; filename=" ++
                    Z.quote (zipFileName (c.Param "bucketName") (c.QueryParam "prefix"))) } :
                  Response).WriteHeader StatusOK).Body) [.writerCreated]
            simp only [BucketsHandler.DownloadZip, hget, hclient, hlist, if_neg hfiles]
            exact ⟨_, _, blocks, rfl, by rw [hev]; rfl, hrel⟩
  refine ⟨hkinds, ?_, ?_, ?_⟩
  · intro key
    rcases hkinds with ⟨hnil, -⟩ | ⟨c', files, blocks, -, hev, hrel⟩
    · simp [hnil]
    · rw [hev]
      simp [List.count_cons, List.count_append, (zipBlocks_count files blocks hrel).1 key]
  · rcases hkinds with ⟨hnil, -⟩ | ⟨c', files, blocks, -, hev, hrel⟩
    · simp [hnil]
    · rw [hev]
      simp [List.count_cons, List.count_append, (zipBlocks_count files blocks hrel).2.1,
        (zipBlocks_count files blocks hrel).2.2]
  · rcases hkinds with ⟨hnil, -⟩ | ⟨c', files, blocks, -, hev, hrel⟩
    · simp [hnil]
    · rw [hev]
      simp [List.count_cons, List.count_append, (zipBlocks_count files blocks hrel).2.2]


/-! ## Breadcrumb paths -/

theorem splitChars_flatten (sep : Char) (l : List Char) :
    ((splitChars sep l).map (fun seg => seg ++ [sep])).flatten = l ++ [sep] := by
  induction l with
  | nil => rfl
  | cons ch rest ih =>
    obtain ⟨seg, segs, h⟩ := splitChars_ne_nil sep rest
    by_cases hc : ch = sep
    · simp [splitChars, hc, ih]
    · rw [h] at ih
      simp only [List.map_cons, List.flatten_cons] at ih
      simp [splitChars, hc, h, ih]

theorem String.join_data (l : List String) :
    (String.join l).data = (l.map String.data).flatten := by
  induction l using List.reverseRecOn with
  | nil => rfl
  | append_singleton l x ih => simp [String.join_concat, ih]

/-- The texts `part ++ "/"` of the parts of a split, put together, give the text back with a
`/` at its end. -/
theorem Split_join (t : String) :
    String.join ((Split t '/').map (fun s => s ++ "/")) = t ++ "/" := by
  apply String.ext
  have hslash : ("/" : String).data = ['/'] := rfl
  rw [String.join_data, String.data_append, hslash, ← splitChars_flatten '/' t.data]
  simp [Split, Function.comp_def, hslash]

/-- Counterexample to C29 as stated: the prefix `a//b/` has an empty segment; its second
breadcrumb has the path `a/b/`, which is not a leading substring of the prefix, and so the
last breadcrumb is not the prefix itself. -/
theorem buildBreadcrumbs_empty_segment :
    buildBreadcrumbs "a//b/" = [⟨"a", "a/"⟩, ⟨"b", "a/b/"⟩] ∧
      HasPrefix "a//b/" "a/b/" = false := by
  decide

/-- **C29 (amended).** For every prefix without an empty segment (no leading `/`, no `//`),
each breadcrumb's `Path` is a leading substring of the browsed prefix, taken with a trailing
`/` appended when the prefix lacks one, and the last breadcrumb's `Path` is that prefix
itself. -/
theorem buildBreadcrumbs_paths (pfx : String)
    (hseg : ∀ s ∈ Split (TrimSuffix pfx "/") '/', s ≠ "") :
    (∀ b ∈ buildBreadcrumbs pfx, HasPrefix (TrimSuffix pfx "/" ++ "/") b.Path = true) ∧
    (∃ b, (buildBreadcrumbs pfx).getLast? = some b ∧ b.Path = TrimSuffix pfx "/" ++ "/") ∧
    TrimSuffix pfx "/" ++ "/" = (if HasSuffix pfx "/" then pfx else pfx ++ "/") := by
  have hpfx : pfx ≠ "" := by
    intro h
    subst h
    exact hseg "" (by decide) rfl
  obtain ⟨-, hnames, hpaths⟩ := crumbs_fold (Split (TrimSuffix pfx "/") '/')
  have hfilter : (Split (TrimSuffix pfx "/") '/').filter (fun s => decide (s ≠ "")) =
      Split (TrimSuffix pfx "/") '/' := by
    rw [List.filter_eq_self]
    intro s hs
    simpa using hseg s hs
  rw [hfilter] at hnames hpaths
  have hbuild : buildBreadcrumbs pfx =
      ((Split (TrimSuffix pfx "/") '/').foldl crumbStep ("", [])).2 := by
    simp only [buildBreadcrumbs, ne_eq, hpfx, not_false_eq_true, if_true]
  rw [hbuild]
  generalize ((Split (TrimSuffix pfx "/") '/').foldl crumbStep ("", [])).2 = crumbs at *
  generalize hparts : Split (TrimSuffix pfx "/") '/' = parts at *
  have hfull : String.join (parts.map (fun s => s ++ "/")) = TrimSuffix pfx "/" ++ "/" := by
    rw [← hparts, Split_join]
  have hlen : crumbs.length = parts.length := by
    rw [← List.length_map crumbs (·.Name), hnames]
  have hne : parts ≠ [] := by
    rw [← hparts]
    obtain ⟨seg, segs, h⟩ := splitChars_ne_nil '/' (TrimSuffix pfx "/").data
    simp [Split, h]
  refine ⟨?_, ?_, ?_⟩
  · intro b hb
    have hmem : b.Path ∈ crumbs.map (·.Path) := List.mem_map_of_mem _ hb
    rw [hpaths, List.mem_map] at hmem
    obtain ⟨i, -, hi⟩ := hmem
    rw [← hi, ← hfull]
    simp only [HasPrefix, List.isPrefixOf_iff_prefix, String.join_data]
    conv_rhs => rw [← List.take_append_drop (i + 1) parts]
    simp only [List.map_append, List.flatten_append]
    exact List.prefix_append _ _
  · have hcne : crumbs ≠ [] := by
      intro h
      rw [h] at hlen
      exact hne (List.length_eq_zero.mp hlen.symm)
    refine ⟨crumbs.getLast hcne, List.getLast?_eq_getLast _ hcne, ?_⟩
    have hlast : (crumbs.map (·.Path)).getLast? = some (crumbs.getLast hcne).Path := by
      rw [List.getLast?_map, List.getLast?_eq_getLast _ hcne]
      rfl
    obtain ⟨n, hn⟩ : ∃ n, parts.length = n + 1 :=
      ⟨parts.length - 1, by have := List.length_pos.mpr hne; omega⟩
    rw [hpaths, hn, List.range_succ, List.map_append, List.map_cons, List.map_nil,
      List.getLast?_concat, Option.some.injEq] at hlast
    rw [← hlast, List.take_of_length_le (by omega), hfull]
  · rcases TrimSuffix_slash pfx with ⟨hs, hdata⟩ | ⟨hs, heq⟩
    · rw [if_pos hs]
      apply String.ext
      rw [String.data_append, hdata]
    · rw [heq, hs]
      simp

/-- Witness for C29 (amended): the prefix `docs/2024`, which lacks the trailing `/`. -/
theorem buildBreadcrumbs_paths_witness :
    (∀ b ∈ buildBreadcrumbs "docs/2024",
      HasPrefix (TrimSuffix "docs/2024" "/" ++ "/") b.Path = true) ∧
    (∃ b, (buildBreadcrumbs "docs/2024").getLast? = some b ∧
      b.Path = TrimSuffix "docs/2024" "/" ++ "/") ∧
    TrimSuffix "docs/2024" "/" ++ "/" =
      (if HasSuffix "docs/2024" "/" then "docs/2024" else "docs/2024" ++ "/") :=
  buildBreadcrumbs_paths "docs/2024" (by decide)


/-! ## CSRF -/

/-- Counterexample to C27 as stated: a `POST` that carries neither `HX-Request: true` nor an
`X-CSRF-Token` header.  The `Skipper` of `CSRF()` accepts it, so the middleware hands it to
the handler unchanged, without any token check. -/
theorem CSRF_skips_plain_post :
    csrfSkipper ⟨⟨"POST", "/users/create", [], [], false, [], []⟩, ⟨[], [], 200, false, []⟩,
      [], []⟩ = true ∧
    CSRF "fresh-token" 0 (fun c => .returned c none)
      ⟨⟨"POST", "/users/create", [], [], false, [], []⟩, ⟨[], [], 200, false, []⟩, [], []⟩ =
      ⟨.returned ⟨⟨"POST", "/users/create", [], [], false, [], []⟩, ⟨[], [], 200, false, []⟩,
          [], []⟩ none,
        [⟨⟨"POST", "/users/create", [], [], false, [], []⟩, ⟨[], [], 200, false, []⟩, [],
          []⟩]⟩ := by
  decide

/-- **C27 (amended).** For a request whose method is not `GET`, `HEAD`, `OPTIONS` or
`TRACE`: when it carries `HX-Request: true`, the CSRF token check is applied, and a request
with no `X-CSRF-Token` value equal to the token (the value of the `csrf` cookie, or a fresh
token without one) is rejected with 400 (header absent) or 403 before it reaches the
handler; when it does not carry `HX-Request: true`, the `Skipper` accepts it and the
middleware hands it to the handler without a token check. -/
theorem CSRF_unsafe_method (fresh : String) (now : Int) (next : HandlerFunc) (c : Context)
    (hmethod : ¬ (c.request.Method = "GET" ∨ c.request.Method = "HEAD" ∨
      c.request.Method = "OPTIONS" ∨ c.request.Method = "TRACE")) :
    (c.request.Header.Get "Hx-Request" = "true" →
      (∀ v ∈ c.request.Header.Values "X-Csrf-Token",
        v ≠ (match c.Cookie "csrf" with
          | none => fresh
          | some k => k.Value)) →
      (CSRF fresh now next c).nextCalls = [] ∧
      ((c.request.Header.Values "X-Csrf-Token" = [] ∧ (CSRF fresh now next c).outcome =
          .returned c (some (.http 400 "missing csrf token in request header"))) ∨
        (c.request.Header.Values "X-Csrf-Token" ≠ [] ∧ (CSRF fresh now next c).outcome =
          .returned c (some (.http 403 "invalid csrf token"))))) ∧
    (c.request.Header.Get "Hx-Request" ≠ "true" → CSRF fresh now next c = ⟨next c, [c]⟩) := by
  constructor
  · intro hhx hinvalid
    have hskip : csrfSkipper c = false := by simp [csrfSkipper, hmethod, hhx]
    cases hvalues : c.request.Header.Values "X-Csrf-Token" with
    | nil =>
      simp [CSRF, CSRFWithConfig, hskip, hmethod, hvalues]
    | cons v vs =>
      have hany : (v :: vs).any (fun clientToken => clientToken ==
          (match c.Cookie "csrf" with
            | none => fresh
            | some k => k.Value)) = false := by
        rw [List.any_eq_false]
        intro x hx
        rw [hvalues] at hinvalid
        simpa using hinvalid x hx
      simp only [CSRF, CSRFWithConfig, hskip, Bool.false_eq_true, if_false, hmethod, hvalues,
        hany]
      simp
  · intro hhx
    have hskip : csrfSkipper c = true := by simp [csrfSkipper, hmethod, hhx]
    simp [CSRF, CSRFWithConfig, hskip]

/-- Witness for C27 (amended): the request of `TestCSRFMiddlewareRejectsPostWithoutToken`. -/
theorem CSRF_unsafe_method_witness :
    (csrfTestContext.request.Header.Get "Hx-Request" = "true" →
      (∀ v ∈ csrfTestContext.request.Header.Values "X-Csrf-Token",
        v ≠ (match csrfTestContext.Cookie "csrf" with
          | none => "fresh-token"
          | some k => k.Value)) →
      (CSRF "fresh-token" 0 (fun c => .returned c none) csrfTestContext).nextCalls = [] ∧
      ((csrfTestContext.request.Header.Values "X-Csrf-Token" = [] ∧
          (CSRF "fresh-token" 0 (fun c => .returned c none) csrfTestContext).outcome =
            .returned csrfTestContext
              (some (.http 400 "missing csrf token in request header"))) ∨
        (csrfTestContext.request.Header.Values "X-Csrf-Token" ≠ [] ∧
          (CSRF "fresh-token" 0 (fun c => .returned c none) csrfTestContext).outcome =
            .returned csrfTestContext (some (.http 403 "invalid csrf token"))))) ∧
    (csrfTestContext.request.Header.Get "Hx-Request" ≠ "true" →
      CSRF "fresh-token" 0 (fun c => .returned c none) csrfTestContext =
        ⟨(fun c => Outcome.returned c none) csrfTestContext, [csrfTestContext]⟩) :=
  CSRF_unsafe_method "fresh-token" 0 (fun c => .returned c none) csrfTestContext (by decide)


/-! ## `FormatBytes` -/

theorem exactFormat_laws : FloatFormatLaws exactFormat where
  exact := by
    intro bytes j q t _ _ ht heq
    have hpos : 0 < 2 ^ j := Nat.two_pow_pos j
    have hdiv : 10 * bytes / 2 ^ j = 10 * q + t := by
      rw [heq, Nat.mul_div_cancel _ hpos]
    simp only [exactFormat, hdiv]
    have h1 : (10 * q + t) / 10 = q := by omega
    have h2 : (10 * q + t) % 10 = t := by omega
    rw [h1, h2]

/-- The loop of `FormatBytes`: it multiplies `div` by 1024 and adds one to `exp` once for
each power of 1024 that fits in `n`, and `div` stays within 64 bits. -/
theorem unitLoop_spec (m : Nat) :
    ∀ n div exp, n < 1024 ^ (m + 1) → div * 1024 ^ m < 2 ^ 64 →
      ∃ j, j ≤ m ∧ (1024 ≤ n → 1024 ^ j ≤ n) ∧ (n < 1024 → j = 0) ∧ n < 1024 ^ (j + 1) ∧
        unitLoop n div exp = (div * 1024 ^ j, exp + j) := by
  induction m with
  | zero =>
    intro n div exp hn _
    have hlt : ¬ n ≥ 1024 := by simpa using hn
    refine ⟨0, le_rfl, fun h => absurd h hlt, fun _ => rfl, by simpa using hn, ?_⟩
    rw [unitLoop, if_neg hlt]
    simp
  | succ m ih =>
    intro n div exp hn hdiv
    by_cases hge : n ≥ 1024
    · have hn' : n / 1024 < 1024 ^ (m + 1) := by
        rw [Nat.div_lt_iff_lt_mul (by decide)]
        calc n < 1024 ^ (m + 1 + 1) := hn
          _ = 1024 ^ (m + 1) * 1024 := by ring
      have hpow : 1 ≤ 1024 ^ m := Nat.one_le_pow _ _ (by decide)
      have hsmall : div * 1024 < 2 ^ 64 := by
        calc div * 1024 ≤ div * 1024 * 1024 ^ m := Nat.le_mul_of_pos_right _ hpow
          _ = div * 1024 ^ (m + 1) := by ring
          _ < 2 ^ 64 := hdiv
      have hmod : div * 1024 % 2 ^ 64 = div * 1024 := Nat.mod_eq_of_lt hsmall
      have hdiv' : div * 1024 * 1024 ^ m < 2 ^ 64 := by
        calc div * 1024 * 1024 ^ m = div * 1024 ^ (m + 1) := by ring
          _ < 2 ^ 64 := hdiv
      obtain ⟨j, hjm, hjle, hjzero, hjlt, hloop⟩ := ih (n / 1024) (div * 1024) (exp + 1) hn' hdiv'
      refine ⟨j + 1, by omega, fun _ => ?_, fun h => absurd hge (by omega), ?_, ?_⟩
      · by_cases hq : 1024 ≤ n / 1024
        · calc 1024 ^ (j + 1) = 1024 ^ j * 1024 := by ring
            _ ≤ n / 1024 * 1024 := Nat.mul_le_mul_right _ (hjle hq)
            _ ≤ n := Nat.div_mul_le_self n 1024
        · have hj0 : j = 0 := hjzero (by omega)
          rw [hj0]
          simpa using hge
      · have := (Nat.div_lt_iff_lt_mul (by decide : 0 < 1024)).mp hjlt
        calc n < 1024 ^ (j + 1) * 1024 := this
          _ = 1024 ^ (j + 1 + 1) := by ring
      · rw [unitLoop, if_pos hge, hmod, hloop]
        refine Prod.ext ?_ ?_
        · show div * 1024 * 1024 ^ j = div * 1024 ^ (j + 1)
          ring
        · show exp + 1 + j = exp + (j + 1)
          omega
    · have hlt : n < 1024 := by omega
      refine ⟨0, by omega, fun h => absurd h hge, fun _ => rfl, by simpa using hlt, ?_⟩
      rw [unitLoop, if_neg hge]
      simp

/-- **C25.** `FormatBytes` is total on the unsigned 64-bit inputs.  For `b < 1024` it returns
the decimal of `b` followed by ` B`.  For `b ≥ 1024` the loop leaves with a unit index
`k ≤ 5`, so the index into `KMGTPE` is in range, and with the divisor `1024^(k+1)`, which
fits in 64 bits; `k` is the unique index with `1024^(k+1) ≤ b < 1024^(k+2)`; and the result
is the quotient of `b` by `1024^(k+1)` printed with one decimal, followed by a space, the
`k`-th letter and `B`.  With a floating-point quotient that is exact on these values, 1536
gives `1.5 KB` and `2^40` gives `1.0 TB`.  `FormatFileSize` returns `0 B` for every
negative size and `FormatBytes` of the size otherwise. -/
theorem FormatBytes_total (F : FloatFormat) (bytes : Nat) (h64 : bytes < 2 ^ 64) :
    (∃ text, FormatBytes F bytes = .ok text) ∧
    (bytes < 1024 → FormatBytes F bytes = .ok (toString bytes ++ " B")) ∧
    (1024 ≤ bytes → ∃ k letter, k ≤ 5 ∧ "KMGTPE".data[k]? = some letter ∧
      1024 ^ (k + 1) < 2 ^ 64 ∧ unitLoop (bytes / 1024) 1024 0 = (1024 ^ (k + 1), k) ∧
      1024 ^ (k + 1) ≤ bytes ∧ bytes < 1024 ^ (k + 2) ∧
      (∀ k', 1024 ^ (k' + 1) ≤ bytes → bytes < 1024 ^ (k' + 2) → k' = k) ∧
      FormatBytes F bytes =
        .ok (F.quotient1 bytes (1024 ^ (k + 1)) ++ " " ++ String.singleton letter ++ "B")) ∧
    (FloatFormatLaws F →
      FormatBytes F 1536 = .ok "1.5 KB" ∧ FormatBytes F (2 ^ 40) = .ok "1.0 TB") ∧
    (∀ size : Int, size < 0 → FormatFileSize F size = .ok "0 B") ∧
    (∀ size : Int, 0 ≤ size → FormatFileSize F size = FormatBytes F size.toNat) := by
  have hbig : 1024 ≤ bytes → ∃ k letter, k ≤ 5 ∧ "KMGTPE".data[k]? = some letter ∧
      1024 ^ (k + 1) < 2 ^ 64 ∧ unitLoop (bytes / 1024) 1024 0 = (1024 ^ (k + 1), k) ∧
      1024 ^ (k + 1) ≤ bytes ∧ bytes < 1024 ^ (k + 2) ∧
      (∀ k', 1024 ^ (k' + 1) ≤ bytes → bytes < 1024 ^ (k' + 2) → k' = k) ∧
      FormatBytes F bytes =
        .ok (F.quotient1 bytes (1024 ^ (k + 1)) ++ " " ++ String.singleton letter ++ "B") := by
    intro hge
    have hn : bytes / 1024 < 1024 ^ (5 + 1) := by
      rw [Nat.div_lt_iff_lt_mul (by decide)]
      calc bytes < 2 ^ 64 := h64
        _ ≤ 1024 ^ (5 + 1) * 1024 := by norm_num
    obtain ⟨k, hk5, hkle, hkzero, hklt, hloop⟩ :=
      unitLoop_spec 5 (bytes / 1024) 1024 0 hn (by norm_num)
    have hloop' : unitLoop (bytes / 1024) 1024 0 = (1024 ^ (k + 1), k) := by
      rw [hloop]
      refine Prod.ext ?_ ?_
      · show 1024 * 1024 ^ k = 1024 ^ (k + 1)
        ring
      · show 0 + k = k
        omega
    have hlow : 1024 ^ (k + 1) ≤ bytes := by
      by_cases hq : 1024 ≤ bytes / 1024
      · calc 1024 ^ (k + 1) = 1024 ^ k * 1024 := by ring
          _ ≤ bytes / 1024 * 1024 := Nat.mul_le_mul_right _ (hkle hq)
          _ ≤ bytes := Nat.div_mul_le_self bytes 1024
      · rw [hkzero (by omega)]
        simpa using hge
    have hhigh : bytes < 1024 ^ (k + 2) := by
      have := (Nat.div_lt_iff_lt_mul (by decide : 0 < 1024)).mp hklt
      calc bytes < 1024 ^ (k + 1) * 1024 := this
        _ = 1024 ^ (k + 2) := by ring
    have hfits : 1024 ^ (k + 1) < 2 ^ 64 := by
      calc 1024 ^ (k + 1) ≤ 1024 ^ (5 + 1) := Nat.pow_le_pow_right (by decide) (by omega)
        _ < 2 ^ 64 := by norm_num
    obtain ⟨letter, hletter⟩ : ∃ letter, "KMGTPE".data[k]? = some letter := by
      have hk : k = 0 ∨ k = 1 ∨ k = 2 ∨ k = 3 ∨ k = 4 ∨ k = 5 := by omega
      rcases hk with rfl | rfl | rfl | rfl | rfl | rfl <;> exact ⟨_, rfl⟩
    refine ⟨k, letter, hk5, hletter, hfits, hloop', hlow, hhigh, ?_, ?_⟩
    · intro k' hlow' hhigh'
      by_contra hne
      rcases Nat.lt_or_gt_of_ne hne with hlt | hgt
      · have : 1024 ^ (k' + 2) ≤ 1024 ^ (k + 1) :=
          Nat.pow_le_pow_right (by decide) (by omega)
        omega
      · have : 1024 ^ (k + 2) ≤ 1024 ^ (k' + 1) :=
          Nat.pow_le_pow_right (by decide) (by omega)
        omega
    · have hnot : ¬ bytes < 1024 := by omega
      simp only [FormatBytes, if_neg hnot, hloop', hletter]
  refine ⟨?_, ?_, hbig, ?_, ?_, ?_⟩
  · by_cases hsmall : bytes < 1024
    · exact ⟨toString bytes ++ " B", by simp only [FormatBytes, if_pos hsmall]⟩
    · obtain ⟨k, letter, -, -, -, -, -, -, -, hfmt⟩ := hbig (by omega)
      exact ⟨_, hfmt⟩
  · intro hsmall
    simp only [FormatBytes, if_pos hsmall]
  · intro hF
    constructor
    · have hq := hF.exact 1536 10 1 5 (by norm_num) (by norm_num) (by norm_num) (by norm_num)
      have hloop : unitLoop (1536 / 1024) 1024 0 = (2 ^ 10, 0) := by simp [unitLoop]
      unfold FormatBytes
      rw [if_neg (by norm_num), hloop]
      simp only [hq]
      rfl
    · have hq := hF.exact (2 ^ 40) 40 1 0 (by norm_num) (by norm_num) (by norm_num)
        (by norm_num)
      have hloop : unitLoop (2 ^ 40 / 1024) 1024 0 = (2 ^ 40, 3) := by simp [unitLoop]
      unfold FormatBytes
      rw [if_neg (by norm_num), hloop]
      simp only [hq]
      rfl
  · intro size hneg
    simp only [FormatFileSize, if_pos hneg]
  · intro size hpos
    have hnot : ¬ size < 0 := by omega
    simp only [FormatFileSize, if_neg hnot]

/-- Witness for C25: 1536 bytes. -/
theorem FormatBytes_total_witness : FormatBytes exactFormat 1536 = .ok "1.5 KB" :=
  ((FormatBytes_total exactFormat 1536 (by norm_num)).2.2.2.1 exactFormat_laws).1


/-! ## `formatExpiration` -/

theorem exactFloat_laws : Float64Laws exactFloat where
  exact_int := by intro n _; rfl
  mono := by intro x y h; exact h
  error := by
    intro x _
    simp only [exactFloat, sub_self, abs_zero]
    exact add_nonneg (div_nonneg (abs_nonneg x) (pow_nonneg (by norm_num) _))
      (div_nonneg zero_le_one (pow_nonneg (by norm_num) _))

/-- The floating-point count of units in a duration of at most 168 units lies between the
whole number of units and the exact quotient plus `171 * 2^-53`. -/
theorem durationIn_bounds (F : Float64) (hF : Float64Laws F) (d U : Int) (hd : 0 ≤ d)
    (hU1 : 1 ≤ U) (hU : U ≤ 3600000000000) (hm : d / U ≤ 168) :
    ((d / U : Int) : ℚ) ≤ durationIn F d U ∧
      durationIn F d U ≤ (d : ℚ) / U + 171 / 2 ^ 53 := by
  have hU0 : (0 : Int) < U := by omega
  have hUq : (0 : ℚ) < U := by exact_mod_cast hU0
  have hm0 : 0 ≤ d / U := Int.ediv_nonneg hd (by omega)
  have hr0 : 0 ≤ d % U := Int.emod_nonneg d (by omega)
  have hrU : d % U < U := Int.emod_lt_of_pos d hU0
  have hsplit : (d : ℚ) = U * ((d / U : Int) : ℚ) + ((d % U : Int) : ℚ) := by
    exact_mod_cast (Int.ediv_add_emod d U).symm
  simp only [durationIn, Int.tdiv_eq_ediv hd (by omega : (0 : Int) ≤ U),
    Int.tmod_eq_emod hd (by omega : (0 : Int) ≤ U)]
  generalize d / U = m at *
  generalize d % U = r at *
  have hmq : (0 : ℚ) ≤ m := by exact_mod_cast hm0
  have hmq' : (m : ℚ) ≤ 168 := by exact_mod_cast hm
  have hrq : (0 : ℚ) ≤ r := by exact_mod_cast hr0
  have hrq' : (r : ℚ) ≤ U := by exact_mod_cast le_of_lt hrU
  have hround_m : F.round m = m := hF.exact_int m (by
    rw [abs_of_nonneg hm0]
    calc m ≤ 168 := hm
      _ ≤ 2 ^ 53 := by norm_num)
  have hround_r : F.round r = r := hF.exact_int r (by
    rw [abs_of_nonneg hr0]
    calc r ≤ 3600000000000 := by omega
      _ ≤ 2 ^ 53 := by norm_num)
  have hround_0 : F.round 0 = 0 := by
    have := hF.exact_int 0 (by norm_num)
    simpa using this
  rw [hround_m, hround_r]
  have hρ0 : (0 : ℚ) ≤ (r : ℚ) / U := div_nonneg hrq (le_of_lt hUq)
  have hρ1 : (r : ℚ) / U ≤ 1 := (div_le_one hUq).mpr hrq'
  have hT : (d : ℚ) / U = m + (r : ℚ) / U := by
    rw [hsplit]
    field_simp
    ring
  generalize (r : ℚ) / U = ρ at *
  have hq0 : 0 ≤ F.round ρ := by
    have := hF.mono 0 ρ hρ0
    rwa [hround_0] at this
  have hqerr := hF.error ρ (by
    rw [abs_of_nonneg hρ0]
    calc ρ ≤ 1 := hρ1
      _ ≤ 2 ^ 1023 := by norm_num)
  rw [abs_of_nonneg hρ0] at hqerr
  have hq1 := (abs_le.mp hqerr).2
  generalize F.round ρ = q at *
  have hsum0 : 0 ≤ (m : ℚ) + q := by linarith
  have hsum1 : (m : ℚ) + q ≤ 2 ^ 1023 := by
    have h170 : (m : ℚ) + q ≤ 171 := by
      have : (1 : ℚ) / 2 ^ 53 ≤ 1 := by norm_num
      have : (1 : ℚ) / 2 ^ 1075 ≤ 1 := by norm_num
      have : ρ / 2 ^ 53 ≤ 1 / 2 ^ 53 := by
        apply div_le_div_of_nonneg_right hρ1
        positivity
      linarith
    calc (m : ℚ) + q ≤ 171 := h170
      _ ≤ 2 ^ 1023 := by norm_num
  have hserr := hF.error (m + q) (by rwa [abs_of_nonneg hsum0])
  rw [abs_of_nonneg hsum0] at hserr
  have hs1 := (abs_le.mp hserr).2
  have hs0 : (m : ℚ) ≤ F.round (m + q) := by
    have := hF.mono m (m + q) (by linarith)
    rwa [hround_m] at this
  refine ⟨hs0, ?_⟩
  rw [hT]
  have hη : (1 : ℚ) / 2 ^ 1075 ≤ 1 / 2 ^ 106 := by
    apply one_div_le_one_div_of_le (by positivity)
    exact pow_le_pow_right₀ (by norm_num) (by norm_num)
  have hρε : ρ / 2 ^ 53 ≤ 1 / 2 ^ 53 := by
    apply div_le_div_of_nonneg_right hρ1
    positivity
  have hqε : q / 2 ^ 53 ≤ 2 / 2 ^ 53 := by
    apply div_le_div_of_nonneg_right _ (by positivity)
    have : (1 : ℚ) / 2 ^ 53 ≤ 1 / 2 := by norm_num
    have : (1 : ℚ) / 2 ^ 106 ≤ 1 / 2 := by norm_num
    linarith
  have hmε : (m : ℚ) / 2 ^ 53 ≤ 168 / 2 ^ 53 := by
    apply div_le_div_of_nonneg_right hmq'
    positivity
  have hsplit2 : ((m : ℚ) + q) / 2 ^ 53 = (m : ℚ) / 2 ^ 53 + q / 2 ^ 53 := by ring
  have hsmall : (2 : ℚ) / 2 ^ 106 ≤ 1 / 2 ^ 53 := by norm_num
  have hcombine : (1 : ℚ) / 2 ^ 53 + 168 / 2 ^ 53 + 2 / 2 ^ 53 = 171 / 2 ^ 53 := by ring
  linarith


theorem goInt_eq (x : ℚ) (k : Int) (h0 : 0 ≤ k) (h1 : (k : ℚ) ≤ x) (h2 : x < k + 1) :
    goInt x = k := by
  have hx : 0 ≤ x := le_trans (by exact_mod_cast h0) h1
  have hlow : k ≤ Rat.floor x := Rat.le_floor.mpr h1
  have hhigh : ¬ (k + 1 ≤ Rat.floor x) := by
    intro h
    have := (Rat.le_floor (z := k + 1) (r := x)).mp h
    push_cast at this
    linarith
  simp only [goInt, hx, if_true]
  omega

/-- `int(d.Hours())` is the whole number of hours, for a duration of at most 7 days. -/
theorem goInt_Hours (F : Float64) (hF : Float64Laws F) (d : Int) (hd : 0 ≤ d)
    (hmax : d ≤ 604800000000000) : goInt (Duration.Hours F d) = d / 3600000000000 := by
  have hm : d / 3600000000000 ≤ 168 := by omega
  obtain ⟨hlow, hhigh⟩ := durationIn_bounds F hF d 3600000000000 hd (by norm_num) le_rfl hm
  have hnext : d + 1 ≤ (d / 3600000000000 + 1) * 3600000000000 := by omega
  have hnextq : (d : ℚ) + 1 ≤ ((d / 3600000000000 : Int) + 1) * 3600000000000 := by
    exact_mod_cast hnext
  have hε : (171 : ℚ) / 2 ^ 53 < 1 / 3600000000000 := by norm_num
  refine goInt_eq _ _ (by omega) hlow ?_
  have hdiv : (d : ℚ) / ((3600000000000 : Int) : ℚ) ≤
      ((d / 3600000000000 : Int) : ℚ) + 1 - 1 / 3600000000000 := by
    rw [div_le_iff₀ (by norm_num)]
    push_cast
    linarith
  show durationIn F d 3600000000000 < _
  linarith

/-- `int(d.Minutes())` is the whole number of minutes, for a duration below one hour. -/
theorem goInt_Minutes (F : Float64) (hF : Float64Laws F) (d : Int) (hd : 0 ≤ d)
    (hmax : d < 3600000000000) : goInt (Duration.Minutes F d) = d / 60000000000 := by
  have hm : d / 60000000000 ≤ 168 := by omega
  obtain ⟨hlow, hhigh⟩ := durationIn_bounds F hF d 60000000000 hd (by norm_num) (by norm_num) hm
  have hnext : d + 1 ≤ (d / 60000000000 + 1) * 60000000000 := by omega
  have hnextq : (d : ℚ) + 1 ≤ ((d / 60000000000 : Int) + 1) * 60000000000 := by
    exact_mod_cast hnext
  have hε : (171 : ℚ) / 2 ^ 53 < 1 / 60000000000 := by norm_num
  refine goInt_eq _ _ (by omega) hlow ?_
  have hdiv : (d : ℚ) / ((60000000000 : Int) : ℚ) ≤
      ((d / 60000000000 : Int) : ℚ) + 1 - 1 / 60000000000 := by
    rw [div_le_iff₀ (by norm_num)]
    push_cast
    linarith
  show durationIn F d 60000000000 < _
  linarith

/-- `int(d.Hours() / 24)` is the whole number of days, for a duration of at most 7 days. -/
theorem goInt_days (F : Float64) (hF : Float64Laws F) (d : Int) (hd : 0 ≤ d)
    (hmax : d ≤ 604800000000000) :
    goInt (F.round (Duration.Hours F d / 24)) = d / (24 * 3600000000000) := by
  have hm : d / 3600000000000 ≤ 168 := by omega
  obtain ⟨hlow, hhigh⟩ := durationIn_bounds F hF d 3600000000000 hd (by norm_num) le_rfl hm
  have hn7 : d / (24 * 3600000000000) ≤ 7 := by omega
  have hn0 : 0 ≤ d / (24 * 3600000000000) := by omega
  have hmn : 24 * (d / (24 * 3600000000000)) ≤ d / 3600000000000 := by omega
  have hmnq : (24 : ℚ) * ((d / (24 * 3600000000000) : Int) : ℚ) ≤
      ((d / 3600000000000 : Int) : ℚ) := by exact_mod_cast hmn
  have hnext : d + 1 ≤ (d / (24 * 3600000000000) + 1) * (24 * 3600000000000) := by omega
  have hnextq : (d : ℚ) + 1 ≤
      ((d / (24 * 3600000000000) : Int) + 1) * (24 * 3600000000000) := by
    exact_mod_cast hnext
  have hdiv : (d : ℚ) / ((3600000000000 : Int) : ℚ) ≤
      24 * (((d / (24 * 3600000000000) : Int) : ℚ) + 1) - 1 / 3600000000000 := by
    rw [div_le_iff₀ (by norm_num)]
    push_cast
    linarith
  have hround_n : F.round ((d / (24 * 3600000000000) : Int) : ℚ) =
      ((d / (24 * 3600000000000) : Int) : ℚ) :=
    hF.exact_int _ (by
      rw [abs_of_nonneg hn0]
      calc d / (24 * 3600000000000) ≤ 7 := hn7
        _ ≤ 2 ^ 53 := by norm_num)
  have hn7q : ((d / (24 * 3600000000000) : Int) : ℚ) ≤ 7 := by exact_mod_cast hn7
  have hn0q : (0 : ℚ) ≤ ((d / (24 * 3600000000000) : Int) : ℚ) := by exact_mod_cast hn0
  change ((d / 3600000000000 : Int) : ℚ) ≤ Duration.Hours F d at hlow
  change Duration.Hours F d ≤ _ at hhigh
  generalize Duration.Hours F d = s at *
  have hε : (171 : ℚ) / 2 ^ 53 ≤ 1 := by norm_num
  have hs0 : 0 ≤ s / 24 := by
    apply div_nonneg _ (by norm_num)
    linarith
  have hs8 : s / 24 ≤ 8 := by
    rw [div_le_iff₀ (by norm_num)]
    have : (0 : ℚ) ≤ 1 / 3600000000000 := by norm_num
    linarith
  have hlowD : ((d / (24 * 3600000000000) : Int) : ℚ) ≤ F.round (s / 24) := by
    have := hF.mono ((d / (24 * 3600000000000) : Int) : ℚ) (s / 24) (by
      rw [le_div_iff₀ (by norm_num)]
      linarith)
    rwa [hround_n] at this
  have herr := hF.error (s / 24) (by
    rw [abs_of_nonneg hs0]
    calc s / 24 ≤ 8 := hs8
      _ ≤ 2 ^ 1023 := by norm_num)
  rw [abs_of_nonneg hs0] at herr
  have hD := (abs_le.mp herr).2
  refine goInt_eq _ _ hn0 hlowD ?_
  have hs24 : s / 24 ≤ ((d / (24 * 3600000000000) : Int) : ℚ) + 1 - 1 / (24 * 3600000000000) +
      171 / (24 * 2 ^ 53) := by
    rw [div_le_iff₀ (by norm_num)]
    have : (((d / (24 * 3600000000000) : Int) : ℚ) + 1 - 1 / (24 * 3600000000000) +
        171 / (24 * 2 ^ 53)) * 24 =
        24 * (((d / (24 * 3600000000000) : Int) : ℚ) + 1) - 1 / 3600000000000 +
          171 / 2 ^ 53 := by ring
    rw [this]
    linarith
  have hsε : s / 24 / 2 ^ 53 ≤ 8 / 2 ^ 53 := by
    apply div_le_div_of_nonneg_right hs8
    positivity
  have hnum : (171 : ℚ) / (24 * 2 ^ 53) + 8 / 2 ^ 53 + 1 / 2 ^ 1075 <
      1 / (24 * 3600000000000) := by norm_num
  linarith

/-- `formatExpiration` on a duration of at most 7 days, in integer arithmetic. -/
theorem formatExpiration_eq (F : Float64) (hF : Float64Laws F) (d : Int) (hd : 0 ≤ d)
    (hmax : d ≤ 604800000000000) :
    formatExpiration F d =
      if d ≥ 24 * 3600000000000 then
        (if d / (24 * 3600000000000) = 1 then "1 day"
          else toString (d / (24 * 3600000000000)) ++ " days")
      else if d ≥ 3600000000000 then
        (if d / 3600000000000 = 1 then "1 hour" else toString (d / 3600000000000) ++ " hours")
      else
        (if d / 60000000000 = 1 then "1 minute"
          else toString (d / 60000000000) ++ " minutes") := by
  unfold formatExpiration
  simp only [timeHour]
  by_cases hday : d ≥ 24 * 3600000000000
  · rw [if_pos hday, if_pos hday, goInt_days F hF d hd hmax]
  · rw [if_neg hday, if_neg hday]
    by_cases hhour : d ≥ 3600000000000
    · rw [if_pos hhour, if_pos hhour, goInt_Hours F hF d hd hmax]
    · rw [if_neg hhour, if_neg hhour, goInt_Minutes F hF d hd (by omega)]

/-- **C24.** For every duration `d` from 1 second to 7 days, in nanoseconds, and a `float64`
arithmetic that keeps the IEEE 754 contracts, `formatExpiration` shows exactly one unit, by
integer division into the largest unit that applies: `d / 24h` days when `d ≥ 24h`,
otherwise `d / 1h` hours when `d ≥ 1h`, otherwise `d / 1min` minutes; and it uses the
singular form (`1 day`, `1 hour`, `1 minute`) exactly when the count is 1.  So 86400 s
gives `1 day`, 10800 s gives `3 hours` and 2700 s gives `45 minutes`. -/
theorem formatExpiration_units (F : Float64) (hF : Float64Laws F) (d : Int)
    (hmin : 1000000000 ≤ d) (hmax : d ≤ 604800000000000) :
    formatExpiration F d =
      (if d ≥ 24 * 3600000000000 then
        (if d / (24 * 3600000000000) = 1 then "1 day"
          else toString (d / (24 * 3600000000000)) ++ " days")
      else if d ≥ 3600000000000 then
        (if d / 3600000000000 = 1 then "1 hour" else toString (d / 3600000000000) ++ " hours")
      else
        (if d / 60000000000 = 1 then "1 minute"
          else toString (d / 60000000000) ++ " minutes")) ∧
    formatExpiration F (86400 * 1000000000) = "1 day" ∧
    formatExpiration F (10800 * 1000000000) = "3 hours" ∧
    formatExpiration F (2700 * 1000000000) = "45 minutes" := by
  refine ⟨formatExpiration_eq F hF d (by omega) hmax, ?_, ?_, ?_⟩
  · rw [formatExpiration_eq F hF _ (by norm_num) (by norm_num)]
    decide
  · rw [formatExpiration_eq F hF _ (by norm_num) (by norm_num)]
    decide
  · rw [formatExpiration_eq F hF _ (by norm_num) (by norm_num)]
    decide

/-- Witness for C24: 90 minutes, on the arithmetic without rounding. -/
theorem formatExpiration_units_witness :
    formatExpiration exactFloat 5400000000000 =
      (if (5400000000000 : Int) ≥ 24 * 3600000000000 then
        (if (5400000000000 : Int) / (24 * 3600000000000) = 1 then "1 day"
          else toString ((5400000000000 : Int) / (24 * 3600000000000)) ++ " days")
      else if (5400000000000 : Int) ≥ 3600000000000 then
        (if (5400000000000 : Int) / 3600000000000 = 1 then "1 hour"
          else toString ((5400000000000 : Int) / 3600000000000) ++ " hours")
      else
        (if (5400000000000 : Int) / 60000000000 = 1 then "1 minute"
          else toString ((5400000000000 : Int) / 60000000000) ++ " minutes")) ∧
    formatExpiration exactFloat (86400 * 1000000000) = "1 day" ∧
    formatExpiration exactFloat (10800 * 1000000000) = "3 hours" ∧
    formatExpiration exactFloat (2700 * 1000000000) = "45 minutes" :=
  formatExpiration_units exactFloat exactFloat_laws 5400000000000 (by norm_num) (by norm_num)

end IronBuckets
